import Mathlib

/-!
# The buffered I/O core of kore (`src/net.c`)

A shallow embedding of the send and receive queue engine of `net.c`, and the
properties of its queues.

Conventions of the embedding
* A `TAILQ` of `struct netbuf` is a `List netbuf`, head first.  A pointer to a
  queued record is the record's pool slot `id`; an operation through such a
  pointer acts on the first record of the queue carrying that id.
* A memory block is its address together with its cells; a cell that was
  allocated and never written is `none`.
* Calls that leave `net.c` (the TLS transport, the SPDY layer, the allocator,
  the receive callbacks) are recorded, in call order, in `World.trace`.
* `kore_debug` only logs and is left out.  The `owner` field of a record is
  written and never read in `net.c`; the model has a single connection and
  leaves the field out.
* The byte-order functions take the byte order of the host as a parameter:
  `le = true` on a little-endian host, `false` on a big-endian one.
-/

namespace Kore

/-! ## Constants and declarations of `kore.h`, `spdy.h` and OpenSSL -/

/-- One byte cell of a memory block: `none` while it is uninitialised. -/
abbrev Cell := Option Nat

/-- Modelled from the spec: the constants of `kore.h` that `net.c` uses and that
are not part of the source at hand: the fixed default payload capacity
`NETBUF_SEND_PAYLOAD_MAX`, and the number of values `LEN_MOD` (a power of two,
`2^32` for `u_int32_t`) of the length fields `s_off`, `b_len`, `m_len` of
`struct netbuf`. -/
structure Params where
  NETBUF_SEND_PAYLOAD_MAX : Nat
  LEN_MOD : Nat
deriving DecidableEq, Repr

/-- Modelled from the spec: `KORE_RESULT_ERROR` of `kore.h`; `net_send_flush`
tests it with `!net_send(c)`, so it is the false value. -/
def KORE_RESULT_ERROR : Int := 0

/-- Modelled from the spec: `KORE_RESULT_OK` of `kore.h`, the true value. -/
def KORE_RESULT_OK : Int := 1

/-- The value of `SSL_ERROR_WANT_READ` in OpenSSL's `ssl.h`. -/
def SSL_ERROR_WANT_READ : Int := 2

/-- The value of `SSL_ERROR_WANT_WRITE` in OpenSSL's `ssl.h`. -/
def SSL_ERROR_WANT_WRITE : Int := 3

/-- Modelled from the spec: the `kind` of a buffer record, `SEND | RECV`
(`NETBUF_SEND`, `NETBUF_RECV` of `kore.h`). -/
inductive NetbufType where
  | NETBUF_RECV
  | NETBUF_SEND
deriving DecidableEq, Repr

/-- Modelled from the spec: the `flags` of a buffer record, a set over the four
flag bits of `kore.h`; `x |= F` sets a field, `x &= ~F` clears it and `x & F`
reads it. -/
structure NetbufFlags where
  NETBUF_CALL_CB_ALWAYS : Bool
  NETBUF_FORCE_REMOVE : Bool
  NETBUF_MUST_RESEND : Bool
  NETBUF_IS_STREAM : Bool
deriving DecidableEq, Repr

/-- The value `0` of a record's flags: no flag set. -/
def NetbufFlags.zero : NetbufFlags :=
  { NETBUF_CALL_CB_ALWAYS := false, NETBUF_FORCE_REMOVE := false,
    NETBUF_MUST_RESEND := false, NETBUF_IS_STREAM := false }

/-- Modelled from the spec: the readiness flags of a connection (`kore.h`):
write-possible, read-possible, close-when-empty. -/
structure ConnFlags where
  CONN_READ_POSSIBLE : Bool
  CONN_WRITE_POSSIBLE : Bool
  CONN_CLOSE_EMPTY : Bool
deriving DecidableEq, Repr

/-- A pointer to a memory block: the block's address and its cells. -/
structure Block where
  addr : Nat
  cells : List Cell
deriving DecidableEq, Repr

/-- Modelled from the spec: `struct netbuf` of `kore.h`, field by field as
`net.c` uses them; `id` is the address of the pool slot holding the record,
`stream` and `cb` are `none` for `NULL`. -/
structure netbuf where
  id : Nat
  buf : Block
  s_off : Nat
  b_len : Nat
  m_len : Nat
  type : NetbufType
  flags : NetbufFlags
  stream : Option Nat
  cb : Option Nat
deriving DecidableEq, Repr

/-- Modelled from the spec: the frame type argument of `spdy_frame_send`
(`spdy.h`). -/
inductive SpdyFrameType where
  | SPDY_DATA_FRAME
deriving DecidableEq, Repr

/-- Modelled from the spec: the frame flag argument of `spdy_frame_send`
(`spdy.h`). -/
inductive SpdyFrameFlag where
  | FLAG_FIN
deriving DecidableEq, Repr

/-- Modelled from the spec: the calls `net.c` makes to its collaborators, with
their arguments.  `SSL_write` records the bytes at `buf + s_off`, the length
requested and the value returned; `SSL_read` the length requested, as the `int`
it is passed as, and the value returned; `cb` the callback and the record it is
invoked on. -/
inductive Event where
  | SSL_write (offered : List Cell) (len : Nat) (r : Int)
  | SSL_read (len : Int) (r : Int)
  | spdy_update_wsize (stream : Nat) (r : Int)
  | spdy_frame_send (type : SpdyFrameType) (flags : SpdyFrameFlag) (len : Nat)
      (stream : Nat) (misc : Nat)
  | kore_mem_free (addr : Nat)
  | kore_pool_put (nb : Nat)
  | cb (fn : Nat) (nb : Nat)
  | kore_connection_disconnect
deriving DecidableEq, Repr

/-- Modelled from the spec: the transport transfer primitives, "attempt transfer
of up to N bytes, returning bytes transferred or a would-block/fatal signal".
`SSL_write s bytes len` and `SSL_read s len` return the `int` result and the
next transport state (`SSL_read` also the bytes it delivers); `SSL_get_error`
classifies a non-positive result.  The length of a read is the `int` that
reaches the parameter `num`; the length of a write is at most
`NETBUF_SEND_PAYLOAD_MAX`. -/
structure Transport (σ : Type) where
  SSL_write : σ → List Cell → Nat → Int × σ
  SSL_read : σ → Int → Int × List Nat × σ
  SSL_get_error : σ → Int → Int

/-- Modelled from the spec: `struct connection` of `kore.h`, the fields `net.c`
uses: the TLS session, the readiness flags and the two queues. -/
structure connection (σ : Type) where
  ssl : σ
  flags : ConnFlags
  send_queue : List netbuf
  recv_queue : List netbuf

/-- The state `net.c` runs in: the connection, the global record pool `nb_pool`
(the next slot it hands out), the allocator (the next address it hands out) and
the calls made to the collaborators so far, oldest first. -/
structure World (σ : Type) where
  c : connection σ
  nb_pool : Nat
  heap : Nat
  trace : List Event

/-! ## Memory and queue primitives -/

/-- The call `kore_malloc(n)`: a block of `n` uninitialised cells at address
`addr`. -/
def kore_malloc (addr n : Nat) : Block :=
  { addr := addr, cells := List.replicate n none }

/-- The call `memcpy(dst + off, src, n)` on the cells of `dst`. -/
def memcpy (dst : List Cell) (off : Nat) (src : List Nat) (n : Nat) : List Cell :=
  dst.take off ++ (src.take n).map some ++ dst.drop (off + n)

/-- Unsigned subtraction `a - b` of two length fields, with wrap-around. -/
def usub (P : Params) (a b : Nat) : Nat :=
  (a + P.LEN_MOD - b) % P.LEN_MOD

/-- The conversion of an unsigned value to the C type `int` (32 bits, two's
complement), as it happens to an argument passed for an `int` parameter: the
value modulo `2^32`, read as a signed number. -/
def to_int (x : Nat) : Int :=
  if x % 2 ^ 32 < 2 ^ 31 then ((x % 2 ^ 32 : Nat) : Int)
  else ((x % 2 ^ 32 : Nat) : Int) - 2 ^ 32

/-- Unsigned addition `a + b` stored into a length field, with wrap-around. -/
def uadd (P : Params) (a b : Nat) : Nat :=
  (a + b) % P.LEN_MOD

/-- Apply `f` to the record a pointer designates: the first record of the queue
whose slot is `nb`. -/
def nb_update (f : netbuf → netbuf) (nb : Nat) : List netbuf → List netbuf
  | [] => []
  | x :: xs => if x.id = nb then f x :: xs else x :: nb_update f nb xs

/-- The record a pointer designates in a queue. -/
def nb_find (nb : Nat) (q : List netbuf) : Option netbuf :=
  q.find? (fun x => decide (x.id = nb))

/-- The macro `TAILQ_REMOVE(list, nb, list)`. -/
def TAILQ_REMOVE (nb : Nat) : List netbuf → List netbuf
  | [] => []
  | x :: xs => if x.id = nb then xs else x :: TAILQ_REMOVE nb xs

/-- Replace the last record of a queue (a write through `TAILQ_LAST`). -/
def set_last (nb : netbuf) (q : List netbuf) : List netbuf :=
  q.dropLast ++ [nb]

/-! ## Enqueueing -/

/-- Lines 56-72 of `net_send_queue`: the record built for the `len` bytes at
`d`, in pool slot `id`, with its payload allocated at address `addr`. -/
def new_send_netbuf (P : Params) (id addr : Nat) (d : List Nat) (len : Nat)
    (s : Option Nat) : netbuf :=
  let m_len := if len < P.NETBUF_SEND_PAYLOAD_MAX then P.NETBUF_SEND_PAYLOAD_MAX else len
  let buf := kore_malloc addr m_len
  let buf := if len > 0 then { buf with cells := memcpy buf.cells 0 d len } else buf
  { id := id, flags := NetbufFlags.zero, cb := none, s_off := 0, stream := s,
    b_len := len, type := NetbufType.NETBUF_SEND, m_len := m_len, buf := buf }

/-- Lines 56-74 of `net_send_queue`: a new record for the `len` bytes at `d` is
taken from the pool, filled and inserted at the tail. -/
def net_send_queue_new {σ : Type} (P : Params) (w : World σ) (d : List Nat)
    (len : Nat) (s : Option Nat) : World σ :=
  { w with
    c := { w.c with send_queue := w.c.send_queue ++ [new_send_netbuf P w.nb_pool w.heap d len s] },
    nb_pool := w.nb_pool + 1,
    heap := w.heap + 1 }

/-- The function `net_send_queue(c, data, len, s)`. -/
def net_send_queue {σ : Type} (P : Params) (w : World σ) (data : List Nat)
    (len : Nat) (s : Option Nat) : World σ :=
  match w.c.send_queue.getLast? with
  | some nb =>
    if nb.b_len < nb.m_len ∧ nb.stream = s then
      let avail := nb.m_len - nb.b_len
      if len < avail then
        let nb1 := { nb with
          buf := { nb.buf with cells := memcpy nb.buf.cells nb.b_len data len },
          b_len := nb.b_len + len }
        { w with c := { w.c with send_queue := set_last nb1 w.c.send_queue } }
      else if len > avail then
        let nb1 := { nb with
          buf := { nb.buf with cells := memcpy nb.buf.cells nb.b_len data avail },
          b_len := nb.b_len + avail }
        let w1 := { w with c := { w.c with send_queue := set_last nb1 w.c.send_queue } }
        let len1 := len - avail
        let d1 := data.drop avail
        if len1 = 0 then w1 else net_send_queue_new P w1 d1 len1 s
      else net_send_queue_new P w data len s
    else net_send_queue_new P w data len s
  | none => net_send_queue_new P w data len s

/-- The function `net_send_stream(c, data, len, s)`; `data` is the caller's
pointer. -/
def net_send_stream {σ : Type} (w : World σ) (data : Block) (len : Nat)
    (s : Option Nat) : World σ :=
  let nb : netbuf :=
    { id := w.nb_pool, cb := none, s_off := 0, buf := data, stream := s, b_len := len,
      m_len := len, type := NetbufType.NETBUF_SEND,
      flags := { NetbufFlags.zero with NETBUF_IS_STREAM := true } }
  { w with
    c := { w.c with send_queue := w.c.send_queue ++ [nb] },
    nb_pool := w.nb_pool + 1 }

/-- The function `net_recv_queue(c, len, flags, out, cb)`; the second component
is the pointer stored through `out`.  The `size_t` argument `len` is stored
into the length fields of the record. -/
def net_recv_queue {σ : Type} (P : Params) (w : World σ) (len : Nat)
    (flags : NetbufFlags) (cb : Option Nat) : World σ × Nat :=
  let b_len := len % P.LEN_MOD
  let nb : netbuf :=
    { id := w.nb_pool, cb := cb, b_len := b_len, m_len := b_len, s_off := 0,
      stream := none, flags := flags, type := NetbufType.NETBUF_RECV,
      buf := kore_malloc w.heap b_len }
  ({ w with
     c := { w.c with recv_queue := w.c.recv_queue ++ [nb] },
     nb_pool := w.nb_pool + 1,
     heap := w.heap + 1 }, nb.id)

/-- The call `kore_realloc(buf, n)`: a block of `n` cells at address `addr`
that keeps the cells of `buf` up to the smaller of the two sizes. -/
def kore_realloc (addr : Nat) (buf : Block) (n : Nat) : Block :=
  { addr := addr, cells := buf.cells.take n ++ List.replicate (n - buf.cells.length) none }

/-- Lines 128-136 of `net_recv_expand`, for a record `r` of the receive queue. -/
def net_recv_expand_apply {σ : Type} (P : Params) (w : World σ) (r : netbuf)
    (len : Nat) (cb : Option Nat) : World σ :=
  let b_len := uadd P r.b_len len
  let r1 := { r with cb := cb, b_len := b_len, m_len := b_len,
                     buf := kore_realloc w.heap r.buf b_len }
  { w with
    c := { w.c with recv_queue := r1 :: TAILQ_REMOVE r.id w.c.recv_queue },
    heap := w.heap + 1 }

/-- The function `net_recv_expand(c, nb, len, cb)`.  The pointer `nb` is looked
up in the receive queue and then in the send queue of `c`; the result is `none`
when it designates no record, or a `NETBUF_RECV` record that is not in the
receive queue `TAILQ_REMOVE` is applied to. -/
def net_recv_expand {σ : Type} (P : Params) (w : World σ) (nb : Nat) (len : Nat)
    (cb : Option Nat) : Option (Int × World σ) :=
  match nb_find nb w.c.recv_queue with
  | some r =>
    if r.type ≠ NetbufType.NETBUF_RECV then some (KORE_RESULT_ERROR, w)
    else some (KORE_RESULT_OK, net_recv_expand_apply P w r len cb)
  | none =>
    match nb_find nb w.c.send_queue with
    | some r => if r.type ≠ NetbufType.NETBUF_RECV then some (KORE_RESULT_ERROR, w) else none
    | none => none

/-! ## Retirement -/

/-- The function `net_remove_netbuf(list, nb)`: the queue and the trace after
the call. -/
def net_remove_netbuf (list : List netbuf) (nb : Nat) (trace : List Event) :
    List netbuf × List Event :=
  match nb_find nb list with
  | none => (list, trace)
  | some r =>
    let list1 := nb_update (fun x => { x with stream := none }) nb list
    if r.flags.NETBUF_MUST_RESEND then (list1, trace)
    else
      let trace1 :=
        if !r.flags.NETBUF_IS_STREAM then trace ++ [Event.kore_mem_free r.buf.addr] else trace
      (TAILQ_REMOVE nb list1, trace1 ++ [Event.kore_pool_put nb])

/-! ## Draining -/

/-- What one pass through the body of a drain loop does: it returns from the
function with a result, or it goes round the loop again. -/
inductive Step (α : Type) where
  | ret (r : Int) (w : α)
  | next (w : α)

/-- Lines 191-199 of `net_send`, the retirement check on the front record `nb`
(the queue is `nb :: rest`). -/
def net_send_retire {σ : Type} (w : World σ) (nb : netbuf) (rest : List netbuf) :
    World σ :=
  if nb.s_off = nb.b_len then
    let trace1 :=
      match nb.stream with
      | some s =>
        if nb.flags.NETBUF_IS_STREAM then
          w.trace ++ [Event.spdy_frame_send SpdyFrameType.SPDY_DATA_FRAME
            SpdyFrameFlag.FLAG_FIN 0 s 0]
        else w.trace
      | none => w.trace
    let res := net_remove_netbuf (nb :: rest) nb.id trace1
    { w with c := { w.c with send_queue := res.1 }, trace := res.2 }
  else { w with c := { w.c with send_queue := nb :: rest } }

/-- Lines 149-150 of `net_send`: the length requested for the front record,
`MIN(NETBUF_SEND_PAYLOAD_MAX, nb->b_len - nb->s_off)`. -/
def send_len (P : Params) (nb : netbuf) : Nat :=
  min P.NETBUF_SEND_PAYLOAD_MAX (usub P nb.b_len nb.s_off)

/-- The bytes offered to `SSL_write` for the front record: the `send_len` bytes
at `nb->buf + nb->s_off`. -/
def send_offered (P : Params) (nb : netbuf) : List Cell :=
  (nb.buf.cells.drop nb.s_off).take (send_len P nb)

/-- The world after the call `SSL_write(c->ssl, nb->buf + nb->s_off, len)` of
line 153 returned `out`. -/
def net_send_wrote {σ : Type} (P : Params) (w : World σ) (nb : netbuf) (out : Int × σ) :
    World σ :=
  { w with c := { w.c with ssl := out.2 },
           trace := w.trace ++ [Event.SSL_write (send_offered P nb) (send_len P nb) out.1] }

/-- Lines 185-188 of `net_send`, the front record after progress of `r` bytes:
`s_off` advanced, `NETBUF_MUST_RESEND` cleared. -/
def net_send_advance (P : Params) (nb : netbuf) (r : Int) : netbuf :=
  { nb with s_off := uadd P nb.s_off r.toNat,
            flags := { nb.flags with NETBUF_MUST_RESEND := false } }

/-- Lines 187-188 of `net_send`: the stream of the record, if it has one, is
notified of the `r` bytes sent. -/
def net_send_notify {σ : Type} (w : World σ) (nb : netbuf) (r : Int) : World σ :=
  match nb.stream with
  | some s => { w with trace := w.trace ++ [Event.spdy_update_wsize s r] }
  | none => w

/-- One pass through the `while` loop of `net_send` (lines 146-200), in the
default build (`KORE_BENCHMARK` not defined). -/
def net_send_iter {σ : Type} (P : Params) (T : Transport σ) (w : World σ) :
    Step (World σ) :=
  match w.c.send_queue with
  | [] => Step.ret KORE_RESULT_OK w
  | nb :: rest =>
    if nb.b_len ≠ 0 then
      let out := T.SSL_write w.c.ssl (send_offered P nb) (send_len P nb)
      let r := out.1
      let w1 := net_send_wrote P w nb out
      if r ≤ 0 then
        let e := T.SSL_get_error out.2 r
        if e = SSL_ERROR_WANT_READ ∨ e = SSL_ERROR_WANT_WRITE then
          let nb1 := { nb with flags := { nb.flags with NETBUF_MUST_RESEND := true } }
          Step.ret KORE_RESULT_OK
            { w1 with c := { w1.c with
                flags := { w1.c.flags with CONN_WRITE_POSSIBLE := false },
                send_queue := nb1 :: rest } }
        else Step.ret KORE_RESULT_ERROR w1
      else
        Step.next (net_send_retire (net_send_notify w1 nb r) (net_send_advance P nb r) rest)
    else Step.next (net_send_retire w nb rest)

/-- The function `net_send(c)`: the loop runs for at most `fuel` passes; `none`
when it has not returned by then. -/
def net_send {σ : Type} (P : Params) (T : Transport σ) : Nat → World σ → Option (Int × World σ)
  | 0, _ => none
  | fuel + 1, w =>
    match net_send_iter P T w with
    | Step.ret r w1 => some (r, w1)
    | Step.next w1 => net_send P T fuel w1

/-- Lines 268-278 of `net_recv`, after the callback `fn` of the front record
`nb` returned `r` in world `w`: the record is looked up again, retired when it
is complete or `NETBUF_FORCE_REMOVE` is set, and a result other than
`KORE_RESULT_OK` is returned.  `none` when the callback left no record at
`nb`. -/
def net_recv_after_cb {σ : Type} (w : World σ) (nb : Nat) (r : Int) :
    Option (Step (World σ)) :=
  match nb_find nb w.c.recv_queue with
  | none => none
  | some nb2 =>
    let w1 :=
      if nb2.s_off = nb2.b_len ∨ nb2.flags.NETBUF_FORCE_REMOVE = true then
        let res := net_remove_netbuf w.c.recv_queue nb w.trace
        { w with c := { w.c with recv_queue := res.1 }, trace := res.2 }
      else w
    if r ≠ KORE_RESULT_OK then some (Step.ret r w1) else some (Step.next w1)

/-- One pass through the `while` loop of `net_recv` (lines 228-279), in the
default build.  `cbs fn nb w` runs the callback `fn` on the record `nb` in
world `w` and gives its result and the world it leaves.  The unsigned
difference `nb->b_len - nb->s_off` is converted to the `int` parameter of
`SSL_read`. -/
def net_recv_iter {σ : Type} (P : Params) (T : Transport σ)
    (cbs : Nat → Nat → World σ → Int × World σ) (w : World σ) :
    Option (Step (World σ)) :=
  match w.c.recv_queue with
  | [] => some (Step.ret KORE_RESULT_OK w)
  | nb :: rest =>
    match nb.cb with
    | none => some (Step.ret KORE_RESULT_ERROR w)
    | some fn =>
      let len := to_int (usub P nb.b_len nb.s_off)
      let out := T.SSL_read w.c.ssl len
      let r := out.1
      let w1 := { w with c := { w.c with ssl := out.2.2 },
                         trace := w.trace ++ [Event.SSL_read len r] }
      if r ≤ 0 then
        let e := T.SSL_get_error out.2.2 r
        if e = SSL_ERROR_WANT_READ ∨ e = SSL_ERROR_WANT_WRITE then
          some (Step.ret KORE_RESULT_OK
            { w1 with c := { w1.c with
                flags := { w1.c.flags with CONN_READ_POSSIBLE := false } } })
        else some (Step.ret KORE_RESULT_ERROR w1)
      else
        let nb1 := { nb with
          buf := { nb.buf with cells := memcpy nb.buf.cells nb.s_off out.2.1 r.toNat },
          s_off := uadd P nb.s_off r.toNat }
        let w2 := { w1 with c := { w1.c with recv_queue := nb1 :: rest } }
        if nb1.s_off = nb1.b_len ∨ nb1.flags.NETBUF_CALL_CB_ALWAYS = true then
          let res := cbs fn nb.id { w2 with trace := w2.trace ++ [Event.cb fn nb.id] }
          net_recv_after_cb res.2 nb.id res.1
        else some (Step.next w2)

/-- The function `net_recv(c)`: the loop runs for at most `fuel` passes; `none`
when it has not returned by then, or when a callback left no record at the
pointer the loop holds. -/
def net_recv {σ : Type} (P : Params) (T : Transport σ)
    (cbs : Nat → Nat → World σ → Int × World σ) : Nat → World σ → Option (Int × World σ)
  | 0, _ => none
  | fuel + 1, w =>
    match net_recv_iter P T cbs w with
    | none => none
    | some (Step.ret r w1) => some (r, w1)
    | some (Step.next w1) => net_recv P T cbs fuel w1

/-- The function `net_send(c)` called again and again with nothing enqueued in
between: before each call the event loop has seen the transport become ready,
which leaves it in the state `ssl`; each call runs with its own `fuel`. -/
def net_send_seq {σ : Type} (P : Params) (T : Transport σ) :
    List (Nat × σ) → World σ → Option (World σ)
  | [], w => some w
  | (fuel, ssl) :: ds, w =>
    match net_send P T fuel { w with c := { w.c with ssl := ssl } } with
    | some (_, w1) => net_send_seq P T ds w1
    | none => none

/-- A sequence of `net_send_queue` calls, each given as `(data, len, s)`. -/
def net_send_queue_seq {σ : Type} (P : Params) :
    List (List Nat × Nat × Option Nat) → World σ → World σ
  | [], w => w
  | (data, len, s) :: cs, w => net_send_queue_seq P cs (net_send_queue P w data len s)

/-! ## Properties of records, queues and traces -/

/-- The record invariant `s_off <= b_len <= m_len`. -/
def nb_inv (nb : netbuf) : Prop :=
  nb.s_off ≤ nb.b_len ∧ nb.b_len ≤ nb.m_len

/-- The record invariant on every record of a queue. -/
def queue_inv (q : List netbuf) : Prop :=
  ∀ nb ∈ q, nb_inv nb

/-- The record invariant on both queues of a connection. -/
def conn_inv {σ : Type} (c : connection σ) : Prop :=
  queue_inv c.send_queue ∧ queue_inv c.recv_queue

/-- The length of every record of the queue is a value of the length fields. -/
def queue_fits (P : Params) (q : List netbuf) : Prop :=
  ∀ nb ∈ q, nb.b_len < P.LEN_MOD

/-- A transport whose write never reports more bytes than were requested. -/
def write_bounded {σ : Type} (T : Transport σ) : Prop :=
  ∀ (s : σ) (bytes : List Cell) (len : Nat), (T.SSL_write s bytes len).1 ≤ (len : Int)

/-- A transport whose read never reports more bytes than were requested, and
none for a request that is negative. -/
def read_bounded {σ : Type} (T : Transport σ) : Prop :=
  ∀ (s : σ) (len : Int), (T.SSL_read s len).1 ≤ max len 0

/-- The bytes of a record that are still to be sent: `buf[s_off .. b_len)`. -/
def nb_pending (nb : netbuf) : List Cell :=
  (nb.buf.cells.drop nb.s_off).take (nb.b_len - nb.s_off)

/-- The bytes of a queue that are still to be sent, in queue order. -/
def pending : List netbuf → List Cell
  | [] => []
  | nb :: q => nb_pending nb ++ pending q

/-- The valid bytes `buf[0 .. b_len)` of the records of a queue, in queue order. -/
def queued_bytes : List netbuf → List Cell
  | [] => []
  | nb :: q => nb.buf.cells.take nb.b_len ++ queued_bytes q

/-- The bytes the transport accepted in the writes of a trace, in call order: a
write of `offered` that returned `r > 0` accepted the first `r` bytes. -/
def accepted : List Event → List Cell
  | [] => []
  | Event.SSL_write offered _ r :: es =>
    (if 0 < r then offered.take r.toNat else []) ++ accepted es
  | _ :: es => accepted es

/-- The writes of a trace, in call order: the bytes offered and the length
requested. -/
def writes : List Event → List (List Cell × Nat)
  | [] => []
  | Event.SSL_write offered len _ :: es => (offered, len) :: writes es
  | _ :: es => writes es

/-- The flow-control notifications of a trace for stream `s`, in call order. -/
def notifications (s : Nat) : List Event → List Int
  | [] => []
  | Event.spdy_update_wsize s1 r :: es =>
    if s1 = s then r :: notifications s es else notifications s es
  | _ :: es => notifications s es

/-- The number of bytes still to be sent on the records of stream `s`. -/
def pending_on (s : Nat) : List netbuf → Nat
  | [] => 0
  | nb :: q => (if nb.stream = some s then nb.b_len - nb.s_off else 0) + pending_on s q

/-- The number of final frames of a trace for stream `s`. -/
def final_frames (s : Nat) : List Event → Nat
  | [] => 0
  | Event.spdy_frame_send SpdyFrameType.SPDY_DATA_FRAME SpdyFrameFlag.FLAG_FIN 0 s1 0 :: es =>
    (if s1 = s then 1 else 0) + final_frames s es
  | _ :: es => final_frames s es

/-- The number of borrowed (`NETBUF_IS_STREAM`) records of stream `s` in a queue. -/
def borrowed_on (s : Nat) : List netbuf → Nat
  | [] => 0
  | nb :: q =>
    (if nb.stream = some s ∧ nb.flags.NETBUF_IS_STREAM = true then 1 else 0) + borrowed_on s q

/-- The addresses freed in a trace. -/
def freed : List Event → List Nat
  | [] => []
  | Event.kore_mem_free a :: es => a :: freed es
  | _ :: es => freed es

/-- The lengths `b_len` of the records of a queue, front first. -/
def lengths (q : List netbuf) : List Nat :=
  q.map (fun nb => nb.b_len)

/-- Every record of the queue belongs to stream `s`, has the default capacity
and holds its `b_len` bytes within its block. -/
def default_sized (P : Params) (s : Option Nat) (q : List netbuf) : Prop :=
  ∀ nb ∈ q, nb.m_len = P.NETBUF_SEND_PAYLOAD_MAX ∧ nb.stream = s ∧
    nb.b_len ≤ nb.buf.cells.length

/-! ## Concrete states used in the examples -/

/-- A default payload capacity of 4 bytes and 32-bit length fields. -/
def params4 : Params :=
  { NETBUF_SEND_PAYLOAD_MAX := 4, LEN_MOD := 2 ^ 32 }

/-- A default payload capacity of 8 bytes and 32-bit length fields. -/
def params8 : Params :=
  { NETBUF_SEND_PAYLOAD_MAX := 8, LEN_MOD := 2 ^ 32 }

/-- A connection with both readiness flags set and empty queues, a fresh pool
and allocator, and no call made yet. -/
def world0 : World Unit :=
  { c := { ssl := (), flags := { CONN_READ_POSSIBLE := true, CONN_WRITE_POSSIBLE := true,
                                 CONN_CLOSE_EMPTY := false },
           send_queue := [], recv_queue := [] },
    nb_pool := 0, heap := 100, trace := [] }

/-- The world a pass through a drain loop leaves. -/
def Step.world {α : Type} : Step α → α
  | Step.ret _ w => w
  | Step.next w => w

/-- Every record of the send queue has `s_off <= b_len`, and its length is a
value of the length fields. -/
def send_ok (P : Params) (q : List netbuf) : Prop :=
  ∀ nb ∈ q, nb.s_off ≤ nb.b_len ∧ nb.b_len < P.LEN_MOD

/-- A transport that is not ready: every write and read reports
`SSL_ERROR_WANT_WRITE`. -/
def blocked_transport : Transport Unit :=
  { SSL_write := fun _ _ _ => (-1, ()),
    SSL_read := fun _ _ => (-1, [], ()),
    SSL_get_error := fun _ _ => SSL_ERROR_WANT_WRITE }

/-- A transport that has failed: every write and read reports an error other
than the two would-block signals. -/
def failed_transport : Transport Unit :=
  { SSL_write := fun _ _ _ => (-1, ()),
    SSL_read := fun _ _ => (-1, [], ()),
    SSL_get_error := fun _ _ => 1 }

/-- A transport that accepts at most `k` bytes per write, and delivers nothing. -/
def chunk_transport (k : Nat) : Transport Unit :=
  { SSL_write := fun _ _ len => ((min k len : Nat), ()),
    SSL_read := fun _ _ => (-1, [], ()),
    SSL_get_error := fun _ _ => SSL_ERROR_WANT_WRITE }

/-- A transport driven by a script: each write takes the next entry `(r, e)`
of the script and returns `r`, or the length requested when `r` is larger, and
`SSL_get_error` then reports the entry's `e`; when the script is used up every
write is accepted in full. -/
def script_transport : Transport (List (Int × Int) × Int) :=
  { SSL_write := fun st _ len =>
      match st.1 with
      | [] => ((len : Int), ([], 0))
      | (r, e) :: rest => (if r ≤ (len : Int) then r else (len : Int), (rest, e)),
    SSL_read := fun st _ => (-1, [], st),
    SSL_get_error := fun st _ => st.2 }

/-- A connection over the transport state `ssl`, with both readiness flags set
and empty queues, a fresh pool and allocator, and no call made yet. -/
def world_init {σ : Type} (ssl : σ) : World σ :=
  { c := { ssl := ssl, flags := { CONN_READ_POSSIBLE := true, CONN_WRITE_POSSIBLE := true,
                                  CONN_CLOSE_EMPTY := false },
           send_queue := [], recv_queue := [] },
    nb_pool := 0, heap := 100, trace := [] }

/-- The world at the head of the loop of `net_send` after `k` passes, none of
which returned; `none` when one of them returned. -/
def net_send_passes {σ : Type} (P : Params) (T : Transport σ) : Nat → World σ → Option (World σ)
  | 0, w => some w
  | k + 1, w =>
    match net_send_iter P T w with
    | Step.next w1 => net_send_passes P T k w1
    | Step.ret _ _ => none

/-- The send queue holding the two bytes `65 66` ("AB") in one record of no
stream, with a default capacity of 8. -/
def world_ab : World Unit :=
  net_send_queue params8 world0 [65, 66] 2 none

/-- The state `world_ab` after a receive of 10 bytes with callback 1 was
requested. -/
def world_ab_recv : World Unit :=
  (net_recv_queue params8 world_ab 10 NetbufFlags.zero (some 1)).1

/-- Receive callbacks that do nothing and return `KORE_RESULT_OK`. -/
def idle_callbacks {σ : Type} : Nat → Nat → World σ → Int × World σ :=
  fun _ _ w => (KORE_RESULT_OK, w)

/-- A transport that accepts at most `k` bytes per write and delivers at most
`k` bytes, all zero, per read. -/
def duplex_transport (k : Nat) : Transport Unit :=
  { SSL_write := fun _ _ len => ((min k len : Nat), ()),
    SSL_read := fun _ len =>
      ((min k len.toNat : Nat), List.replicate (min k len.toNat) 0, ()),
    SSL_get_error := fun _ _ => SSL_ERROR_WANT_READ }

/-- The call of lines 192-196 of `net_send` for a complete record: the final
frame of a borrowed record that has a stream. -/
def frame_events (nb : netbuf) : List Event :=
  match nb.stream with
  | some s =>
    if nb.flags.NETBUF_IS_STREAM = true then
      [Event.spdy_frame_send SpdyFrameType.SPDY_DATA_FRAME SpdyFrameFlag.FLAG_FIN 0 s 0]
    else []
  | none => []

/-- The calls of lines 308-312 of `net_remove_netbuf` for a record that is
removed: the payload is freed unless it is borrowed, the record goes back to
the pool. -/
def release_events (nb : netbuf) : List Event :=
  (if nb.flags.NETBUF_IS_STREAM = true then [] else [Event.kore_mem_free nb.buf.addr]) ++
    [Event.kore_pool_put nb.id]

/-- The call of lines 187-188 of `net_send` after progress of `r` bytes on the
record: the notification of its stream, if it has one. -/
def notify_events (nb : netbuf) (r : Int) : List Event :=
  match nb.stream with
  | some s => [Event.spdy_update_wsize s r]
  | none => []

/-- The call `SSL_write` of line 153 of `net_send` on the front record, in the
world `w`, as it appears in the trace. -/
def write_event {σ : Type} (P : Params) (T : Transport σ) (w : World σ) (nb : netbuf) : Event :=
  Event.SSL_write (send_offered P nb) (send_len P nb)
    (T.SSL_write w.c.ssl (send_offered P nb) (send_len P nb)).1

/-- The send queue holding the four bytes `65 66 67 68` ("ABCD") in one record
of no stream, over the scripted transport, with a default capacity of 8. -/
def world_abcd : World (List (Int × Int) × Int) :=
  net_send_queue params8 (world_init ([], 0)) [65, 66, 67, 68] 4 none

/-- Scenario A: the payloads "AB" and then "CD" enqueued on stream 7, with a
default capacity of 8. -/
def world_A : World Unit :=
  net_send_queue params8 (net_send_queue params8 world0 [65, 66] 2 (some 7)) [67, 68] 2 (some 7)

/-- The front record `nb` becomes complete in the pass of `net_send` that
starts in world `w`: its length is zero and nothing of it is marked as sent, or
the write makes progress and `s_off` reaches `b_len`. -/
def send_completes {σ : Type} (P : Params) (T : Transport σ) (w : World σ) (nb : netbuf) :
    Prop :=
  (nb.b_len = 0 ∧ nb.s_off = 0) ∨
  (nb.b_len ≠ 0 ∧ 0 < (T.SSL_write w.c.ssl (send_offered P nb) (send_len P nb)).1 ∧
    (net_send_advance P nb
      (T.SSL_write w.c.ssl (send_offered P nb) (send_len P nb)).1).s_off = nb.b_len)

/-- Scenario C: a borrowed payload of 5 bytes, at address 55, enqueued on
stream 9. -/
def world_C : World Unit :=
  net_send_stream world0 { addr := 55, cells := [some 1, some 2, some 3, some 4, some 5] } 5
    (some 9)

/-- A call that enqueues data to send: `net_send_queue(c, data, len, s)` with
the `len` bytes at `data`, or `net_send_stream(c, data, len, s)`. -/
inductive EnqueueCall where
  | queue (data : List Nat) (s : Option Nat)
  | stream (data : Block) (len : Nat) (s : Option Nat)

/-- One enqueueing call. -/
def enqueue {σ : Type} (P : Params) (w : World σ) : EnqueueCall → World σ
  | EnqueueCall.queue data s => net_send_queue P w data data.length s
  | EnqueueCall.stream data len s => net_send_stream w data len s

/-- A sequence of enqueueing calls. -/
def enqueue_seq {σ : Type} (P : Params) : List EnqueueCall → World σ → World σ
  | [], w => w
  | op :: ops, w => enqueue_seq P ops (enqueue P w op)

/-- The record `nb1` is the record `nb` with bytes appended, if any: the same
slot, block address, offset, flags, stream and capacity, a length that is not
smaller, lies within the block and, if it grew, within the capacity, and the
same first `nb.b_len` bytes. -/
def nb_extends (nb nb1 : netbuf) : Prop :=
  nb1.id = nb.id ∧ nb1.buf.addr = nb.buf.addr ∧ nb1.s_off = nb.s_off ∧
  nb1.flags = nb.flags ∧ nb1.stream = nb.stream ∧ nb1.m_len = nb.m_len ∧
  nb.b_len ≤ nb1.b_len ∧ nb1.b_len ≤ nb1.buf.cells.length ∧
  nb1.buf.cells.take nb.b_len = nb.buf.cells.take nb.b_len ∧
  nb1.b_len ≤ max nb.b_len nb.m_len

/-- A default payload capacity of 4000 bytes and 32-bit length fields. -/
def params4000 : Params :=
  { NETBUF_SEND_PAYLOAD_MAX := 4000, LEN_MOD := 2 ^ 32 }

/-! ## Byte order -/

/-- The load `*(u_int16_t *)b` of the two bytes at `b`, on a little-endian host
(`le = true`) or a big-endian one; `none` when a byte is missing or was never
written. -/
def load16 (le : Bool) (b : List Cell) : Option Nat :=
  match b with
  | some b0 :: some b1 :: _ =>
    some (if le then b0 % 256 + 256 * (b1 % 256) else 256 * (b0 % 256) + b1 % 256)
  | _ => none

/-- The load `*(u_int32_t *)b` of the four bytes at `b`. -/
def load32 (le : Bool) (b : List Cell) : Option Nat :=
  match b with
  | some b0 :: some b1 :: some b2 :: some b3 :: _ =>
    some (if le then
        b0 % 256 + 256 * (b1 % 256) + 65536 * (b2 % 256) + 16777216 * (b3 % 256)
      else 16777216 * (b0 % 256) + 65536 * (b1 % 256) + 256 * (b2 % 256) + b3 % 256)
  | _ => none

/-- The bytes of the `u_int16_t` object `r` in memory, lowest address first. -/
def store16 (le : Bool) (r : Nat) : List Nat :=
  if le then [r % 256, r / 256 % 256] else [r / 256 % 256, r % 256]

/-- The bytes of the `u_int32_t` object `r` in memory, lowest address first. -/
def store32 (le : Bool) (r : Nat) : List Nat :=
  if le then [r % 256, r / 256 % 256, r / 65536 % 256, r / 16777216 % 256]
  else [r / 16777216 % 256, r / 65536 % 256, r / 256 % 256, r % 256]

/-- The 16-bit value `x` with its two bytes exchanged. -/
def bswap16 (x : Nat) : Nat :=
  x % 256 * 256 + x / 256 % 256

/-- The 32-bit value `x` with its four bytes reversed. -/
def bswap32 (x : Nat) : Nat :=
  x % 256 * 16777216 + x / 256 % 256 * 65536 + x / 65536 % 256 * 256 + x / 16777216 % 256

/-- The library function `ntohs`: network (big-endian) to host byte order. -/
def ntohs (le : Bool) (x : Nat) : Nat :=
  if le then bswap16 x else x % 65536

/-- The library function `htons`: host to network byte order. -/
def htons (le : Bool) (x : Nat) : Nat :=
  if le then bswap16 x else x % 65536

/-- The library function `ntohl`: network to host byte order, 32 bits. -/
def ntohl (le : Bool) (x : Nat) : Nat :=
  if le then bswap32 x else x % 4294967296

/-- The library function `htonl`: host to network byte order, 32 bits. -/
def htonl (le : Bool) (x : Nat) : Nat :=
  if le then bswap32 x else x % 4294967296

/-- The function `net_read16(b)`. -/
def net_read16 (le : Bool) (b : List Cell) : Option Nat :=
  (load16 le b).map (ntohs le)

/-- The function `net_read32(b)`. -/
def net_read32 (le : Bool) (b : List Cell) : Option Nat :=
  (load32 le b).map (ntohl le)

/-- The function `net_write16(p, n)`: the memory at `p` after the call. -/
def net_write16 (le : Bool) (p : List Cell) (n : Nat) : List Cell :=
  memcpy p 0 (store16 le (htons le n)) 2

/-- The function `net_write32(p, n)`: the memory at `p` after the call. -/
def net_write32 (le : Bool) (p : List Cell) (n : Nat) : List Cell :=
  memcpy p 0 (store32 le (htonl le n)) 4

/-! ## Pieces of one pass of `net_recv` -/

/-- Lines 236-237 of `net_recv`: the length requested for the front record,
`nb->b_len - nb->s_off`, as it reaches the parameter `int num` of `SSL_read`. -/
def recv_len (P : Params) (nb : netbuf) : Int :=
  to_int (usub P nb.b_len nb.s_off)

/-- The world after the call `SSL_read(c->ssl, nb->buf + nb->s_off, len)` of
line 236 returned `out`. -/
def net_recv_read {σ : Type} (P : Params) (w : World σ) (nb : netbuf)
    (out : Int × List Nat × σ) : World σ :=
  { w with c := { w.c with ssl := out.2.2 },
           trace := w.trace ++ [Event.SSL_read (recv_len P nb) out.1] }

/-- Lines 236 and 265 of `net_recv`, the front record after a read that made
progress: the bytes delivered are in its payload, `s_off` is advanced. -/
def net_recv_advance {σ : Type} (P : Params) (nb : netbuf) (out : Int × List Nat × σ) :
    netbuf :=
  { nb with
    buf := { nb.buf with cells := memcpy nb.buf.cells nb.s_off out.2.1 out.1.toNat },
    s_off := uadd P nb.s_off out.1.toNat }

/-- The world after a read that made progress on the front record `nb` of the
queue `nb :: rest`. -/
def net_recv_stored {σ : Type} (P : Params) (w : World σ) (nb : netbuf) (rest : List netbuf)
    (out : Int × List Nat × σ) : World σ :=
  { net_recv_read P w nb out with
    c := { (net_recv_read P w nb out).c with recv_queue := net_recv_advance P nb out :: rest } }

/-- The world in which the callback `fn` of the front record is entered
(line 268 of `net_recv`). -/
def net_recv_enter {σ : Type} (P : Params) (w : World σ) (nb : netbuf) (rest : List netbuf)
    (out : Int × List Nat × σ) (fn : Nat) : World σ :=
  { net_recv_stored P w nb rest out with
    trace := (net_recv_stored P w nb rest out).trace ++ [Event.cb fn nb.id] }

/-- The world at the head of the loop of `net_recv` after `k` passes, none of
which returned; `none` when one of them returned or was undefined. -/
def net_recv_passes {σ : Type} (P : Params) (T : Transport σ)
    (cbs : Nat → Nat → World σ → Int × World σ) : Nat → World σ → Option (World σ)
  | 0, w => some w
  | k + 1, w =>
    match net_recv_iter P T cbs w with
    | some (Step.next w1) => net_recv_passes P T cbs k w1
    | _ => none

/-- A transport call of a trace that requests at most
`NETBUF_SEND_PAYLOAD_MAX` bytes; any other event. -/
def chunk_bounded (P : Params) : Event → Prop
  | Event.SSL_write _ len _ => len ≤ P.NETBUF_SEND_PAYLOAD_MAX
  | Event.SSL_read len _ => len ≤ (P.NETBUF_SEND_PAYLOAD_MAX : Int)
  | _ => True

/-- A transport whose reads follow a script: each read takes the next entry
`(r, e, bytes)`, returns `r` and delivers `bytes`, and `SSL_get_error` then
reports `e`; when the script is used up every read reports
`SSL_ERROR_WANT_READ`.  Every write is accepted in full. -/
def read_script_transport : Transport (List (Int × Int × List Nat) × Int) :=
  { SSL_write := fun st _ len => ((len : Int), st),
    SSL_read := fun st _ =>
      match st.1 with
      | [] => (-1, [], ([], SSL_ERROR_WANT_READ))
      | (r, e, bytes) :: rest => (r, bytes, (rest, e)),
    SSL_get_error := fun st _ => st.2 }

/-- Scenario B, start: a receive of 10 bytes with callback 1 is requested on a
connection whose transport will deliver the 4 bytes `1 2 3 4`. -/
def world_B : World (List (Int × Int × List Nat) × Int) :=
  (net_recv_queue params8 (world_init ([(4, 0, [1, 2, 3, 4])], 0)) 10 NetbufFlags.zero
    (some 1)).1

/-- The event loop sees the connection readable again: the transport is in
state `ssl` and `CONN_READ_POSSIBLE` is set. -/
def readable {σ : Type} (w : World σ) (ssl : σ) : World σ :=
  { w with c := { w.c with ssl := ssl,
                           flags := { w.c.flags with CONN_READ_POSSIBLE := true } } }

/-- The state `world_ab` after a receive of 4 bytes without a callback was
requested. -/
def world_ab_no_cb : World Unit :=
  (net_recv_queue params8 world_ab 4 NetbufFlags.zero none).1

/-- Line 273 of `net_recv`: the call `net_remove_netbuf(&(c->recv_queue), nb)`
in world `w`. -/
def net_recv_retire {σ : Type} (w : World σ) (nb : Nat) : World σ :=
  { w with
    c := { w.c with recv_queue := (net_remove_netbuf w.c.recv_queue nb w.trace).1 },
    trace := (net_remove_netbuf w.c.recv_queue nb w.trace).2 }

/-- Lines 277-278 of `net_recv`: a callback result other than `KORE_RESULT_OK`
is returned, otherwise the loop goes on. -/
def net_recv_result {σ : Type} (r : Int) (w : World σ) : Step (World σ) :=
  if r ≠ KORE_RESULT_OK then Step.ret r w else Step.next w

/-- Receive callbacks that do nothing and return `v`. -/
def const_callbacks {σ : Type} (v : Int) : Nat → Nat → World σ → Int × World σ :=
  fun _ _ w => (v, w)

/-- Scenario B after the first drain: the world `net_recv` leaves. -/
def world_B1 : World (List (Int × Int × List Nat) × Int) :=
  match net_recv params8 read_script_transport idle_callbacks 2 world_B with
  | some (_, w) => w
  | none => world_B

/-- Scenario B before the second drain: the record was extended by 6 bytes,
and the connection is readable again, with the 12 bytes `5 .. 16` to deliver. -/
def world_B2 : World (List (Int × Int × List Nat) × Int) :=
  match net_recv_expand params8 world_B1 0 6 (some 1) with
  | some (_, w) => readable w ([(12, 0, [5, 6, 7, 8, 9, 10, 11, 12, 13, 14, 15, 16])], 0)
  | none => world_B1

/-- The record of scenario B before the second drain: 4 of its 16 bytes are
in. -/
def nb_B2 : netbuf :=
  { id := 0, cb := some 1, b_len := 16, m_len := 16, s_off := 4, stream := none,
    flags := NetbufFlags.zero, type := NetbufType.NETBUF_RECV,
    buf := { addr := 101,
             cells := [some 1, some 2, some 3, some 4] ++ List.replicate 12 none } }

/-- The record of scenario B after the first drain: 4 of its 10 bytes are
in. -/
def nb_B1 : netbuf :=
  { id := 0, cb := some 1, b_len := 10, m_len := 10, s_off := 4, stream := none,
    flags := NetbufFlags.zero, type := NetbufType.NETBUF_RECV,
    buf := { addr := 100,
             cells := [some 1, some 2, some 3, some 4] ++ List.replicate 6 none } }

/-! ## Flushing -/

/-- Lines 216-217 of `net_send_flush`: with `CONN_CLOSE_EMPTY` set and the send
queue empty, `kore_connection_disconnect(c)` is called. -/
def net_send_flush_close {σ : Type} (w : World σ) : World σ :=
  if w.c.flags.CONN_CLOSE_EMPTY = true ∧ w.c.send_queue = [] then
    { w with trace := w.trace ++ [Event.kore_connection_disconnect] }
  else w

/-- The function `net_send_flush(c)`: its loop runs for at most `fuel` passes,
and each call of `net_send` for at most `inner` passes; `none` when one of the
two has not returned by then. -/
def net_send_flush {σ : Type} (P : Params) (T : Transport σ) (inner : Nat) :
    Nat → World σ → Option (Int × World σ)
  | 0, _ => none
  | fuel + 1, w =>
    if w.c.send_queue ≠ [] ∧ w.c.flags.CONN_WRITE_POSSIBLE = true then
      match net_send P T inner w with
      | none => none
      | some (r, w1) =>
        if r = 0 then some (KORE_RESULT_ERROR, w1) else net_send_flush P T inner fuel w1
    else some (KORE_RESULT_OK, net_send_flush_close w)

/-- The function `net_recv_flush(c)`, with the same two bounds. -/
def net_recv_flush {σ : Type} (P : Params) (T : Transport σ)
    (cbs : Nat → Nat → World σ → Int × World σ) (inner : Nat) :
    Nat → World σ → Option (Int × World σ)
  | 0, _ => none
  | fuel + 1, w =>
    if w.c.recv_queue ≠ [] ∧ w.c.flags.CONN_READ_POSSIBLE = true then
      match net_recv P T cbs inner w with
      | none => none
      | some (r, w1) =>
        if r = 0 then some (KORE_RESULT_ERROR, w1) else net_recv_flush P T cbs inner fuel w1
    else some (KORE_RESULT_OK, w)

/-- The state `world_ab` with `CONN_CLOSE_EMPTY` set on the connection. -/
def world_ab_closing : World Unit :=
  { world_ab with c := { world_ab.c with
      flags := { world_ab.c.flags with CONN_CLOSE_EMPTY := true } } }

/-! ## States reachable through the operations -/

/-- Only the front record of the queue may carry `NETBUF_MUST_RESEND`, and no
record of length zero carries it. -/
def resend_inv (q : List netbuf) : Prop :=
  (∀ nb ∈ q.tail, nb.flags.NETBUF_MUST_RESEND = false) ∧
  (∀ nb ∈ q, nb.b_len = 0 → nb.flags.NETBUF_MUST_RESEND = false)

/-- The record invariant `s_off <= b_len <= m_len`, with a capacity that is a
value of the length fields. -/
def rec_ok (P : Params) (nb : netbuf) : Prop :=
  nb.s_off ≤ nb.b_len ∧ nb.b_len ≤ nb.m_len ∧ nb.m_len < P.LEN_MOD

/-- What the operations maintain on the send queue: the placement of
`NETBUF_MUST_RESEND` and the record invariant. -/
def send_wf (P : Params) (q : List netbuf) : Prop :=
  resend_inv q ∧ ∀ nb ∈ q, rec_ok P nb

/-- The world after the call `net_remove_netbuf(&(c->send_queue), nb)`. -/
def net_remove_send {σ : Type} (w : World σ) (nb : Nat) : World σ :=
  { w with
    c := { w.c with send_queue := (net_remove_netbuf w.c.send_queue nb w.trace).1 },
    trace := (net_remove_netbuf w.c.send_queue nb w.trace).2 }

/-- The states of a connection that are reached from one with empty queues by
the operations of `net.c`, the passes of its two drain loops included: the
lengths given to `net_send_queue` and `net_send_stream` are values of the
length fields, a transport write reports at most the length requested, and
between the operations the event loop may change the transport state and the
connection flags.  `cbs` are the receive callbacks. -/
inductive Reachable {σ : Type} (P : Params) (cbs : Nat → Nat → World σ → Int × World σ) :
    World σ → Prop where
  | init (w : World σ) : w.c.send_queue = [] → w.c.recv_queue = [] → Reachable P cbs w
  | ready (w : World σ) (ssl : σ) (flags : ConnFlags) : Reachable P cbs w →
      Reachable P cbs { w with c := { w.c with ssl := ssl, flags := flags } }
  | send_queue (w : World σ) (data : List Nat) (len : Nat) (s : Option Nat) :
      Reachable P cbs w → len < P.LEN_MOD → Reachable P cbs (net_send_queue P w data len s)
  | send_stream (w : World σ) (data : Block) (len : Nat) (s : Option Nat) :
      Reachable P cbs w → len < P.LEN_MOD → Reachable P cbs (net_send_stream w data len s)
  | recv_queue (w : World σ) (len : Nat) (flags : NetbufFlags) (cb : Option Nat) :
      Reachable P cbs w → Reachable P cbs (net_recv_queue P w len flags cb).1
  | recv_expand (w : World σ) (nb len : Nat) (cb : Option Nat) (res : Int × World σ) :
      Reachable P cbs w → net_recv_expand P w nb len cb = some res → Reachable P cbs res.2
  | send_pass (T : Transport σ) (w : World σ) : write_bounded T → Reachable P cbs w →
      Reachable P cbs (net_send_iter P T w).world
  | recv_pass (T : Transport σ) (w : World σ) (st : Step (World σ)) : Reachable P cbs w →
      net_recv_iter P T cbs w = some st → Reachable P cbs st.world
  | remove_send (w : World σ) (nb : Nat) : Reachable P cbs w →
      Reachable P cbs (net_remove_send w nb)
  | remove_recv (w : World σ) (nb : Nat) : Reachable P cbs w →
      Reachable P cbs (net_recv_retire w nb)
  | flush_close (w : World σ) : Reachable P cbs w → Reachable P cbs (net_send_flush_close w)

/-- The number of passes `net_send` can still make on a queue: the bytes still
to send plus the number of records. -/
def send_measure : List netbuf → Nat
  | [] => 0
  | nb :: q => (nb.b_len - nb.s_off) + 1 + send_measure q

/-- A call `SSL_write` of a trace that made no progress. -/
def is_stalled_write : Event → Bool
  | Event.SSL_write _ _ r => decide (r ≤ 0)
  | _ => false

/-- A call `SSL_write` or `SSL_read` of a trace. -/
def is_transport_call : Event → Bool
  | Event.SSL_write _ _ _ => true
  | Event.SSL_read _ _ => true
  | _ => false

/-! ## Counting callback calls -/

/-- A connection on which a receive of 3000000000 bytes with callback 1 was
requested. -/
def world_big_recv : World Unit :=
  (net_recv_queue params8 world0 3000000000 NetbufFlags.zero (some 1)).1

/-- The receive record of `world_big_recv`. -/
def nb_big_recv : netbuf :=
  { id := 0, cb := some 1, b_len := 3000000000, m_len := 3000000000, s_off := 0,
    stream := none, flags := NetbufFlags.zero, type := NetbufType.NETBUF_RECV,
    buf := kore_malloc 100 3000000000 }

/-! # Theorems -/

/-! ## Lemmas on `net_send_queue` -/

theorem getLast?_append_singleton {α : Type} (q : List α) (x : α) :
    (q ++ [x]).getLast? = some x := by
  simp

theorem set_last_append_singleton (q : List netbuf) (x y : netbuf) :
    set_last y (q ++ [x]) = q ++ [y] := by
  simp [set_last]

theorem queue_eq_dropLast_of_getLast? {q : List netbuf} {t : netbuf}
    (h : q.getLast? = some t) : q = q.dropLast ++ [t] := by
  rcases List.eq_nil_or_concat q with rfl | ⟨L, b, rfl⟩
  · simp at h
  · simp at h
    simp [h]

/-- With no tail to append into, `net_send_queue` is its allocation path. -/
theorem net_send_queue_eq_new {σ : Type} (P : Params) (w : World σ) (data : List Nat)
    (len : Nat) (s : Option Nat)
    (h : ∀ t, w.c.send_queue.getLast? = some t → t.stream ≠ s ∨ ¬ t.b_len < t.m_len) :
    net_send_queue P w data len s = net_send_queue_new P w data len s := by
  unfold net_send_queue
  cases hl : w.c.send_queue.getLast? with
  | none => rfl
  | some t =>
    have := h t hl
    have hc : ¬ (t.b_len < t.m_len ∧ t.stream = s) := by
      rintro ⟨h1, h2⟩
      rcases this with h3 | h3
      · exact h3 h2
      · exact h3 h1
    simp only [hc, if_false]

/-- A payload shorter than the room left in a matching tail is copied into it. -/
theorem net_send_queue_eq_append {σ : Type} (P : Params) (w : World σ) (data : List Nat)
    (len : Nat) (s : Option Nat) (t : netbuf)
    (hl : w.c.send_queue.getLast? = some t) (hs : t.stream = s)
    (hlen : t.b_len + len < t.m_len) :
    net_send_queue P w data len s =
      { w with c := { w.c with send_queue := w.c.send_queue.dropLast ++
          [{ t with buf := { t.buf with cells := memcpy t.buf.cells t.b_len data len },
                    b_len := t.b_len + len }] } } := by
  unfold net_send_queue
  have h1 : t.b_len < t.m_len := by omega
  have h2 : len < t.m_len - t.b_len := by omega
  simp only [hl, h1, hs, and_self, if_true, h2, set_last]

/-- A payload longer than the room left in a matching tail fills the tail and
goes on, from `data + avail`, in a new record. -/
theorem net_send_queue_eq_overflow {σ : Type} (P : Params) (w : World σ) (data : List Nat)
    (len : Nat) (s : Option Nat) (t : netbuf)
    (hl : w.c.send_queue.getLast? = some t) (hs : t.stream = s)
    (hroom : t.b_len < t.m_len) (hlen : t.m_len < t.b_len + len) :
    net_send_queue P w data len s =
      net_send_queue_new P
        { w with c := { w.c with send_queue := w.c.send_queue.dropLast ++
          [{ t with buf := { t.buf with
                      cells := memcpy t.buf.cells t.b_len data (t.m_len - t.b_len) },
                    b_len := t.m_len }] } }
        (data.drop (t.m_len - t.b_len)) (len - (t.m_len - t.b_len)) s := by
  unfold net_send_queue
  have h2 : ¬ len < t.m_len - t.b_len := by omega
  have h3 : len > t.m_len - t.b_len := by omega
  have h4 : ¬ len - (t.m_len - t.b_len) = 0 := by omega
  have h5 : t.b_len + (t.m_len - t.b_len) = t.m_len := by omega
  simp only [hl, hroom, hs, and_self, if_true, h2, if_false, h3, h4, set_last, h5]

/-- A payload of exactly the room left in a matching tail is not copied into
the tail: it goes to a new record. -/
theorem net_send_queue_eq_exact {σ : Type} (P : Params) (w : World σ) (data : List Nat)
    (len : Nat) (s : Option Nat) (t : netbuf)
    (hl : w.c.send_queue.getLast? = some t)
    (hroom : t.b_len < t.m_len) (hlen : t.b_len + len = t.m_len) :
    net_send_queue P w data len s = net_send_queue_new P w data len s := by
  unfold net_send_queue
  have h2 : ¬ len < t.m_len - t.b_len := by omega
  have h3 : ¬ len > t.m_len - t.b_len := by omega
  simp only [hl, h2, if_false, h3]
  split <;> rfl

/-! ## Bytes held by the send queue -/

theorem memcpy_length (c : List Cell) (off : Nat) (d : List Nat) (n : Nat)
    (hoff : off ≤ c.length) (hn : n ≤ d.length) :
    (memcpy c off d n).length = max c.length (off + n) := by
  simp [memcpy]
  omega

theorem memcpy_take (c : List Cell) (off : Nat) (d : List Nat) (n : Nat)
    (hoff : off ≤ c.length) (hn : n ≤ d.length) :
    (memcpy c off d n).take (off + n) = c.take off ++ (d.take n).map some := by
  have h1 : (c.take off ++ (d.take n).map some).length = off + n := by
    simp
    omega
  unfold memcpy
  rw [List.take_append_eq_append_take, h1]
  simp
  omega

theorem memcpy_zero (c : List Cell) (off : Nat) (d : List Nat) :
    memcpy c off d 0 = c := by
  simp [memcpy]

theorem new_send_netbuf_cells (P : Params) (id addr : Nat) (d : List Nat) (len : Nat)
    (s : Option Nat) :
    (new_send_netbuf P id addr d len s).buf.cells =
      memcpy (List.replicate (new_send_netbuf P id addr d len s).m_len none) 0 d len := by
  unfold new_send_netbuf
  by_cases h : len > 0
  · simp [h, kore_malloc]
  · have h0 : len = 0 := by omega
    subst h0
    simp [kore_malloc, memcpy_zero]

theorem new_send_netbuf_m_len (P : Params) (id addr : Nat) (d : List Nat) (len : Nat)
    (s : Option Nat) :
    (new_send_netbuf P id addr d len s).m_len = max len P.NETBUF_SEND_PAYLOAD_MAX := by
  unfold new_send_netbuf
  by_cases h : len < P.NETBUF_SEND_PAYLOAD_MAX
  · simp [h]; omega
  · simp [h]; omega

theorem new_send_netbuf_take (P : Params) (id addr : Nat) (d : List Nat) (len : Nat)
    (s : Option Nat) (hlen : len ≤ d.length) :
    (new_send_netbuf P id addr d len s).buf.cells.take len = (d.take len).map some := by
  rw [new_send_netbuf_cells]
  have := memcpy_take (List.replicate (new_send_netbuf P id addr d len s).m_len none) 0 d len
    (Nat.zero_le _) hlen
  simpa using this

theorem new_send_netbuf_cells_length (P : Params) (id addr : Nat) (d : List Nat) (len : Nat)
    (s : Option Nat) (hlen : len ≤ d.length) :
    (new_send_netbuf P id addr d len s).buf.cells.length =
      (new_send_netbuf P id addr d len s).m_len := by
  rw [new_send_netbuf_cells, memcpy_length _ _ _ _ (Nat.zero_le _) hlen, new_send_netbuf_m_len]
  simp

theorem queued_bytes_append (q1 q2 : List netbuf) :
    queued_bytes (q1 ++ q2) = queued_bytes q1 ++ queued_bytes q2 := by
  induction q1 with
  | nil => rfl
  | cons x xs ih => simp [queued_bytes, ih]

theorem queued_bytes_singleton (nb : netbuf) :
    queued_bytes [nb] = nb.buf.cells.take nb.b_len := by
  simp [queued_bytes]

/-- The bytes of the send queue after `net_send_queue` are the bytes before the
call followed by the payload. -/
theorem queued_bytes_net_send_queue {σ : Type} (P : Params) (w : World σ) (data : List Nat)
    (len : Nat) (s : Option Nat) (hlen : len ≤ data.length)
    (hwf : ∀ t ∈ w.c.send_queue, t.b_len ≤ t.buf.cells.length) :
    queued_bytes (net_send_queue P w data len s).c.send_queue =
      queued_bytes w.c.send_queue ++ (data.take len).map some := by
  have hnew : ∀ (w1 : World σ) (d : List Nat) (n : Nat), n ≤ d.length →
      queued_bytes (net_send_queue_new P w1 d n s).c.send_queue =
        queued_bytes w1.c.send_queue ++ (d.take n).map some := by
    intro w1 d n hn
    simp only [net_send_queue_new, queued_bytes_append, queued_bytes_singleton]
    have hb : (new_send_netbuf P w1.nb_pool w1.heap d n s).b_len = n := rfl
    rw [hb, new_send_netbuf_take P _ _ d n s hn]
  cases hl : w.c.send_queue.getLast? with
  | none =>
    rw [net_send_queue_eq_new P w data len s (by simp [hl])]
    exact hnew w data len hlen
  | some t =>
    have hq := queue_eq_dropLast_of_getLast? hl
    have ht : t.b_len ≤ t.buf.cells.length := by
      apply hwf
      rw [hq]
      simp
    by_cases hc : t.b_len < t.m_len ∧ t.stream = s
    · obtain ⟨hroom, hs⟩ := hc
      rcases Nat.lt_trichotomy (t.b_len + len) t.m_len with h | h | h
      · rw [net_send_queue_eq_append P w data len s t hl hs h]
        simp only [queued_bytes_append, queued_bytes_singleton]
        rw [memcpy_take _ _ _ _ ht hlen]
        conv_rhs => rw [hq]
        simp [queued_bytes_append, queued_bytes_singleton]
      · rw [net_send_queue_eq_exact P w data len s t hl hroom h]
        exact hnew w data len hlen
      · rw [net_send_queue_eq_overflow P w data len s t hl hs hroom h]
        rw [hnew _ _ _ (by simp; omega)]
        simp only [queued_bytes_append, queued_bytes_singleton]
        have hm : t.b_len + (t.m_len - t.b_len) = t.m_len := by omega
        have key := memcpy_take t.buf.cells t.b_len data (t.m_len - t.b_len) ht (by omega)
        rw [hm] at key
        rw [key]
        conv_rhs => rw [hq]
        have hsplit : List.take len data =
            List.take (t.m_len - t.b_len) data ++
              List.take (len - (t.m_len - t.b_len)) (List.drop (t.m_len - t.b_len) data) := by
          have : len = (t.m_len - t.b_len) + (len - (t.m_len - t.b_len)) := by omega
          conv_lhs => rw [this]
          rw [List.take_add]
        simp [queued_bytes_append, queued_bytes_singleton, hsplit]
    · rw [net_send_queue_eq_new P w data len s]
      · exact hnew w data len hlen
      · intro t1 ht1
        rw [hl] at ht1
        cases ht1
        by_cases h1 : t.b_len < t.m_len
        · left
          intro h2
          exact hc ⟨h1, h2⟩
        · right
          exact h1

/-! ## New records and coalescing -/

/-- With no tail to append into, the queue after `net_send_queue` is the queue
before followed by the record built for the payload. -/
theorem net_send_queue_appends_new {σ : Type} (P : Params) (w : World σ) (data : List Nat)
    (len : Nat) (s : Option Nat)
    (h : ∀ t ∈ w.c.send_queue.getLast?, t.stream ≠ s ∨ ¬ t.b_len < t.m_len) :
    (net_send_queue P w data len s).c.send_queue =
      w.c.send_queue ++ [new_send_netbuf P w.nb_pool w.heap data len s] := by
  rw [net_send_queue_eq_new P w data len s (fun t ht => h t ht)]
  rfl

/-- C6: when the tail record belongs to another stream or is at capacity, or the
queue is empty, `net_send_queue` leaves every queued record as it is and
appends exactly one record: a `NETBUF_SEND` record of stream `s`, length `len`,
transferred 0, no flags, holding the payload, of capacity
`max(len, NETBUF_SEND_PAYLOAD_MAX)`. -/
theorem net_send_queue_new_record {σ : Type} (P : Params) (w : World σ) (data : List Nat)
    (len : Nat) (s : Option Nat) (hlen : len ≤ data.length)
    (h : ∀ t ∈ w.c.send_queue.getLast?, t.stream ≠ s ∨ ¬ t.b_len < t.m_len) :
    ∃ nb : netbuf,
      (net_send_queue P w data len s).c.send_queue = w.c.send_queue ++ [nb] ∧
      nb.type = NetbufType.NETBUF_SEND ∧ nb.stream = s ∧ nb.b_len = len ∧ nb.s_off = 0 ∧
      nb.flags = NetbufFlags.zero ∧ nb.buf.cells.take len = (data.take len).map some ∧
      nb.m_len = max len P.NETBUF_SEND_PAYLOAD_MAX ∧ nb.buf.cells.length = nb.m_len :=
  ⟨new_send_netbuf P w.nb_pool w.heap data len s, net_send_queue_appends_new P w data len s h,
    rfl, rfl, rfl, rfl, rfl, new_send_netbuf_take P _ _ data len s hlen,
    new_send_netbuf_m_len P _ _ data len s, new_send_netbuf_cells_length P _ _ data len s hlen⟩

/-- An instance of `net_send_queue_new_record`: a payload for stream 2 behind a
record of stream 1. -/
theorem net_send_queue_new_record_witness :
    (2 ≤ [7, 8].length) ∧
    (∀ t ∈ (net_send_queue params4 world0 [5] 1 (some 1)).c.send_queue.getLast?,
      t.stream ≠ some 2 ∨ ¬ t.b_len < t.m_len) ∧
    ∃ nb : netbuf,
      (net_send_queue params4 (net_send_queue params4 world0 [5] 1 (some 1)) [7, 8] 2
          (some 2)).c.send_queue =
        (net_send_queue params4 world0 [5] 1 (some 1)).c.send_queue ++ [nb] ∧
      nb.type = NetbufType.NETBUF_SEND ∧ nb.stream = some 2 ∧ nb.b_len = 2 ∧ nb.s_off = 0 ∧
      nb.flags = NetbufFlags.zero ∧ nb.buf.cells.take 2 = ([7, 8].take 2).map some ∧
      nb.m_len = max 2 params4.NETBUF_SEND_PAYLOAD_MAX ∧ nb.buf.cells.length = nb.m_len :=
  ⟨by decide, by decide,
    net_send_queue_new_record params4 (net_send_queue params4 world0 [5] 1 (some 1)) [7, 8] 2
      (some 2) (by decide) (by decide)⟩

/-- C5 as stated fails: on an empty send queue, where there is no tail to append
into, `net_send_queue` with `len = 0` adds a record, of length 0; so it does
with a default capacity of 4000 bytes. -/
theorem net_send_queue_zero_adds_record :
    (∀ t ∈ world0.c.send_queue.getLast?, t.stream ≠ (none : Option Nat) ∨ ¬ t.b_len < t.m_len) ∧
    (net_send_queue params4 world0 [] 0 none).c.send_queue ≠ world0.c.send_queue ∧
    lengths (net_send_queue params4 world0 [] 0 none).c.send_queue = [0] ∧
    lengths (net_send_queue params4000 world0 [] 0 none).c.send_queue = [0] := by
  refine ⟨by decide, by decide, by decide, rfl⟩

/-- C5, amended: with no tail to append into (empty queue, tail at capacity, or
tail of another stream) `net_send_queue` with `len = 0` leaves the queued
records as they are and appends exactly one empty record of the default
capacity; with a tail of the same stream that has room it changes nothing. -/
theorem net_send_queue_zero {σ : Type} (P : Params) (w : World σ) (data : List Nat)
    (s : Option Nat) :
    ((∀ t ∈ w.c.send_queue.getLast?, t.stream ≠ s ∨ ¬ t.b_len < t.m_len) →
      ∃ nb : netbuf,
        (net_send_queue P w data 0 s).c.send_queue = w.c.send_queue ++ [nb] ∧
        nb.type = NetbufType.NETBUF_SEND ∧ nb.stream = s ∧ nb.b_len = 0 ∧ nb.s_off = 0 ∧
        nb.flags = NetbufFlags.zero ∧ nb.m_len = P.NETBUF_SEND_PAYLOAD_MAX) ∧
    ((∃ t ∈ w.c.send_queue.getLast?, t.stream = s ∧ t.b_len < t.m_len) →
      net_send_queue P w data 0 s = w) := by
  constructor
  · intro h
    refine ⟨new_send_netbuf P w.nb_pool w.heap data 0 s,
      net_send_queue_appends_new P w data 0 s h, rfl, rfl, rfl, rfl, rfl, ?_⟩
    rw [new_send_netbuf_m_len]
    exact Nat.max_eq_right (Nat.zero_le _)
  · rintro ⟨t, ht, hs, hroom⟩
    have hl : w.c.send_queue.getLast? = some t := ht
    rw [net_send_queue_eq_append P w data 0 s t hl hs (by omega)]
    have hq := queue_eq_dropLast_of_getLast? hl
    have ht' : ({ t with buf := { t.buf with cells := memcpy t.buf.cells t.b_len data 0 },
                         b_len := t.b_len + 0 } : netbuf) = t := by
      rw [memcpy_zero]
      cases t with
      | mk id buf s_off b_len m_len type flags stream cb =>
        cases buf
        rfl
    rw [ht', ← hq]

/-- An instance of `net_send_queue_zero`: an empty payload on the empty queue,
and an empty payload behind a one-byte record of the same stream. -/
theorem net_send_queue_zero_witness :
    (∀ t ∈ world0.c.send_queue.getLast?, t.stream ≠ (none : Option Nat) ∨ ¬ t.b_len < t.m_len) ∧
    (∃ t ∈ (net_send_queue params4 world0 [5] 1 none).c.send_queue.getLast?,
      t.stream = none ∧ t.b_len < t.m_len) ∧
    (∃ nb : netbuf,
        (net_send_queue params4 world0 [] 0 none).c.send_queue = world0.c.send_queue ++ [nb] ∧
        nb.type = NetbufType.NETBUF_SEND ∧ nb.stream = none ∧ nb.b_len = 0 ∧ nb.s_off = 0 ∧
        nb.flags = NetbufFlags.zero ∧ nb.m_len = params4.NETBUF_SEND_PAYLOAD_MAX) ∧
    net_send_queue params4 (net_send_queue params4 world0 [5] 1 none) [] 0 none =
      net_send_queue params4 world0 [5] 1 none :=
  ⟨by decide, by decide,
    (net_send_queue_zero params4 world0 [] none).1 (by decide),
    (net_send_queue_zero params4 (net_send_queue params4 world0 [5] 1 none) [] none).2
      (by decide)⟩

/-! ## Three payloads on an empty queue -/

theorem lengths_append (q1 q2 : List netbuf) : lengths (q1 ++ q2) = lengths q1 ++ lengths q2 := by
  simp [lengths]

theorem default_sized_append {P : Params} {s : Option Nat} {q1 q2 : List netbuf} :
    default_sized P s (q1 ++ q2) ↔ default_sized P s q1 ∧ default_sized P s q2 := by
  simp only [default_sized, List.mem_append]
  constructor
  · intro h
    exact ⟨fun nb hnb => h nb (Or.inl hnb), fun nb hnb => h nb (Or.inr hnb)⟩
  · rintro ⟨h1, h2⟩ nb (hnb | hnb)
    · exact h1 nb hnb
    · exact h2 nb hnb

theorem default_sized_new_send_netbuf (P : Params) (id addr : Nat) (d : List Nat) (len : Nat)
    (s : Option Nat) (hlen : len ≤ d.length) (hmax : len ≤ P.NETBUF_SEND_PAYLOAD_MAX) :
    default_sized P s [new_send_netbuf P id addr d len s] := by
  intro nb hnb
  simp only [List.mem_singleton] at hnb
  subst hnb
  refine ⟨?_, rfl, ?_⟩
  · rw [new_send_netbuf_m_len]
    omega
  · rw [new_send_netbuf_cells_length P id addr d len s hlen, new_send_netbuf_m_len]
    have : (new_send_netbuf P id addr d len s).b_len = len := rfl
    omega

/-- The first payload on an empty queue. -/
theorem net_send_queue_first {σ : Type} (P : Params) (w : World σ) (data : List Nat)
    (s : Option Nat) (hq : w.c.send_queue = [])
    (hmax : data.length ≤ P.NETBUF_SEND_PAYLOAD_MAX) :
    lengths (net_send_queue P w data data.length s).c.send_queue = [data.length] ∧
    default_sized P s (net_send_queue P w data data.length s).c.send_queue := by
  rw [net_send_queue_eq_new P w data data.length s (by simp [hq])]
  simp only [net_send_queue_new, hq, List.nil_append]
  exact ⟨rfl, default_sized_new_send_netbuf P _ _ data _ s (le_refl _) hmax⟩

/-- The tail of a queue whose lengths end in `b`. -/
theorem tail_of_lengths {q : List netbuf} {ls : List Nat} {b : Nat}
    (h : lengths q = ls ++ [b]) :
    ∃ t, q.getLast? = some t ∧ t.b_len = b ∧ lengths q.dropLast = ls := by
  rcases List.eq_nil_or_concat q with rfl | ⟨L, t, rfl⟩
  · simp [lengths] at h
  · simp only [List.concat_eq_append] at h ⊢
    simp only [lengths, List.map_append, List.map_cons, List.map_nil] at h
    have h2 := List.append_inj' h (by simp)
    refine ⟨t, by simp, ?_, ?_⟩
    · simpa using h2.2
    · simpa [lengths] using h2.1

/-- A payload that fits in the room left by the tail joins the tail. -/
theorem net_send_queue_joins {σ : Type} (P : Params) (w : World σ) (data : List Nat)
    (s : Option Nat) (ls : List Nat) (b : Nat)
    (hl : lengths w.c.send_queue = ls ++ [b]) (hd : default_sized P s w.c.send_queue)
    (hfit : b + data.length < P.NETBUF_SEND_PAYLOAD_MAX) :
    lengths (net_send_queue P w data data.length s).c.send_queue = ls ++ [b + data.length] ∧
    default_sized P s (net_send_queue P w data data.length s).c.send_queue := by
  obtain ⟨t, ht, hb, hls⟩ := tail_of_lengths hl
  have hq := queue_eq_dropLast_of_getLast? ht
  have htd : default_sized P s [t] := by
    rw [hq] at hd
    exact (default_sized_append.1 hd).2
  obtain ⟨hm, hs, hc⟩ := htd t (by simp)
  have hdl : default_sized P s w.c.send_queue.dropLast := by
    rw [hq] at hd
    exact (default_sized_append.1 hd).1
  rw [net_send_queue_eq_append P w data data.length s t ht hs (by omega)]
  refine ⟨?_, ?_⟩
  · rw [lengths_append, hls]
    simp [lengths, hb]
  · refine default_sized_append.2 ⟨hdl, ?_⟩
    intro nb hnb
    simp only [List.mem_singleton] at hnb
    subst hnb
    refine ⟨hm, hs, ?_⟩
    show t.b_len + data.length ≤ (memcpy t.buf.cells t.b_len data data.length).length
    rw [memcpy_length _ _ _ _ hc (le_refl _)]
    omega

/-- A payload longer than the room left by the tail fills the tail; the rest of
it makes one new record. -/
theorem net_send_queue_overflows {σ : Type} (P : Params) (w : World σ) (data : List Nat)
    (s : Option Nat) (ls : List Nat) (b : Nat)
    (hl : lengths w.c.send_queue = ls ++ [b]) (hd : default_sized P s w.c.send_queue)
    (hroom : b < P.NETBUF_SEND_PAYLOAD_MAX)
    (hover : P.NETBUF_SEND_PAYLOAD_MAX < b + data.length)
    (hmax : data.length ≤ P.NETBUF_SEND_PAYLOAD_MAX) :
    lengths (net_send_queue P w data data.length s).c.send_queue =
      ls ++ [P.NETBUF_SEND_PAYLOAD_MAX, b + data.length - P.NETBUF_SEND_PAYLOAD_MAX] ∧
    default_sized P s (net_send_queue P w data data.length s).c.send_queue := by
  obtain ⟨t, ht, hb, hls⟩ := tail_of_lengths hl
  have hq := queue_eq_dropLast_of_getLast? ht
  have htd : default_sized P s [t] := by
    rw [hq] at hd
    exact (default_sized_append.1 hd).2
  obtain ⟨hm, hs, hc⟩ := htd t (by simp)
  have hdl : default_sized P s w.c.send_queue.dropLast := by
    rw [hq] at hd
    exact (default_sized_append.1 hd).1
  rw [net_send_queue_eq_overflow P w data data.length s t ht hs (by omega) (by omega)]
  simp only [net_send_queue_new]
  refine ⟨?_, ?_⟩
  · simp only [lengths_append, hls, List.append_assoc]
    simp only [lengths, List.map_cons, List.map_nil, List.singleton_append]
    have : (new_send_netbuf P w.nb_pool w.heap (List.drop (t.m_len - t.b_len) data)
        (data.length - (t.m_len - t.b_len)) s).b_len = data.length - (t.m_len - t.b_len) := rfl
    rw [this, hm]
    congr 2
    congr 1
    omega
  · refine default_sized_append.2 ⟨default_sized_append.2 ⟨hdl, ?_⟩, ?_⟩
    · intro nb hnb
      simp only [List.mem_singleton] at hnb
      subst hnb
      refine ⟨hm, hs, ?_⟩
      show t.m_len ≤ (memcpy t.buf.cells t.b_len data (t.m_len - t.b_len)).length
      rw [memcpy_length _ _ _ _ hc (by omega)]
      omega
    · apply default_sized_new_send_netbuf
      · simp
      · omega

/-- Three payloads below the capacity whose total is above twice the capacity
fill two records and leave the overflow in a third. -/
theorem net_send_queue_fills_two {σ : Type} (P : Params) (w : World σ) (d1 d2 d3 : List Nat)
    (s : Option Nat) (hq : w.c.send_queue = [])
    (h1 : d1.length < P.NETBUF_SEND_PAYLOAD_MAX) (h2 : d2.length < P.NETBUF_SEND_PAYLOAD_MAX)
    (h3 : d3.length < P.NETBUF_SEND_PAYLOAD_MAX)
    (h : 2 * P.NETBUF_SEND_PAYLOAD_MAX < d1.length + d2.length + d3.length) :
    lengths (net_send_queue P (net_send_queue P (net_send_queue P w d1 d1.length s)
      d2 d2.length s) d3 d3.length s).c.send_queue =
      [P.NETBUF_SEND_PAYLOAD_MAX, P.NETBUF_SEND_PAYLOAD_MAX,
        d1.length + d2.length + d3.length - 2 * P.NETBUF_SEND_PAYLOAD_MAX] := by
  obtain ⟨hl1, hd1⟩ := net_send_queue_first P w d1 s hq (by omega)
  obtain ⟨hl2, hd2⟩ := net_send_queue_overflows P _ d2 s [] d1.length hl1 hd1 h1 (by omega)
    (by omega)
  have hl2' : lengths (net_send_queue P (net_send_queue P w d1 d1.length s)
      d2 d2.length s).c.send_queue =
      [P.NETBUF_SEND_PAYLOAD_MAX] ++ [d1.length + d2.length - P.NETBUF_SEND_PAYLOAD_MAX] := by
    simpa using hl2
  obtain ⟨hl3, _⟩ := net_send_queue_overflows P _ d3 s _ _ hl2' hd2 (by omega) (by omega)
    (by omega)
  rw [hl3]
  simp
  omega

/-- C1 as stated fails: with a default capacity of 4, three payloads of 3 bytes
on the empty queue exceed the capacity of one record, and the overflow does not
go to exactly one second record: the queue holds three records, of 4, 4 and 1
bytes.  Likewise with a default capacity of 4000 and three payloads of 3999
bytes: three records, of 4000, 4000 and 3997 bytes. -/
theorem net_send_queue_three_records :
    (world0.c.send_queue = [] ∧
      [1, 2, 3].length < params4.NETBUF_SEND_PAYLOAD_MAX ∧
      ¬ ([1, 2, 3].length + [4, 5, 6].length + [7, 8, 9].length ≤
          params4.NETBUF_SEND_PAYLOAD_MAX) ∧
      lengths (net_send_queue params4 (net_send_queue params4
        (net_send_queue params4 world0 [1, 2, 3] 3 none) [4, 5, 6] 3 none)
          [7, 8, 9] 3 none).c.send_queue = [4, 4, 1]) ∧
    ((List.replicate 3999 0).length < params4000.NETBUF_SEND_PAYLOAD_MAX ∧
      lengths (net_send_queue params4000 (net_send_queue params4000
        (net_send_queue params4000 world0 (List.replicate 3999 0) 3999 none)
          (List.replicate 3999 0) 3999 none) (List.replicate 3999 0) 3999 none).c.send_queue =
        [4000, 4000, 3997]) := by
  have hlen : (List.replicate 3999 0).length = 3999 := List.length_replicate _ _
  have hlt : (List.replicate 3999 0).length < params4000.NETBUF_SEND_PAYLOAD_MAX := by
    rw [hlen]
    decide
  refine ⟨by decide, hlt, ?_⟩
  have h := net_send_queue_fills_two params4000 world0 (List.replicate 3999 0)
    (List.replicate 3999 0) (List.replicate 3999 0) none rfl hlt hlt hlt
    (by rw [hlen]; decide)
  rw [hlen] at h
  exact h

/-- C1, amended: three payloads, each shorter than `NETBUF_SEND_PAYLOAD_MAX`,
enqueued in order with the same stream on an empty send queue.  The queue then
holds the three payloads in order, in records of that stream and of the default
capacity.  If the total is below the capacity there is exactly one record, of
the total length, holding the concatenation.  If the total is above the
capacity and below twice the capacity, and the first two payloads do not add up
to exactly the capacity, the first record is filled to its capacity and exactly
one second record holds the overflow.  If the total is above twice the capacity
two records are filled and a third holds the overflow. -/
theorem net_send_queue_three {σ : Type} (P : Params) (w : World σ) (d1 d2 d3 : List Nat)
    (s : Option Nat) (hq : w.c.send_queue = [])
    (h1 : d1.length < P.NETBUF_SEND_PAYLOAD_MAX) (h2 : d2.length < P.NETBUF_SEND_PAYLOAD_MAX)
    (h3 : d3.length < P.NETBUF_SEND_PAYLOAD_MAX) :
    queued_bytes (net_send_queue P (net_send_queue P (net_send_queue P w d1 d1.length s)
      d2 d2.length s) d3 d3.length s).c.send_queue = (d1 ++ d2 ++ d3).map some ∧
    (∀ nb ∈ (net_send_queue P (net_send_queue P (net_send_queue P w d1 d1.length s)
      d2 d2.length s) d3 d3.length s).c.send_queue,
        nb.m_len = P.NETBUF_SEND_PAYLOAD_MAX ∧ nb.stream = s) ∧
    (d1.length + d2.length + d3.length < P.NETBUF_SEND_PAYLOAD_MAX →
      ∃ nb : netbuf,
        (net_send_queue P (net_send_queue P (net_send_queue P w d1 d1.length s)
          d2 d2.length s) d3 d3.length s).c.send_queue = [nb] ∧
        nb.b_len = d1.length + d2.length + d3.length ∧
        nb.buf.cells.take nb.b_len = (d1 ++ d2 ++ d3).map some) ∧
    (P.NETBUF_SEND_PAYLOAD_MAX < d1.length + d2.length + d3.length →
      d1.length + d2.length + d3.length < 2 * P.NETBUF_SEND_PAYLOAD_MAX →
      d1.length + d2.length ≠ P.NETBUF_SEND_PAYLOAD_MAX →
      lengths (net_send_queue P (net_send_queue P (net_send_queue P w d1 d1.length s)
        d2 d2.length s) d3 d3.length s).c.send_queue =
        [P.NETBUF_SEND_PAYLOAD_MAX,
          d1.length + d2.length + d3.length - P.NETBUF_SEND_PAYLOAD_MAX]) ∧
    (2 * P.NETBUF_SEND_PAYLOAD_MAX < d1.length + d2.length + d3.length →
      lengths (net_send_queue P (net_send_queue P (net_send_queue P w d1 d1.length s)
        d2 d2.length s) d3 d3.length s).c.send_queue =
        [P.NETBUF_SEND_PAYLOAD_MAX, P.NETBUF_SEND_PAYLOAD_MAX,
          d1.length + d2.length + d3.length - 2 * P.NETBUF_SEND_PAYLOAD_MAX]) := by
  obtain ⟨hl1, hd1⟩ := net_send_queue_first P w d1 s hq (by omega)
  have hwf : ∀ {q : List netbuf}, default_sized P s q → ∀ t ∈ q, t.b_len ≤ t.buf.cells.length :=
    fun hd t ht => (hd t ht).2.2
  have hwf2 : ∀ {q : List netbuf}, default_sized P s q →
      ∀ nb ∈ q, nb.m_len = P.NETBUF_SEND_PAYLOAD_MAX ∧ nb.stream = s :=
    fun hd t ht => ⟨(hd t ht).1, (hd t ht).2.1⟩
  have hb1 : queued_bytes (net_send_queue P w d1 d1.length s).c.send_queue = d1.map some := by
    rw [queued_bytes_net_send_queue P w d1 d1.length s (le_refl _) (by simp [hq]), hq]
    simp [queued_bytes]
  -- the lengths and the shape of the queue after the second and the third call
  have key : ∀ w3 : World σ,
      w3 = net_send_queue P (net_send_queue P (net_send_queue P w d1 d1.length s)
        d2 d2.length s) d3 d3.length s →
      default_sized P s (net_send_queue P (net_send_queue P w d1 d1.length s)
        d2 d2.length s).c.send_queue →
      default_sized P s w3.c.send_queue →
      queued_bytes w3.c.send_queue = (d1 ++ d2 ++ d3).map some := by
    intro w3 hw3 hd2 _
    rw [hw3, queued_bytes_net_send_queue P _ d3 d3.length s (le_refl _) (hwf hd2),
      queued_bytes_net_send_queue P _ d2 d2.length s (le_refl _) (hwf hd1), hb1]
    simp
  rcases Nat.lt_trichotomy (d1.length + d2.length) P.NETBUF_SEND_PAYLOAD_MAX with h12 | h12 | h12
  · -- the second payload joins the first record
    obtain ⟨hl2, hd2⟩ := net_send_queue_joins P _ d2 s [] d1.length hl1 hd1 h12
    rcases Nat.lt_trichotomy (d1.length + d2.length + d3.length)
        P.NETBUF_SEND_PAYLOAD_MAX with h123 | h123 | h123
    · obtain ⟨hl3, hd3⟩ := net_send_queue_joins P _ d3 s [] _ hl2 hd2 h123
      have hb := key _ rfl hd2 hd3
      refine ⟨hb, hwf2 hd3, ?_, fun h => by omega, fun h => by omega⟩
      intro _
      obtain ⟨nb, hnb, hlen, _⟩ := tail_of_lengths hl3
      have hq3 := queue_eq_dropLast_of_getLast? hnb
      have hnil : (net_send_queue P (net_send_queue P (net_send_queue P w d1 d1.length s)
          d2 d2.length s) d3 d3.length s).c.send_queue.dropLast = [] := by
        have hlen3 := congrArg List.length hl3
        simp only [lengths, List.length_map, List.nil_append, List.length_singleton] at hlen3
        apply List.eq_nil_of_length_eq_zero
        simp [hlen3]
      rw [hnil, List.nil_append] at hq3
      refine ⟨nb, hq3, hlen, ?_⟩
      rw [hq3, queued_bytes_singleton, hlen] at hb
      rw [hlen]
      exact hb
    · obtain ⟨t, ht, htb, _⟩ := tail_of_lengths hl2
      have hq2 := queue_eq_dropLast_of_getLast? ht
      have htm : t.m_len = P.NETBUF_SEND_PAYLOAD_MAX := (hd2 t (by rw [hq2]; simp)).1
      have heq := net_send_queue_eq_exact P (net_send_queue P (net_send_queue P w d1 d1.length s)
        d2 d2.length s) d3 d3.length s t ht (by omega) (by omega)
      have hd3 : default_sized P s (net_send_queue P (net_send_queue P
          (net_send_queue P w d1 d1.length s) d2 d2.length s) d3 d3.length s).c.send_queue := by
        rw [heq]
        simp only [net_send_queue_new]
        exact default_sized_append.2 ⟨hd2,
          default_sized_new_send_netbuf P _ _ d3 _ s (le_refl _) (by omega)⟩
      exact ⟨key _ rfl hd2 hd3, hwf2 hd3, fun h => by omega, fun h => by omega,
        fun h => by omega⟩
    · obtain ⟨hl3, hd3⟩ := net_send_queue_overflows P _ d3 s [] _ hl2 hd2 h12 h123 (by omega)
      refine ⟨key _ rfl hd2 hd3, hwf2 hd3, fun h => by omega, ?_, fun h => by omega⟩
      intro _ _ _
      simpa using hl3
  · -- the second payload is exactly the room left: it goes to a record of its own
    obtain ⟨t, ht, htb, _⟩ := @tail_of_lengths _ [] _ hl1
    have hq1 := queue_eq_dropLast_of_getLast? ht
    have htm : t.m_len = P.NETBUF_SEND_PAYLOAD_MAX := (hd1 t (by rw [hq1]; simp)).1
    have heq := net_send_queue_eq_exact P (net_send_queue P w d1 d1.length s)
      d2 d2.length s t ht (by omega) (by omega)
    have hd2 : default_sized P s (net_send_queue P (net_send_queue P w d1 d1.length s)
        d2 d2.length s).c.send_queue := by
      rw [heq]
      simp only [net_send_queue_new]
      exact default_sized_append.2 ⟨hd1,
        default_sized_new_send_netbuf P _ _ d2 _ s (le_refl _) (by omega)⟩
    have hl2 : lengths (net_send_queue P (net_send_queue P w d1 d1.length s)
        d2 d2.length s).c.send_queue = [d1.length] ++ [d2.length] := by
      rw [heq]
      simp only [net_send_queue_new, lengths_append, hl1]
      rfl
    have hd3 : default_sized P s (net_send_queue P (net_send_queue P
        (net_send_queue P w d1 d1.length s) d2 d2.length s) d3 d3.length s).c.send_queue := by
      rcases Nat.lt_trichotomy (d2.length + d3.length) P.NETBUF_SEND_PAYLOAD_MAX with h | h | h
      · exact (net_send_queue_joins P _ d3 s _ _ hl2 hd2 h).2
      · obtain ⟨t2, ht2, htb2, _⟩ := tail_of_lengths hl2
        have hq2 := queue_eq_dropLast_of_getLast? ht2
        have htm2 : t2.m_len = P.NETBUF_SEND_PAYLOAD_MAX := (hd2 t2 (by rw [hq2]; simp)).1
        rw [net_send_queue_eq_exact P _ d3 d3.length s t2 ht2 (by omega) (by omega)]
        simp only [net_send_queue_new]
        exact default_sized_append.2 ⟨hd2,
          default_sized_new_send_netbuf P _ _ d3 _ s (le_refl _) (by omega)⟩
      · exact (net_send_queue_overflows P _ d3 s _ _ hl2 hd2 (by omega) h (by omega)).2
    exact ⟨key _ rfl hd2 hd3, hwf2 hd3, fun h => by omega, fun _ _ h => absurd h12 h,
      fun h => by omega⟩
  · -- the second payload fills the first record and opens a second one
    obtain ⟨hl2, hd2⟩ := net_send_queue_overflows P _ d2 s [] d1.length hl1 hd1 h1 h12 (by omega)
    simp only [List.nil_append] at hl2
    have hl2' : lengths (net_send_queue P (net_send_queue P w d1 d1.length s)
        d2 d2.length s).c.send_queue =
        [P.NETBUF_SEND_PAYLOAD_MAX] ++ [d1.length + d2.length - P.NETBUF_SEND_PAYLOAD_MAX] := by
      simpa using hl2
    rcases Nat.lt_trichotomy (d1.length + d2.length + d3.length)
        (2 * P.NETBUF_SEND_PAYLOAD_MAX) with h123 | h123 | h123
    · obtain ⟨hl3, hd3⟩ := net_send_queue_joins P _ d3 s _ _ hl2' hd2 (by omega)
      refine ⟨key _ rfl hd2 hd3, hwf2 hd3, fun h => by omega, ?_, fun h => by omega⟩
      intro _ _ _
      rw [hl3]
      simp
      omega
    · obtain ⟨t2, ht2, htb2, _⟩ := tail_of_lengths hl2'
      have hq2 := queue_eq_dropLast_of_getLast? ht2
      have htm2 : t2.m_len = P.NETBUF_SEND_PAYLOAD_MAX := (hd2 t2 (by rw [hq2]; simp)).1
      have hd3 : default_sized P s (net_send_queue P (net_send_queue P
          (net_send_queue P w d1 d1.length s) d2 d2.length s) d3 d3.length s).c.send_queue := by
        rw [net_send_queue_eq_exact P _ d3 d3.length s t2 ht2 (by omega) (by omega)]
        simp only [net_send_queue_new]
        exact default_sized_append.2 ⟨hd2,
          default_sized_new_send_netbuf P _ _ d3 _ s (le_refl _) (by omega)⟩
      exact ⟨key _ rfl hd2 hd3, hwf2 hd3, fun h => by omega, fun h => by omega,
        fun h => by omega⟩
    · obtain ⟨hl3, hd3⟩ := net_send_queue_overflows P _ d3 s _ _ hl2' hd2 (by omega)
        (by omega) (by omega)
      refine ⟨key _ rfl hd2 hd3, hwf2 hd3, fun h => by omega, fun h => by omega, ?_⟩
      intro _
      rw [hl3]
      simp
      omega

/-- An instance of `net_send_queue_three` for each of its three cases, with a
default capacity of 4: payloads of 1, 1, 1 bytes share one record; payloads of
2, 1, 2 bytes fill the first record and leave one byte in a second; payloads of
3, 3, 3 bytes fill two records and leave one byte in a third. -/
theorem net_send_queue_three_witness :
    (world0.c.send_queue = [] ∧ [1].length < params4.NETBUF_SEND_PAYLOAD_MAX ∧
      [1].length + [2].length + [3].length < params4.NETBUF_SEND_PAYLOAD_MAX ∧
      ∃ nb : netbuf,
        (net_send_queue params4 (net_send_queue params4 (net_send_queue params4 world0
          [1] [1].length none) [2] [2].length none) [3] [3].length none).c.send_queue = [nb] ∧
        nb.b_len = [1].length + [2].length + [3].length ∧
        nb.buf.cells.take nb.b_len = ([1] ++ [2] ++ [3]).map some) ∧
    (lengths (net_send_queue params4 (net_send_queue params4 (net_send_queue params4 world0
        [1, 2] [1, 2].length none) [3] [3].length none) [4, 5] [4, 5].length none).c.send_queue =
      [params4.NETBUF_SEND_PAYLOAD_MAX,
        [1, 2].length + [3].length + [4, 5].length - params4.NETBUF_SEND_PAYLOAD_MAX]) ∧
    (lengths (net_send_queue params4 (net_send_queue params4 (net_send_queue params4 world0
        [1, 2, 3] [1, 2, 3].length none) [4, 5, 6] [4, 5, 6].length none)
          [7, 8, 9] [7, 8, 9].length none).c.send_queue =
      [params4.NETBUF_SEND_PAYLOAD_MAX, params4.NETBUF_SEND_PAYLOAD_MAX,
        [1, 2, 3].length + [4, 5, 6].length + [7, 8, 9].length -
          2 * params4.NETBUF_SEND_PAYLOAD_MAX]) :=
  ⟨⟨rfl, by decide, by decide,
      (net_send_queue_three params4 world0 [1] [2] [3] none rfl (by decide) (by decide)
        (by decide)).2.2.1 (by decide)⟩,
    (net_send_queue_three params4 world0 [1, 2] [3] [4, 5] none rfl (by decide) (by decide)
      (by decide)).2.2.2.1 (by decide) (by decide) (by decide),
    (net_send_queue_three params4 world0 [1, 2, 3] [4, 5, 6] [7, 8, 9] none rfl (by decide)
      (by decide) (by decide)).2.2.2.2 (by decide)⟩

/-! ## Borrowed records -/

/-- What `net_send_queue` does to the queue: it appends a record, or it writes
into a tail that has room and may append a record after it. -/
theorem net_send_queue_shape {σ : Type} (P : Params) (w : World σ) (data : List Nat)
    (len : Nat) (s : Option Nat) :
    (∃ nb, (net_send_queue P w data len s).c.send_queue = w.c.send_queue ++ [nb]) ∨
    (∃ t t1 ex, w.c.send_queue.getLast? = some t ∧ t.b_len < t.m_len ∧
      (net_send_queue P w data len s).c.send_queue = w.c.send_queue.dropLast ++ [t1] ++ ex) := by
  cases hl : w.c.send_queue.getLast? with
  | none =>
    left
    rw [net_send_queue_eq_new P w data len s (by simp [hl])]
    exact ⟨_, rfl⟩
  | some t =>
    by_cases hc : t.b_len < t.m_len ∧ t.stream = s
    · obtain ⟨hroom, hs⟩ := hc
      rcases Nat.lt_trichotomy (t.b_len + len) t.m_len with h | h | h
      · right
        rw [net_send_queue_eq_append P w data len s t hl hs h]
        exact ⟨t, _, [], rfl, hroom, (List.append_nil _).symm⟩
      · left
        rw [net_send_queue_eq_exact P w data len s t hl hroom h]
        exact ⟨_, rfl⟩
      · right
        rw [net_send_queue_eq_overflow P w data len s t hl hs hroom h]
        exact ⟨t, _, [_], rfl, hroom, rfl⟩
    · left
      rw [net_send_queue_eq_new P w data len s]
      · exact ⟨_, rfl⟩
      · intro t1 ht1
        rw [hl] at ht1
        cases ht1
        by_cases h1 : t.b_len < t.m_len
        · exact Or.inl fun h2 => hc ⟨h1, h2⟩
        · exact Or.inr h1

/-- A record at capacity, and every record in front of it, is left as it is by
`net_send_queue`. -/
theorem net_send_queue_keeps_full {σ : Type} (P : Params) (w : World σ) (data : List Nat)
    (len : Nat) (s : Option Nat) (pre rest : List netbuf) (nb : netbuf)
    (hq : w.c.send_queue = pre ++ [nb] ++ rest) (hfull : ¬ nb.b_len < nb.m_len) :
    ∃ rest1, (net_send_queue P w data len s).c.send_queue = pre ++ [nb] ++ rest1 := by
  rcases net_send_queue_shape P w data len s with ⟨x, hx⟩ | ⟨t, t1, ex, hl, hroom, hx⟩
  · exact ⟨rest ++ [x], by rw [hx, hq]; simp⟩
  · rcases List.eq_nil_or_concat rest with rfl | ⟨L, b, rfl⟩
    · rw [hq] at hl
      simp at hl
      subst hl
      exact absurd hroom hfull
    · refine ⟨L ++ [t1] ++ ex, ?_⟩
      rw [hx, hq]
      simp only [List.concat_eq_append]
      rw [← List.append_assoc (pre ++ [nb]) L [b], List.dropLast_concat]
      simp

/-- A record at capacity, and every record in front of it, is left as it is by
any sequence of `net_send_queue` calls. -/
theorem net_send_queue_seq_keeps_full {σ : Type} (P : Params)
    (calls : List (List Nat × Nat × Option Nat)) :
    ∀ (w : World σ) (pre rest : List netbuf) (nb : netbuf),
      w.c.send_queue = pre ++ [nb] ++ rest → ¬ nb.b_len < nb.m_len →
      ∃ rest1, (net_send_queue_seq P calls w).c.send_queue = pre ++ [nb] ++ rest1 := by
  induction calls with
  | nil =>
    intro w pre rest nb hq _
    exact ⟨rest, hq⟩
  | cons call calls ih =>
    intro w pre rest nb hq hfull
    obtain ⟨data, len, s⟩ := call
    obtain ⟨rest1, h1⟩ := net_send_queue_keeps_full P w data len s pre rest nb hq hfull
    exact ih _ pre rest1 nb h1 hfull

/-- C7: `net_send_stream` leaves every queued record as it is and appends
exactly one record: it holds the caller's pointer `data`, its capacity and its
length are `len`, transferred is 0 and its only flag is `NETBUF_IS_STREAM`.
After any later calls of `net_send_queue`, for any payloads and streams, the
queue still begins with the old records followed by this record, unchanged;
and in any state in which a record with this capacity and length is queued, a
call of `net_send_queue` leaves that record and the records in front of it as
they are. -/
theorem net_send_stream_borrowed {σ : Type} (P : Params) (w : World σ) (data : Block)
    (len : Nat) (s : Option Nat) (calls : List (List Nat × Nat × Option Nat)) :
    ∃ nb : netbuf,
      (net_send_stream w data len s).c.send_queue = w.c.send_queue ++ [nb] ∧
      nb.buf = data ∧ nb.m_len = len ∧ nb.b_len = len ∧ nb.s_off = 0 ∧
      nb.flags = { NETBUF_CALL_CB_ALWAYS := false, NETBUF_FORCE_REMOVE := false,
                   NETBUF_MUST_RESEND := false, NETBUF_IS_STREAM := true } ∧
      nb.type = NetbufType.NETBUF_SEND ∧ nb.stream = s ∧
      (∃ rest, (net_send_queue_seq P calls (net_send_stream w data len s)).c.send_queue =
        w.c.send_queue ++ [nb] ++ rest) ∧
      (∀ (w1 : World σ) (pre rest : List netbuf) (nb1 : netbuf) (data1 : List Nat)
          (len1 : Nat) (s1 : Option Nat),
        nb1.b_len = nb.b_len → nb1.m_len = nb.m_len →
        w1.c.send_queue = pre ++ [nb1] ++ rest →
        ∃ rest1, (net_send_queue P w1 data1 len1 s1).c.send_queue = pre ++ [nb1] ++ rest1) := by
  refine ⟨_, rfl, rfl, rfl, rfl, rfl, rfl, rfl, rfl, ?_, ?_⟩
  · exact net_send_queue_seq_keeps_full P calls _ w.c.send_queue [] _
      (by simp [net_send_stream]) (by simp)
  · intro w1 pre rest nb1 data1 len1 s1 hb hm hq
    refine net_send_queue_keeps_full P w1 data1 len1 s1 pre rest nb1 hq ?_
    rw [hb, hm]
    simp

/-- An instance of `net_send_stream_borrowed`: a borrowed payload of 3 bytes on
stream 9, followed by `net_send_queue` calls on stream 9 and on no stream. -/
theorem net_send_stream_borrowed_witness :
    ∃ nb : netbuf,
      (net_send_stream world0 { addr := 55, cells := [some 1, some 2, some 3] } 3
        (some 9)).c.send_queue = world0.c.send_queue ++ [nb] ∧
      nb.buf = { addr := 55, cells := [some 1, some 2, some 3] } ∧
      nb.m_len = 3 ∧ nb.b_len = 3 ∧ nb.s_off = 0 ∧
      nb.flags = { NETBUF_CALL_CB_ALWAYS := false, NETBUF_FORCE_REMOVE := false,
                   NETBUF_MUST_RESEND := false, NETBUF_IS_STREAM := true } ∧
      nb.type = NetbufType.NETBUF_SEND ∧ nb.stream = some 9 ∧
      (∃ rest, (net_send_queue_seq params4 [([7], 1, some 9), ([8], 1, none)]
          (net_send_stream world0 { addr := 55, cells := [some 1, some 2, some 3] } 3
            (some 9))).c.send_queue = world0.c.send_queue ++ [nb] ++ rest) ∧
      (∀ (w1 : World Unit) (pre rest : List netbuf) (nb1 : netbuf) (data1 : List Nat)
          (len1 : Nat) (s1 : Option Nat),
        nb1.b_len = nb.b_len → nb1.m_len = nb.m_len →
        w1.c.send_queue = pre ++ [nb1] ++ rest →
        ∃ rest1, (net_send_queue params4 w1 data1 len1 s1).c.send_queue =
          pre ++ [nb1] ++ rest1) :=
  net_send_stream_borrowed params4 world0 { addr := 55, cells := [some 1, some 2, some 3] } 3
    (some 9) [([7], 1, some 9), ([8], 1, none)]

/-! ## One pass through the loop of `net_send` -/

theorem nb_find_head (nb : netbuf) (rest : List netbuf) :
    nb_find nb.id (nb :: rest) = some nb := by
  simp [nb_find]

theorem net_remove_netbuf_head_removed (nb : netbuf) (rest : List netbuf) (trace : List Event)
    (h : nb.flags.NETBUF_MUST_RESEND = false) :
    net_remove_netbuf (nb :: rest) nb.id trace =
      (rest, (if nb.flags.NETBUF_IS_STREAM = true then trace
              else trace ++ [Event.kore_mem_free nb.buf.addr]) ++ [Event.kore_pool_put nb.id]) := by
  unfold net_remove_netbuf
  rw [nb_find_head]
  cases hs : nb.flags.NETBUF_IS_STREAM <;> simp [h, hs, nb_update, TAILQ_REMOVE]

theorem net_remove_netbuf_head_retained (nb : netbuf) (rest : List netbuf) (trace : List Event)
    (h : nb.flags.NETBUF_MUST_RESEND = true) :
    net_remove_netbuf (nb :: rest) nb.id trace = ({ nb with stream := none } :: rest, trace) := by
  unfold net_remove_netbuf
  rw [nb_find_head]
  simp [h, nb_update]

/-- The retirement check leaves an incomplete front record where it is. -/
theorem net_send_retire_incomplete {σ : Type} (w : World σ) (nb : netbuf)
    (rest : List netbuf) (h : nb.s_off ≠ nb.b_len) :
    net_send_retire w nb rest = { w with c := { w.c with send_queue := nb :: rest } } := by
  simp [net_send_retire, h]

theorem net_send_retire_removed {σ : Type} (w : World σ) (nb : netbuf)
    (rest : List netbuf) (h : nb.s_off = nb.b_len) (hf : nb.flags.NETBUF_MUST_RESEND = false) :
    net_send_retire w nb rest =
      { w with
        c := { w.c with send_queue := rest },
        trace := w.trace ++
          (match nb.stream with
           | some s =>
             if nb.flags.NETBUF_IS_STREAM = true then
               [Event.spdy_frame_send SpdyFrameType.SPDY_DATA_FRAME SpdyFrameFlag.FLAG_FIN 0 s 0]
             else []
           | none => []) ++
          (if nb.flags.NETBUF_IS_STREAM = true then [] else [Event.kore_mem_free nb.buf.addr]) ++
          [Event.kore_pool_put nb.id] } := by
  simp only [net_send_retire, h, if_true, net_remove_netbuf_head_removed _ _ _ hf]
  cases hs : nb.stream <;> cases hi : nb.flags.NETBUF_IS_STREAM <;> simp

theorem net_send_retire_retained {σ : Type} (w : World σ) (nb : netbuf)
    (rest : List netbuf) (h : nb.s_off = nb.b_len) (hf : nb.flags.NETBUF_MUST_RESEND = true) :
    net_send_retire w nb rest =
      { w with
        c := { w.c with send_queue := { nb with stream := none } :: rest },
        trace := w.trace ++
          (match nb.stream with
           | some s =>
             if nb.flags.NETBUF_IS_STREAM = true then
               [Event.spdy_frame_send SpdyFrameType.SPDY_DATA_FRAME SpdyFrameFlag.FLAG_FIN 0 s 0]
             else []
           | none => []) } := by
  simp only [net_send_retire, h, if_true, net_remove_netbuf_head_retained _ _ _ hf]
  cases hs : nb.stream <;> cases hi : nb.flags.NETBUF_IS_STREAM <;> simp

theorem usub_eq (P : Params) (a b : Nat) (hba : b ≤ a) (ha : a < P.LEN_MOD) :
    usub P a b = a - b := by
  unfold usub
  have : a + P.LEN_MOD - b = (a - b) + P.LEN_MOD := by omega
  rw [this, Nat.add_mod_right, Nat.mod_eq_of_lt (by omega)]

theorem to_int_le (x : Nat) : to_int x ≤ (x : Int) := by
  unfold to_int
  have h := Nat.mod_le x (2 ^ 32)
  split <;> omega

theorem to_int_eq (x : Nat) (h : x < 2 ^ 31) : to_int x = (x : Int) := by
  unfold to_int
  have h1 : x % 2 ^ 32 = x := Nat.mod_eq_of_lt (by omega)
  rw [h1, if_pos h]

theorem uadd_eq (P : Params) (a b : Nat) (h : a + b < P.LEN_MOD) : uadd P a b = a + b := by
  unfold uadd
  exact Nat.mod_eq_of_lt h

theorem net_send_iter_nil {σ : Type} (P : Params) (T : Transport σ) (w : World σ)
    (hq : w.c.send_queue = []) : net_send_iter P T w = Step.ret KORE_RESULT_OK w := by
  simp [net_send_iter, hq]

theorem net_send_iter_zero {σ : Type} (P : Params) (T : Transport σ) (w : World σ)
    (nb : netbuf) (rest : List netbuf) (hq : w.c.send_queue = nb :: rest) (hb : nb.b_len = 0) :
    net_send_iter P T w = Step.next (net_send_retire w nb rest) := by
  simp [net_send_iter, hq, hb]

theorem net_send_iter_block {σ : Type} (P : Params) (T : Transport σ) (w : World σ)
    (nb : netbuf) (rest : List netbuf) (hq : w.c.send_queue = nb :: rest) (hb : nb.b_len ≠ 0)
    (hr : (T.SSL_write w.c.ssl (send_offered P nb) (send_len P nb)).1 ≤ 0)
    (he : T.SSL_get_error (T.SSL_write w.c.ssl (send_offered P nb) (send_len P nb)).2
            (T.SSL_write w.c.ssl (send_offered P nb) (send_len P nb)).1 = SSL_ERROR_WANT_READ ∨
          T.SSL_get_error (T.SSL_write w.c.ssl (send_offered P nb) (send_len P nb)).2
            (T.SSL_write w.c.ssl (send_offered P nb) (send_len P nb)).1 = SSL_ERROR_WANT_WRITE) :
    net_send_iter P T w = Step.ret KORE_RESULT_OK
      { net_send_wrote P w nb (T.SSL_write w.c.ssl (send_offered P nb) (send_len P nb)) with
        c := { (net_send_wrote P w nb
                  (T.SSL_write w.c.ssl (send_offered P nb) (send_len P nb))).c with
          flags := { w.c.flags with CONN_WRITE_POSSIBLE := false },
          send_queue :=
            { nb with flags := { nb.flags with NETBUF_MUST_RESEND := true } } :: rest } } := by
  simp only [net_send_iter, hq, hb, ne_eq, not_false_eq_true, if_true, hr, he]
  rfl

theorem net_send_iter_error {σ : Type} (P : Params) (T : Transport σ) (w : World σ)
    (nb : netbuf) (rest : List netbuf) (hq : w.c.send_queue = nb :: rest) (hb : nb.b_len ≠ 0)
    (hr : (T.SSL_write w.c.ssl (send_offered P nb) (send_len P nb)).1 ≤ 0)
    (he : ¬ (T.SSL_get_error (T.SSL_write w.c.ssl (send_offered P nb) (send_len P nb)).2
            (T.SSL_write w.c.ssl (send_offered P nb) (send_len P nb)).1 = SSL_ERROR_WANT_READ ∨
          T.SSL_get_error (T.SSL_write w.c.ssl (send_offered P nb) (send_len P nb)).2
            (T.SSL_write w.c.ssl (send_offered P nb) (send_len P nb)).1 = SSL_ERROR_WANT_WRITE)) :
    net_send_iter P T w = Step.ret KORE_RESULT_ERROR
      (net_send_wrote P w nb (T.SSL_write w.c.ssl (send_offered P nb) (send_len P nb))) := by
  simp only [net_send_iter, hq, hb, ne_eq, not_false_eq_true, if_true, hr, he, if_false]

theorem net_send_iter_progress {σ : Type} (P : Params) (T : Transport σ) (w : World σ)
    (nb : netbuf) (rest : List netbuf) (hq : w.c.send_queue = nb :: rest) (hb : nb.b_len ≠ 0)
    (hr : 0 < (T.SSL_write w.c.ssl (send_offered P nb) (send_len P nb)).1) :
    net_send_iter P T w = Step.next
      (net_send_retire
        (net_send_notify
          (net_send_wrote P w nb (T.SSL_write w.c.ssl (send_offered P nb) (send_len P nb)))
          nb (T.SSL_write w.c.ssl (send_offered P nb) (send_len P nb)).1)
        (net_send_advance P nb (T.SSL_write w.c.ssl (send_offered P nb) (send_len P nb)).1)
        rest) := by
  have hr' : ¬ (T.SSL_write w.c.ssl (send_offered P nb) (send_len P nb)).1 ≤ 0 := by omega
  simp only [net_send_iter, hq, hb, ne_eq, not_false_eq_true, if_true, hr', if_false]

theorem net_send_step {σ : Type} (P : Params) (T : Transport σ) (fuel : Nat) (w : World σ) :
    net_send P T (fuel + 1) w =
      match net_send_iter P T w with
      | Step.ret r w1 => some (r, w1)
      | Step.next w1 => net_send P T fuel w1 := rfl

/-- With `s_off <= b_len` representable, the length requested is
`min(NETBUF_SEND_PAYLOAD_MAX, b_len - s_off)`. -/
theorem send_len_eq (P : Params) (nb : netbuf) (h1 : nb.s_off ≤ nb.b_len)
    (h2 : nb.b_len < P.LEN_MOD) :
    send_len P nb = min P.NETBUF_SEND_PAYLOAD_MAX (nb.b_len - nb.s_off) := by
  rw [send_len, usub_eq P _ _ h1 h2]

/-- The loop of `net_send`, started `k` passes earlier, goes on from the world
those passes lead to. -/
theorem net_send_of_passes {σ : Type} (P : Params) (T : Transport σ) (fuel : Nat) :
    ∀ (k : Nat) (w0 w : World σ), net_send_passes P T k w0 = some w →
      net_send P T (k + fuel) w0 = net_send P T fuel w := by
  intro k
  induction k with
  | zero =>
    intro w0 w h
    simp only [net_send_passes, Option.some.injEq] at h
    rw [h, Nat.zero_add]
  | succ k ih =>
    intro w0 w h
    have hk : k + 1 + fuel = (k + fuel) + 1 := by omega
    rw [hk, net_send_step]
    simp only [net_send_passes] at h
    cases hi : net_send_iter P T w0 with
    | ret r w1 => rw [hi] at h; simp at h
    | next w1 =>
      rw [hi] at h
      exact ih w1 w h

/-! ## Non-progress outcomes -/

/-- C10: in any pass of `net_send`, when `SSL_write` on the front record (of
non-zero length) returns `r <= 0`: if `SSL_get_error` reports
`SSL_ERROR_WANT_READ` or `SSL_ERROR_WANT_WRITE`, `net_send` returns
`KORE_RESULT_OK`, `CONN_WRITE_POSSIBLE` is cleared, the front record carries
`NETBUF_MUST_RESEND` and the queues are otherwise as they were just before the
write; on any other report `net_send` returns `KORE_RESULT_ERROR` with the
queues and the connection flags as they were just before the write. -/
theorem net_send_no_progress {σ : Type} (P : Params) (T : Transport σ) (w0 w : World σ)
    (k fuel : Nat) (nb : netbuf) (rest : List netbuf)
    (hk : net_send_passes P T k w0 = some w)
    (hq : w.c.send_queue = nb :: rest) (hb : nb.b_len ≠ 0)
    (hr : (T.SSL_write w.c.ssl (send_offered P nb) (send_len P nb)).1 ≤ 0) :
    ((T.SSL_get_error (T.SSL_write w.c.ssl (send_offered P nb) (send_len P nb)).2
          (T.SSL_write w.c.ssl (send_offered P nb) (send_len P nb)).1 = SSL_ERROR_WANT_READ ∨
        T.SSL_get_error (T.SSL_write w.c.ssl (send_offered P nb) (send_len P nb)).2
          (T.SSL_write w.c.ssl (send_offered P nb) (send_len P nb)).1 = SSL_ERROR_WANT_WRITE) →
      ∃ w1 : World σ,
        net_send P T (k + (fuel + 1)) w0 = some (KORE_RESULT_OK, w1) ∧
        w1.c.flags = { w.c.flags with CONN_WRITE_POSSIBLE := false } ∧
        w1.c.send_queue =
          { nb with flags := { nb.flags with NETBUF_MUST_RESEND := true } } :: rest ∧
        w1.c.recv_queue = w.c.recv_queue ∧
        w1.trace = w.trace ++ [Event.SSL_write (send_offered P nb) (send_len P nb)
          (T.SSL_write w.c.ssl (send_offered P nb) (send_len P nb)).1]) ∧
    (¬ (T.SSL_get_error (T.SSL_write w.c.ssl (send_offered P nb) (send_len P nb)).2
          (T.SSL_write w.c.ssl (send_offered P nb) (send_len P nb)).1 = SSL_ERROR_WANT_READ ∨
        T.SSL_get_error (T.SSL_write w.c.ssl (send_offered P nb) (send_len P nb)).2
          (T.SSL_write w.c.ssl (send_offered P nb) (send_len P nb)).1 = SSL_ERROR_WANT_WRITE) →
      ∃ w1 : World σ,
        net_send P T (k + (fuel + 1)) w0 = some (KORE_RESULT_ERROR, w1) ∧
        w1.c.flags = w.c.flags ∧
        w1.c.send_queue = w.c.send_queue ∧
        w1.c.recv_queue = w.c.recv_queue ∧
        w1.trace = w.trace ++ [Event.SSL_write (send_offered P nb) (send_len P nb)
          (T.SSL_write w.c.ssl (send_offered P nb) (send_len P nb)).1]) := by
  rw [net_send_of_passes P T (fuel + 1) k w0 w hk, net_send_step]
  constructor
  · intro he
    rw [net_send_iter_block P T w nb rest hq hb hr he]
    exact ⟨_, rfl, rfl, rfl, rfl, rfl⟩
  · intro he
    rw [net_send_iter_error P T w nb rest hq hb hr he]
    exact ⟨_, rfl, rfl, rfl, rfl, rfl⟩

/-- An instance of `net_send_no_progress`: the record "AB" offered to a
transport that is not ready, and to a transport that has failed. -/
theorem net_send_no_progress_witness :
    (net_send_passes params8 blocked_transport 0 world_ab = some world_ab ∧
      world_ab.c.send_queue = [new_send_netbuf params8 0 100 [65, 66] 2 none] ∧
      (new_send_netbuf params8 0 100 [65, 66] 2 none).b_len ≠ 0 ∧
      (∃ w1 : World Unit,
        net_send params8 blocked_transport (0 + (0 + 1)) world_ab = some (KORE_RESULT_OK, w1) ∧
        w1.c.flags = { world_ab.c.flags with CONN_WRITE_POSSIBLE := false } ∧
        w1.c.send_queue =
          [{ new_send_netbuf params8 0 100 [65, 66] 2 none with
              flags := { NetbufFlags.zero with NETBUF_MUST_RESEND := true } }] ∧
        w1.c.recv_queue = world_ab.c.recv_queue ∧
        w1.trace = world_ab.trace ++ [Event.SSL_write [some 65, some 66] 2 (-1)])) ∧
    (∃ w1 : World Unit,
      net_send params8 failed_transport (0 + (0 + 1)) world_ab = some (KORE_RESULT_ERROR, w1) ∧
      w1.c.flags = world_ab.c.flags ∧
      w1.c.send_queue = world_ab.c.send_queue ∧
      w1.c.recv_queue = world_ab.c.recv_queue ∧
      w1.trace = world_ab.trace ++ [Event.SSL_write [some 65, some 66] 2 (-1)]) :=
  ⟨⟨rfl, rfl, by decide,
      (net_send_no_progress params8 blocked_transport world_ab world_ab 0 0
        (new_send_netbuf params8 0 100 [65, 66] 2 none) [] rfl rfl (by decide)
        (by decide)).1 (by decide)⟩,
    (net_send_no_progress params8 failed_transport world_ab world_ab 0 0
      (new_send_netbuf params8 0 100 [65, 66] 2 none) [] rfl rfl (by decide)
      (by decide)).2 (by decide)⟩

/-! ## The resend rule -/

/-- C2 as stated fails: the record "AB" (2 bytes, no stream) is offered to a
transport that is not ready, `net_send` returns `KORE_RESULT_OK` and the record
carries `NETBUF_MUST_RESEND`; `net_send_queue` of "CD" with the same stream
then appends into that record, and the first write of the next `net_send`
is offered the 4 bytes "ABCD", not the 2 bytes "AB".  The default capacity is
4000 bytes here; any capacity above 4 gives the same. -/
theorem net_send_resend_offers_new_data :
    (net_send params4000 blocked_transport 1
        (net_send_queue params4000 world0 [65, 66] 2 none)).map
        (fun x => (x.1, writes x.2.trace, x.2.c.send_queue.map
          (fun nb => (nb.b_len, nb.s_off, nb.flags.NETBUF_MUST_RESEND)))) =
      some (KORE_RESULT_OK, [([some 65, some 66], 2)], [(2, 0, true)]) ∧
    ((net_send params4000 blocked_transport 1
        (net_send_queue params4000 world0 [65, 66] 2 none)).bind
        (fun x => net_send params4000 blocked_transport 1
          (net_send_queue params4000 x.2 [67, 68] 2 none))).map
        (fun y => writes y.2.trace) =
      some [([some 65, some 66], 2), ([some 65, some 66, some 67, some 68], 4)] :=
  ⟨rfl, rfl⟩

/-! ## The record invariant -/

theorem forall_nb_update {p : netbuf → Prop} (f : netbuf → netbuf)
    (hf : ∀ x, p x → p (f x)) (nb : Nat) :
    ∀ q : List netbuf, (∀ x ∈ q, p x) → ∀ x ∈ nb_update f nb q, p x := by
  intro q
  induction q with
  | nil => intro _ x hx; simp [nb_update] at hx
  | cons y ys ih =>
    intro h x hx
    simp only [nb_update] at hx
    split at hx
    · rcases List.mem_cons.1 hx with rfl | hx
      · exact hf y (h y (List.mem_cons_self _ _))
      · exact h x (List.mem_cons_of_mem _ hx)
    · rcases List.mem_cons.1 hx with rfl | hx
      · exact h _ (List.mem_cons_self _ _)
      · exact ih (fun z hz => h z (List.mem_cons_of_mem _ hz)) x hx

theorem mem_of_mem_TAILQ_REMOVE (nb : Nat) :
    ∀ (q : List netbuf) (x : netbuf), x ∈ TAILQ_REMOVE nb q → x ∈ q := by
  intro q
  induction q with
  | nil => intro x hx; simp [TAILQ_REMOVE] at hx
  | cons y ys ih =>
    intro x hx
    simp only [TAILQ_REMOVE] at hx
    split at hx
    · exact List.mem_cons_of_mem _ hx
    · rcases List.mem_cons.1 hx with rfl | hx
      · exact List.mem_cons_self _ _
      · exact List.mem_cons_of_mem _ (ih x hx)

theorem forall_net_remove_netbuf {p : netbuf → Prop}
    (hp : ∀ x : netbuf, p x → p { x with stream := none }) (q : List netbuf) (nb : Nat)
    (tr : List Event) (h : ∀ x ∈ q, p x) : ∀ x ∈ (net_remove_netbuf q nb tr).1, p x := by
  unfold net_remove_netbuf
  cases hfind : nb_find nb q with
  | none => simpa using h
  | some r =>
    have h1 := forall_nb_update (fun x => { x with stream := none }) hp nb q h
    by_cases hm : r.flags.NETBUF_MUST_RESEND = true
    · simpa [hm] using h1
    · simp only [hm]
      intro x hx
      exact h1 x (mem_of_mem_TAILQ_REMOVE nb _ x hx)

theorem nb_find_mem {nb : Nat} {q : List netbuf} {r : netbuf} (h : nb_find nb q = some r) :
    r ∈ q ∧ r.id = nb := by
  unfold nb_find at h
  exact ⟨List.mem_of_find?_eq_some h, by simpa using List.find?_some h⟩

/-- The queues after the retirement check of `net_send`. -/
theorem net_send_retire_queue {σ : Type} (w : World σ) (nb : netbuf) (rest : List netbuf) :
    ((net_send_retire w nb rest).c.send_queue = nb :: rest ∨
      (net_send_retire w nb rest).c.send_queue = rest ∨
      (net_send_retire w nb rest).c.send_queue = { nb with stream := none } :: rest) ∧
    (net_send_retire w nb rest).c.recv_queue = w.c.recv_queue ∧
    (net_send_retire w nb rest).c.flags = w.c.flags := by
  by_cases h : nb.s_off = nb.b_len
  · cases hf : nb.flags.NETBUF_MUST_RESEND
    · rw [net_send_retire_removed w nb rest h hf]
      exact ⟨Or.inr (Or.inl rfl), rfl, rfl⟩
    · rw [net_send_retire_retained w nb rest h hf]
      exact ⟨Or.inr (Or.inr rfl), rfl, rfl⟩
  · rw [net_send_retire_incomplete w nb rest h]
    exact ⟨Or.inl rfl, rfl, rfl⟩

theorem forall_net_send_retire {σ : Type} {p : netbuf → Prop}
    (hp : ∀ x : netbuf, p x → p { x with stream := none }) (w : World σ) (nb : netbuf)
    (rest : List netbuf) (h : ∀ x ∈ nb :: rest, p x) :
    ∀ x ∈ (net_send_retire w nb rest).c.send_queue, p x := by
  rcases (net_send_retire_queue w nb rest).1 with h1 | h1 | h1 <;> rw [h1]
  · exact h
  · exact fun x hx => h x (List.mem_cons_of_mem _ hx)
  · intro x hx
    rcases List.mem_cons.1 hx with rfl | hx
    · exact hp nb (h nb (List.mem_cons_self _ _))
    · exact h x (List.mem_cons_of_mem _ hx)

/-- The record advanced by a bounded write still has `s_off <= b_len`. -/
theorem net_send_advance_le (P : Params) (nb : netbuf) (r : Int) (h1 : nb.s_off ≤ nb.b_len)
    (h2 : nb.b_len < P.LEN_MOD) (hr : r ≤ (send_len P nb : Int)) :
    (net_send_advance P nb r).s_off = nb.s_off + r.toNat ∧
    (net_send_advance P nb r).s_off ≤ nb.b_len := by
  have hlen := send_len_eq P nb h1 h2
  have hle : r.toNat ≤ nb.b_len - nb.s_off := by
    have : r.toNat ≤ send_len P nb := by omega
    rw [hlen] at this
    omega
  have : (net_send_advance P nb r).s_off = nb.s_off + r.toNat := by
    show uadd P nb.s_off r.toNat = _
    exact uadd_eq P _ _ (by omega)
  exact ⟨this, by omega⟩

/-- One pass of `net_send` keeps a property of the records of the send queue
that does not depend on `flags` and `stream`, and holds again when `s_off`
moves up to at most `b_len`. -/
theorem forall_net_send_iter {σ : Type} {p : netbuf → Prop} (P : Params) (T : Transport σ)
    (w : World σ)
    (hstream : ∀ x : netbuf, p x → p { x with stream := none })
    (hflags : ∀ (x : netbuf) (f : NetbufFlags), p x → p { x with flags := f })
    (hoff : ∀ (x : netbuf) (k : Nat), p x → k ≤ x.b_len → p { x with s_off := k })
    (hT : write_bounded T) (hok : send_ok P w.c.send_queue)
    (h : ∀ x ∈ w.c.send_queue, p x) :
    (∀ x ∈ (net_send_iter P T w).world.c.send_queue, p x) ∧
    (net_send_iter P T w).world.c.recv_queue = w.c.recv_queue := by
  cases hq : w.c.send_queue with
  | nil =>
    rw [net_send_iter_nil P T w hq]
    simp [Step.world, hq]
  | cons nb rest =>
    rw [hq] at h hok
    by_cases hb : nb.b_len = 0
    · rw [net_send_iter_zero P T w nb rest hq hb]
      exact ⟨forall_net_send_retire hstream w nb rest h, (net_send_retire_queue w nb rest).2.1⟩
    · by_cases hr : (T.SSL_write w.c.ssl (send_offered P nb) (send_len P nb)).1 ≤ 0
      · by_cases he : T.SSL_get_error (T.SSL_write w.c.ssl (send_offered P nb) (send_len P nb)).2
            (T.SSL_write w.c.ssl (send_offered P nb) (send_len P nb)).1 = SSL_ERROR_WANT_READ ∨
          T.SSL_get_error (T.SSL_write w.c.ssl (send_offered P nb) (send_len P nb)).2
            (T.SSL_write w.c.ssl (send_offered P nb) (send_len P nb)).1 = SSL_ERROR_WANT_WRITE
        · rw [net_send_iter_block P T w nb rest hq hb hr he]
          refine ⟨?_, rfl⟩
          intro x hx
          simp only [Step.world] at hx
          rcases List.mem_cons.1 hx with rfl | hx
          · exact hflags nb _ (h nb (List.mem_cons_self _ _))
          · exact h x (List.mem_cons_of_mem _ hx)
        · rw [net_send_iter_error P T w nb rest hq hb hr he]
          refine ⟨?_, rfl⟩
          simp only [Step.world, net_send_wrote, hq]
          exact h
      · rw [net_send_iter_progress P T w nb rest hq hb (by omega)]
        obtain ⟨h1, h2⟩ := hok nb (List.mem_cons_self _ _)
        have hadv := net_send_advance_le P nb
          (T.SSL_write w.c.ssl (send_offered P nb) (send_len P nb)).1 h1 h2 (hT w.c.ssl _ _)
        refine ⟨forall_net_send_retire hstream _ _ rest ?_, ?_⟩
        · intro x hx
          rcases List.mem_cons.1 hx with rfl | hx
          · exact hflags _ _ (hoff nb _ (h nb (List.mem_cons_self _ _)) hadv.2)
          · exact h x (List.mem_cons_of_mem _ hx)
        · simp only [Step.world]
          rw [(net_send_retire_queue _ _ rest).2.1]
          unfold net_send_notify
          cases nb.stream <;> rfl

theorem queue_inv_append {q1 q2 : List netbuf} :
    queue_inv (q1 ++ q2) ↔ queue_inv q1 ∧ queue_inv q2 := by
  simp only [queue_inv, List.mem_append]
  constructor
  · intro h
    exact ⟨fun nb hnb => h nb (Or.inl hnb), fun nb hnb => h nb (Or.inr hnb)⟩
  · rintro ⟨h1, h2⟩ nb (hnb | hnb)
    · exact h1 nb hnb
    · exact h2 nb hnb

theorem queue_inv_singleton {nb : netbuf} : queue_inv [nb] ↔ nb_inv nb := by
  simp [queue_inv]

theorem nb_inv_new_send_netbuf (P : Params) (id addr : Nat) (d : List Nat) (len : Nat)
    (s : Option Nat) : nb_inv (new_send_netbuf P id addr d len s) := by
  refine ⟨Nat.zero_le _, ?_⟩
  rw [new_send_netbuf_m_len]
  exact le_max_left _ _

theorem queue_inv_net_send_queue {σ : Type} (P : Params) (w : World σ) (data : List Nat)
    (len : Nat) (s : Option Nat) (h : queue_inv w.c.send_queue) :
    queue_inv (net_send_queue P w data len s).c.send_queue := by
  have hnew : ∀ (w1 : World σ) (d : List Nat) (n : Nat), queue_inv w1.c.send_queue →
      queue_inv (net_send_queue_new P w1 d n s).c.send_queue := by
    intro w1 d n h1
    exact queue_inv_append.2 ⟨h1, queue_inv_singleton.2 (nb_inv_new_send_netbuf P _ _ d n s)⟩
  cases hl : w.c.send_queue.getLast? with
  | none =>
    rw [net_send_queue_eq_new P w data len s (by simp [hl])]
    exact hnew w data len h
  | some t =>
    have hq := queue_eq_dropLast_of_getLast? hl
    have hdl : queue_inv w.c.send_queue.dropLast := by
      rw [hq] at h
      exact (queue_inv_append.1 h).1
    have ht : nb_inv t := by
      rw [hq] at h
      exact queue_inv_singleton.1 (queue_inv_append.1 h).2
    by_cases hc : t.b_len < t.m_len ∧ t.stream = s
    · obtain ⟨hroom, hs⟩ := hc
      rcases Nat.lt_trichotomy (t.b_len + len) t.m_len with h1 | h1 | h1
      · rw [net_send_queue_eq_append P w data len s t hl hs h1]
        refine queue_inv_append.2 ⟨hdl, queue_inv_singleton.2 ⟨?_, ?_⟩⟩
        · show t.s_off ≤ t.b_len + len
          have := ht.1
          omega
        · show t.b_len + len ≤ t.m_len
          omega
      · rw [net_send_queue_eq_exact P w data len s t hl hroom h1]
        exact hnew w data len h
      · rw [net_send_queue_eq_overflow P w data len s t hl hs hroom h1]
        apply hnew
        refine queue_inv_append.2 ⟨hdl, queue_inv_singleton.2 ⟨?_, ?_⟩⟩
        · show t.s_off ≤ t.m_len
          have := ht.1
          omega
        · show t.m_len ≤ t.m_len
          exact le_refl _
    · rw [net_send_queue_eq_new P w data len s]
      · exact hnew w data len h
      · intro t1 ht1
        rw [hl] at ht1
        cases ht1
        by_cases h1 : t.b_len < t.m_len
        · exact Or.inl fun h2 => hc ⟨h1, h2⟩
        · exact Or.inr h1

/-- The three ways through `net_send_queue`. -/
theorem net_send_queue_cases {σ : Type} (P : Params) (w : World σ) (data : List Nat)
    (len : Nat) (s : Option Nat) :
    net_send_queue P w data len s = net_send_queue_new P w data len s ∨
    (∃ t, w.c.send_queue.getLast? = some t ∧ t.stream = s ∧ t.b_len + len < t.m_len ∧
      net_send_queue P w data len s =
        { w with c := { w.c with send_queue := w.c.send_queue.dropLast ++
          [{ t with buf := { t.buf with cells := memcpy t.buf.cells t.b_len data len },
                    b_len := t.b_len + len }] } }) ∨
    (∃ t, w.c.send_queue.getLast? = some t ∧ t.stream = s ∧ t.b_len < t.m_len ∧
      t.m_len < t.b_len + len ∧
      net_send_queue P w data len s =
        net_send_queue_new P
          { w with c := { w.c with send_queue := w.c.send_queue.dropLast ++
            [{ t with buf := { t.buf with
                        cells := memcpy t.buf.cells t.b_len data (t.m_len - t.b_len) },
                      b_len := t.m_len }] } }
          (data.drop (t.m_len - t.b_len)) (len - (t.m_len - t.b_len)) s) := by
  cases hl : w.c.send_queue.getLast? with
  | none => exact Or.inl (net_send_queue_eq_new P w data len s (by simp [hl]))
  | some t =>
    by_cases hc : t.b_len < t.m_len ∧ t.stream = s
    · obtain ⟨hroom, hs⟩ := hc
      rcases Nat.lt_trichotomy (t.b_len + len) t.m_len with h | h | h
      · exact Or.inr (Or.inl ⟨t, rfl, hs, h, net_send_queue_eq_append P w data len s t hl hs h⟩)
      · exact Or.inl (net_send_queue_eq_exact P w data len s t hl hroom h)
      · exact Or.inr (Or.inr ⟨t, rfl, hs, hroom, h,
          net_send_queue_eq_overflow P w data len s t hl hs hroom h⟩)
    · refine Or.inl (net_send_queue_eq_new P w data len s ?_)
      intro t1 ht1
      rw [hl] at ht1
      cases ht1
      by_cases h1 : t.b_len < t.m_len
      · exact Or.inl fun h2 => hc ⟨h1, h2⟩
      · exact Or.inr h1

/-- The call `net_send_queue` touches the send queue, the pool and the
allocator only. -/
theorem net_send_queue_frame {σ : Type} (P : Params) (w : World σ) (data : List Nat)
    (len : Nat) (s : Option Nat) :
    (net_send_queue P w data len s).c.recv_queue = w.c.recv_queue ∧
    (net_send_queue P w data len s).c.flags = w.c.flags ∧
    (net_send_queue P w data len s).c.ssl = w.c.ssl ∧
    (net_send_queue P w data len s).trace = w.trace := by
  rcases net_send_queue_cases P w data len s with h | ⟨t, _, _, _, h⟩ | ⟨t, _, _, _, _, h⟩ <;>
    rw [h] <;> exact ⟨rfl, rfl, rfl, rfl⟩

theorem conn_inv_net_recv_expand {σ : Type} (P : Params) (w : World σ) (nb len : Nat)
    (cb : Option Nat) (res : Int × World σ) (hinv : conn_inv w.c)
    (hfit : ∀ x, nb_find nb w.c.recv_queue = some x → x.b_len + len < P.LEN_MOD)
    (h : net_recv_expand P w nb len cb = some res) : conn_inv res.2.c := by
  unfold net_recv_expand at h
  cases hf : nb_find nb w.c.recv_queue with
  | some r =>
    rw [hf] at h
    simp only at h
    split at h
    · cases h
      exact hinv
    · cases h
      have hr := hinv.2 r (nb_find_mem hf).1
      refine ⟨hinv.1, ?_⟩
      intro x hx
      simp only [net_recv_expand_apply] at hx
      rcases List.mem_cons.1 hx with rfl | hx
      · have hb : uadd P r.b_len len = r.b_len + len := uadd_eq P _ _ (hfit r hf)
        refine ⟨?_, ?_⟩
        · show r.s_off ≤ uadd P r.b_len len
          have := hr.1
          omega
        · exact le_refl _
      · exact hinv.2 x (mem_of_mem_TAILQ_REMOVE _ _ x hx)
  | none =>
    rw [hf] at h
    simp only at h
    split at h
    · split at h
      · cases h
        exact hinv
      · cases h
    · cases h

theorem queue_inv_net_recv_after_cb {σ : Type} (w : World σ) (nb : Nat) (r : Int)
    (st : Step (World σ)) (hinv : conn_inv w.c) (h : net_recv_after_cb w nb r = some st) :
    conn_inv st.world.c := by
  unfold net_recv_after_cb at h
  cases hf : nb_find nb w.c.recv_queue with
  | none => rw [hf] at h; cases h
  | some nb2 =>
    rw [hf] at h
    simp only at h
    have key : conn_inv (if nb2.s_off = nb2.b_len ∨ nb2.flags.NETBUF_FORCE_REMOVE = true then
        { w with c := { w.c with recv_queue := (net_remove_netbuf w.c.recv_queue nb w.trace).1 },
                 trace := (net_remove_netbuf w.c.recv_queue nb w.trace).2 }
      else w).c := by
      split
      · exact ⟨hinv.1, forall_net_remove_netbuf (fun x hx => hx) _ _ _ hinv.2⟩
      · exact hinv
    split at h <;> · cases h; exact key

theorem conn_inv_net_recv_iter {σ : Type} (P : Params) (T : Transport σ)
    (cbs : Nat → Nat → World σ → Int × World σ) (w : World σ) (st : Step (World σ))
    (hinv : conn_inv w.c) (hT : read_bounded T) (hfit : queue_fits P w.c.recv_queue)
    (hcb : ∀ (fn nb : Nat) (w1 : World σ), conn_inv w1.c → conn_inv (cbs fn nb w1).2.c)
    (h : net_recv_iter P T cbs w = some st) : conn_inv st.world.c := by
  unfold net_recv_iter at h
  cases hq : w.c.recv_queue with
  | nil =>
    rw [hq] at h
    cases h
    exact hinv
  | cons nb rest =>
    rw [hq] at h
    simp only at h
    cases hcbn : nb.cb with
    | none =>
      rw [hcbn] at h
      cases h
      exact hinv
    | some fn =>
      rw [hcbn] at h
      simp only at h
      have hnb : nb_inv nb := hinv.2 nb (by rw [hq]; exact List.mem_cons_self _ _)
      have hnbfit : nb.b_len < P.LEN_MOD := hfit nb (by rw [hq]; exact List.mem_cons_self _ _)
      have hrest : queue_inv rest := fun x hx =>
        hinv.2 x (by rw [hq]; exact List.mem_cons_of_mem _ hx)
      split at h
      · split at h
        · cases h
          exact ⟨hinv.1, by simpa [Step.world, hq] using hinv.2⟩
        · cases h
          exact ⟨hinv.1, by simpa [Step.world, hq] using hinv.2⟩
      · rename_i hr
        have hlen : usub P nb.b_len nb.s_off = nb.b_len - nb.s_off :=
          usub_eq P _ _ hnb.1 hnbfit
        have hbound := hT w.c.ssl (to_int (usub P nb.b_len nb.s_off))
        have hint := to_int_le (usub P nb.b_len nb.s_off)
        generalize T.SSL_read w.c.ssl (to_int (usub P nb.b_len nb.s_off)) = out at h hr hbound
        have hle : out.1.toNat ≤ nb.b_len - nb.s_off := by
          rw [← hlen]
          omega
        have hadd : uadd P nb.s_off out.1.toNat = nb.s_off + out.1.toNat :=
          uadd_eq P _ _ (by have := hnb.1; omega)
        have hq1 : ∀ cb1 : Option Nat, queue_inv
            ({ nb with
              buf := { nb.buf with cells := memcpy nb.buf.cells nb.s_off out.2.1 out.1.toNat },
              s_off := uadd P nb.s_off out.1.toNat, cb := cb1 } :: rest) := by
          intro cb1 x hx
          rcases List.mem_cons.1 hx with rfl | hx
          · refine ⟨?_, hnb.2⟩
            show uadd P nb.s_off _ ≤ nb.b_len
            rw [hadd]
            have := hnb.1
            omega
          · exact hrest x hx
        split at h
        · refine queue_inv_net_recv_after_cb _ _ _ st ?_ h
          apply hcb
          exact ⟨hinv.1, hq1 _⟩
        · cases h
          exact ⟨hinv.1, hq1 _⟩

/-- One pass of `net_send` keeps the record invariant and the lengths
representable. -/
theorem conn_inv_net_send_iter {σ : Type} (P : Params) (T : Transport σ) (w : World σ)
    (hT : write_bounded T) (hinv : conn_inv w.c) (hfit : queue_fits P w.c.send_queue) :
    conn_inv (net_send_iter P T w).world.c ∧
    queue_fits P (net_send_iter P T w).world.c.send_queue := by
  have h := forall_net_send_iter (p := fun x => nb_inv x ∧ x.b_len < P.LEN_MOD) P T w
    (fun x hx => hx) (fun x f hx => hx)
    (fun x k hx hk => ⟨⟨hk, hx.1.2⟩, hx.2⟩) hT
    (fun x hx => ⟨(hinv.1 x hx).1, hfit x hx⟩)
    (fun x hx => ⟨hinv.1 x hx, hfit x hx⟩)
  refine ⟨⟨fun x hx => (h.1 x hx).1, ?_⟩, fun x hx => (h.1 x hx).2⟩
  rw [h.2]
  exact hinv.2

/-- The loop of `net_send` keeps the record invariant and the lengths
representable. -/
theorem conn_inv_net_send {σ : Type} (P : Params) (T : Transport σ) (hT : write_bounded T)
    (fuel : Nat) :
    ∀ (w : World σ) (res : Int × World σ), conn_inv w.c → queue_fits P w.c.send_queue →
      net_send P T fuel w = some res →
      conn_inv res.2.c ∧ queue_fits P res.2.c.send_queue := by
  induction fuel with
  | zero => intro w res _ _ h; cases h
  | succ fuel ih =>
    intro w res hinv hfit h
    rw [net_send_step] at h
    have hi := conn_inv_net_send_iter P T w hT hinv hfit
    cases hs : net_send_iter P T w with
    | ret r w1 =>
      rw [hs] at h hi
      cases h
      exact hi
    | next w1 =>
      rw [hs] at h hi
      exact ih w1 res hi.1 hi.2 h

/-- C4: the record invariant `s_off <= b_len <= m_len` on every record of both
queues, if it holds before, holds after `net_send_queue`, `net_send_stream`,
`net_recv_queue` and `net_recv_expand` (when the extended length does not
overflow), after every pass of the loop of `net_send` and after `net_send`
itself (when a write never reports more than was requested and the lengths are
values of the length fields), and after every pass of the loop of `net_recv`
(when a read never reports more than was requested, the lengths are values of
the length fields and the callbacks keep the invariant). -/
theorem record_invariant {σ : Type} (P : Params) (T : Transport σ)
    (cbs : Nat → Nat → World σ → Int × World σ) (w : World σ) (hinv : conn_inv w.c) :
    (∀ data len s, conn_inv (net_send_queue P w data len s).c) ∧
    (∀ data len s, conn_inv (net_send_stream w data len s).c) ∧
    (∀ len flags cb, conn_inv (net_recv_queue P w len flags cb).1.c) ∧
    (∀ nb len cb res,
      (∀ x, nb_find nb w.c.recv_queue = some x → x.b_len + len < P.LEN_MOD) →
      net_recv_expand P w nb len cb = some res → conn_inv res.2.c) ∧
    (write_bounded T → queue_fits P w.c.send_queue →
      conn_inv (net_send_iter P T w).world.c ∧
      ∀ fuel res, net_send P T fuel w = some res → conn_inv res.2.c) ∧
    (read_bounded T → queue_fits P w.c.recv_queue →
      (∀ (fn nb : Nat) (w1 : World σ), conn_inv w1.c → conn_inv (cbs fn nb w1).2.c) →
      ∀ st, net_recv_iter P T cbs w = some st → conn_inv st.world.c) := by
  refine ⟨?_, ?_, ?_, ?_, ?_, ?_⟩
  · intro data len s
    refine ⟨queue_inv_net_send_queue P w data len s hinv.1, ?_⟩
    rw [(net_send_queue_frame P w data len s).1]
    exact hinv.2
  · intro data len s
    refine ⟨?_, hinv.2⟩
    exact queue_inv_append.2 ⟨hinv.1, queue_inv_singleton.2 ⟨Nat.zero_le _, le_refl _⟩⟩
  · intro len flags cb
    refine ⟨hinv.1, ?_⟩
    exact queue_inv_append.2 ⟨hinv.2, queue_inv_singleton.2 ⟨Nat.zero_le _, le_refl _⟩⟩
  · intro nb len cb res hfit h
    exact conn_inv_net_recv_expand P w nb len cb res hinv hfit h
  · intro hT hfit
    exact ⟨(conn_inv_net_send_iter P T w hT hinv hfit).1,
      fun fuel res h => (conn_inv_net_send P T hT fuel w res hinv hfit h).1⟩
  · intro hT hfit hcb st h
    exact conn_inv_net_recv_iter P T cbs w st hinv hT hfit hcb h

theorem write_bounded_duplex (k : Nat) : write_bounded (duplex_transport k) := by
  intro s bytes len
  simp only [duplex_transport]
  omega

theorem read_bounded_duplex (k : Nat) : read_bounded (duplex_transport k) := by
  intro s len
  simp only [duplex_transport]
  omega

theorem conn_inv_world_ab_recv : conn_inv world_ab_recv.c := by
  constructor
  · intro nb hnb
    have h : world_ab_recv.c.send_queue = [new_send_netbuf params8 0 100 [65, 66] 2 none] := rfl
    rw [h] at hnb
    simp only [List.mem_singleton] at hnb
    subst hnb
    exact nb_inv_new_send_netbuf _ _ _ _ _ _
  · intro nb hnb
    have h : world_ab_recv.c.recv_queue =
        [{ id := 1, cb := some 1, b_len := 10, m_len := 10, s_off := 0, stream := none,
           flags := NetbufFlags.zero, type := NetbufType.NETBUF_RECV,
           buf := kore_malloc 101 10 }] := rfl
    rw [h] at hnb
    simp only [List.mem_singleton] at hnb
    subst hnb
    exact ⟨Nat.zero_le _, le_refl _⟩

/-- An instance of `record_invariant`: a connection with the send record "AB"
and a receive record of 10 bytes, a transport moving at most 2 bytes per call. -/
theorem record_invariant_witness :
    conn_inv world_ab_recv.c ∧
    conn_inv (net_send_queue params8 world_ab_recv [67, 68] 2 none).c ∧
    conn_inv (net_send_stream world_ab_recv ⟨7, [some 1, some 2]⟩ 2 (some 3)).c ∧
    conn_inv (net_recv_queue params8 world_ab_recv 4 NetbufFlags.zero (some 2)).1.c ∧
    (∀ res, net_recv_expand params8 world_ab_recv 1 6 (some 2) = some res → conn_inv res.2.c) ∧
    conn_inv (net_send_iter params8 (duplex_transport 2) world_ab_recv).world.c ∧
    (∀ st, net_recv_iter params8 (duplex_transport 2) idle_callbacks world_ab_recv = some st →
      conn_inv st.world.c) :=
  ⟨conn_inv_world_ab_recv,
    (record_invariant params8 (duplex_transport 2) idle_callbacks world_ab_recv
      conn_inv_world_ab_recv).1 [67, 68] 2 none,
    (record_invariant params8 (duplex_transport 2) idle_callbacks world_ab_recv
      conn_inv_world_ab_recv).2.1 ⟨7, [some 1, some 2]⟩ 2 (some 3),
    (record_invariant params8 (duplex_transport 2) idle_callbacks world_ab_recv
      conn_inv_world_ab_recv).2.2.1 4 NetbufFlags.zero (some 2),
    fun res => (record_invariant params8 (duplex_transport 2) idle_callbacks world_ab_recv
      conn_inv_world_ab_recv).2.2.2.1 1 6 (some 2) res (by
        intro x hx
        have : x.b_len = 10 := by
          have h : nb_find 1 world_ab_recv.c.recv_queue =
            some { id := 1, cb := some 1, b_len := 10, m_len := 10, s_off := 0, stream := none,
                   flags := NetbufFlags.zero, type := NetbufType.NETBUF_RECV,
                   buf := kore_malloc 101 10 } := rfl
          rw [h] at hx
          cases hx
          rfl
        rw [this]
        decide),
    ((record_invariant params8 (duplex_transport 2) idle_callbacks world_ab_recv
      conn_inv_world_ab_recv).2.2.2.2.1 (write_bounded_duplex 2) (by
        intro nb hnb
        have h : world_ab_recv.c.send_queue =
            [new_send_netbuf params8 0 100 [65, 66] 2 none] := rfl
        rw [h] at hnb
        simp only [List.mem_singleton] at hnb
        subst hnb
        decide)).1,
    (record_invariant params8 (duplex_transport 2) idle_callbacks world_ab_recv
      conn_inv_world_ab_recv).2.2.2.2.2 (read_bounded_duplex 2) (by
        intro nb hnb
        have h : world_ab_recv.c.recv_queue =
            [{ id := 1, cb := some 1, b_len := 10, m_len := 10, s_off := 0, stream := none,
               flags := NetbufFlags.zero, type := NetbufType.NETBUF_RECV,
               buf := kore_malloc 101 10 }] := rfl
        rw [h] at hnb
        simp only [List.mem_singleton] at hnb
        subst hnb
        decide) (fun _ _ _ h => h)⟩

/-! ## What one pass of `net_send` does to the queue and the trace -/

/-- The outcomes of one pass of `net_send` on the queue `nb :: rest`: the calls
it adds to the trace and the queue it leaves.  A record of length zero is
skipped (when `s_off` is not zero), removed, or kept without its stream (when
it carries `NETBUF_MUST_RESEND`); a write without progress leaves the queue, up
to the flag `NETBUF_MUST_RESEND` of the front record; a write with progress
advances the front record and removes it when it is complete. -/
theorem net_send_iter_outcome {σ : Type} (P : Params) (T : Transport σ) (w : World σ)
    (nb : netbuf) (rest : List netbuf) (hq : w.c.send_queue = nb :: rest) :
    ∃ (evs : List Event) (q1 : List netbuf),
      (net_send_iter P T w).world.trace = w.trace ++ evs ∧
      (net_send_iter P T w).world.c.send_queue = q1 ∧
      ((nb.b_len = 0 ∧ nb.s_off ≠ 0 ∧ evs = [] ∧ q1 = nb :: rest) ∨
       (nb.b_len = 0 ∧ nb.s_off = 0 ∧ nb.flags.NETBUF_MUST_RESEND = false ∧
          evs = frame_events nb ++ release_events nb ∧ q1 = rest) ∨
       (nb.b_len = 0 ∧ nb.s_off = 0 ∧ nb.flags.NETBUF_MUST_RESEND = true ∧
          evs = frame_events nb ∧ q1 = { nb with stream := none } :: rest) ∨
       (nb.b_len ≠ 0 ∧ (T.SSL_write w.c.ssl (send_offered P nb) (send_len P nb)).1 ≤ 0 ∧
          evs = [write_event P T w nb] ∧
          (q1 = nb :: rest ∨
           q1 = { nb with flags := { nb.flags with NETBUF_MUST_RESEND := true } } :: rest)) ∨
       (nb.b_len ≠ 0 ∧ 0 < (T.SSL_write w.c.ssl (send_offered P nb) (send_len P nb)).1 ∧
          (net_send_advance P nb
            (T.SSL_write w.c.ssl (send_offered P nb) (send_len P nb)).1).s_off ≠ nb.b_len ∧
          evs = [write_event P T w nb] ++
            notify_events nb (T.SSL_write w.c.ssl (send_offered P nb) (send_len P nb)).1 ∧
          q1 = net_send_advance P nb
            (T.SSL_write w.c.ssl (send_offered P nb) (send_len P nb)).1 :: rest) ∨
       (nb.b_len ≠ 0 ∧ 0 < (T.SSL_write w.c.ssl (send_offered P nb) (send_len P nb)).1 ∧
          (net_send_advance P nb
            (T.SSL_write w.c.ssl (send_offered P nb) (send_len P nb)).1).s_off = nb.b_len ∧
          evs = [write_event P T w nb] ++
            notify_events nb (T.SSL_write w.c.ssl (send_offered P nb) (send_len P nb)).1 ++
            frame_events nb ++ release_events nb ∧
          q1 = rest)) := by
  by_cases hb : nb.b_len = 0
  · rw [net_send_iter_zero P T w nb rest hq hb]
    by_cases hs : nb.s_off = nb.b_len
    · cases hf : nb.flags.NETBUF_MUST_RESEND
      · rw [net_send_retire_removed w nb rest hs hf]
        refine ⟨_, _, ?_, rfl, Or.inr (Or.inl ⟨hb, by omega, rfl, rfl, rfl⟩)⟩
        simp [Step.world, frame_events, release_events]
      · rw [net_send_retire_retained w nb rest hs hf]
        refine ⟨_, _, ?_, rfl, Or.inr (Or.inr (Or.inl ⟨hb, by omega, rfl, rfl, rfl⟩))⟩
        simp [Step.world, frame_events]
    · rw [net_send_retire_incomplete w nb rest hs]
      exact ⟨[], _, by simp [Step.world], rfl, Or.inl ⟨hb, by omega, rfl, rfl⟩⟩
  · by_cases hr : (T.SSL_write w.c.ssl (send_offered P nb) (send_len P nb)).1 ≤ 0
    · by_cases he : T.SSL_get_error (T.SSL_write w.c.ssl (send_offered P nb) (send_len P nb)).2
          (T.SSL_write w.c.ssl (send_offered P nb) (send_len P nb)).1 = SSL_ERROR_WANT_READ ∨
        T.SSL_get_error (T.SSL_write w.c.ssl (send_offered P nb) (send_len P nb)).2
          (T.SSL_write w.c.ssl (send_offered P nb) (send_len P nb)).1 = SSL_ERROR_WANT_WRITE
      · rw [net_send_iter_block P T w nb rest hq hb hr he]
        exact ⟨_, _, rfl, rfl, Or.inr (Or.inr (Or.inr (Or.inl ⟨hb, hr, rfl, Or.inr rfl⟩)))⟩
      · rw [net_send_iter_error P T w nb rest hq hb hr he]
        exact ⟨_, _, rfl, hq, Or.inr (Or.inr (Or.inr (Or.inl ⟨hb, hr, rfl, Or.inl rfl⟩)))⟩
    · have hr' : 0 < (T.SSL_write w.c.ssl (send_offered P nb) (send_len P nb)).1 := by omega
      rw [net_send_iter_progress P T w nb rest hq hb hr']
      have hnt : ∀ r : Int, (net_send_notify
          (net_send_wrote P w nb (T.SSL_write w.c.ssl (send_offered P nb) (send_len P nb)))
          nb r).trace = w.trace ++ ([write_event P T w nb] ++ notify_events nb r) := by
        intro r
        unfold net_send_notify notify_events
        cases nb.stream <;> simp [net_send_wrote, write_event]
      by_cases hs : (net_send_advance P nb
          (T.SSL_write w.c.ssl (send_offered P nb) (send_len P nb)).1).s_off = nb.b_len
      · rw [net_send_retire_removed _ _ rest hs rfl]
        refine ⟨_, _, ?_, rfl, Or.inr (Or.inr (Or.inr (Or.inr (Or.inr
          ⟨hb, hr', hs, rfl, rfl⟩))))⟩
        simp only [Step.world, hnt]
        simp [frame_events, release_events, net_send_advance]
      · rw [net_send_retire_incomplete _ _ rest hs]
        refine ⟨_, _, ?_, rfl, Or.inr (Or.inr (Or.inr (Or.inr (Or.inl
          ⟨hb, hr', hs, rfl, rfl⟩))))⟩
        simp only [Step.world, hnt]

/-! ## Laws of the drain loop -/

/-- A relation between the calls added to the trace and the send queue before
and after, that holds for every pass of `net_send` and composes, holds for
`net_send`. -/
theorem net_send_law {σ : Type} (P : Params) (T : Transport σ) (Inv : List netbuf → Prop)
    (R : List Event → List netbuf → List netbuf → Prop)
    (htrans : ∀ e1 e2 q1 q2 q3, R e1 q1 q2 → R e2 q2 q3 → R (e1 ++ e2) q1 q3)
    (hiter : ∀ w : World σ, Inv w.c.send_queue →
      Inv (net_send_iter P T w).world.c.send_queue ∧
      ∃ evs, (net_send_iter P T w).world.trace = w.trace ++ evs ∧
        R evs w.c.send_queue (net_send_iter P T w).world.c.send_queue)
    (fuel : Nat) :
    ∀ (w : World σ) (res : Int × World σ), Inv w.c.send_queue →
      net_send P T fuel w = some res →
      Inv res.2.c.send_queue ∧
      ∃ evs, res.2.trace = w.trace ++ evs ∧ R evs w.c.send_queue res.2.c.send_queue := by
  induction fuel with
  | zero => intro w res _ h; cases h
  | succ fuel ih =>
    intro w res hinv h
    rw [net_send_step] at h
    obtain ⟨hinv1, evs1, htr1, hR1⟩ := hiter w hinv
    cases hs : net_send_iter P T w with
    | ret r w1 =>
      rw [hs] at h hinv1 htr1 hR1
      cases h
      exact ⟨hinv1, evs1, htr1, hR1⟩
    | next w1 =>
      rw [hs] at h hinv1 htr1 hR1
      obtain ⟨hinv2, evs2, htr2, hR2⟩ := ih w1 res hinv1 h
      refine ⟨hinv2, evs1 ++ evs2, ?_, htrans _ _ _ _ _ hR1 hR2⟩
      rw [htr2]
      simp only [Step.world] at htr1
      rw [htr1, List.append_assoc]

/-- Such a relation holds for any sequence of `net_send` calls with nothing
enqueued in between. -/
theorem net_send_seq_law {σ : Type} (P : Params) (T : Transport σ) (Inv : List netbuf → Prop)
    (R : List Event → List netbuf → List netbuf → Prop)
    (hrefl : ∀ q, R [] q q)
    (htrans : ∀ e1 e2 q1 q2 q3, R e1 q1 q2 → R e2 q2 q3 → R (e1 ++ e2) q1 q3)
    (hiter : ∀ w : World σ, Inv w.c.send_queue →
      Inv (net_send_iter P T w).world.c.send_queue ∧
      ∃ evs, (net_send_iter P T w).world.trace = w.trace ++ evs ∧
        R evs w.c.send_queue (net_send_iter P T w).world.c.send_queue)
    (ds : List (Nat × σ)) :
    ∀ (w w1 : World σ), Inv w.c.send_queue → net_send_seq P T ds w = some w1 →
      Inv w1.c.send_queue ∧
      ∃ evs, w1.trace = w.trace ++ evs ∧ R evs w.c.send_queue w1.c.send_queue := by
  induction ds with
  | nil =>
    intro w w1 hinv h
    simp only [net_send_seq, Option.some.injEq] at h
    subst h
    exact ⟨hinv, [], by simp, hrefl _⟩
  | cons d ds ih =>
    intro w w1 hinv h
    obtain ⟨fuel, ssl⟩ := d
    simp only [net_send_seq] at h
    cases hs : net_send P T fuel { w with c := { w.c with ssl := ssl } } with
    | none => rw [hs] at h; cases h
    | some res =>
      rw [hs] at h
      simp only at h
      obtain ⟨hinv1, evs1, htr1, hR1⟩ :=
        net_send_law P T Inv R htrans hiter fuel
          { w with c := { w.c with ssl := ssl } } res hinv hs
      obtain ⟨hinv2, evs2, htr2, hR2⟩ := ih res.2 w1 hinv1 h
      refine ⟨hinv2, evs1 ++ evs2, ?_, htrans _ _ _ _ _ hR1 hR2⟩
      rw [htr2, htr1, List.append_assoc]

/-- One pass of `net_send` keeps `s_off <= b_len` and the lengths
representable. -/
theorem send_ok_net_send_iter {σ : Type} (P : Params) (T : Transport σ) (hT : write_bounded T)
    (w : World σ) (hok : send_ok P w.c.send_queue) :
    send_ok P (net_send_iter P T w).world.c.send_queue :=
  (forall_net_send_iter (p := fun x => x.s_off ≤ x.b_len ∧ x.b_len < P.LEN_MOD) P T w
    (fun _ hx => hx) (fun _ _ hx => hx) (fun _ _ hx hk => ⟨hk, hx.2⟩) hT hok hok).1

/-! ## Partial writes resume where they stopped -/

theorem accepted_append (e1 e2 : List Event) :
    accepted (e1 ++ e2) = accepted e1 ++ accepted e2 := by
  induction e1 with
  | nil => rfl
  | cons e es ih =>
    cases e <;> simp [accepted, ih]

theorem accepted_frame_events (nb : netbuf) : accepted (frame_events nb) = [] := by
  unfold frame_events
  cases nb.stream with
  | none => rfl
  | some s => by_cases h : nb.flags.NETBUF_IS_STREAM = true <;> simp [h, accepted]

theorem accepted_release_events (nb : netbuf) : accepted (release_events nb) = [] := by
  unfold release_events
  by_cases h : nb.flags.NETBUF_IS_STREAM = true <;> simp [h, accepted]

theorem accepted_notify_events (nb : netbuf) (r : Int) : accepted (notify_events nb r) = [] := by
  unfold notify_events
  cases nb.stream <;> simp [accepted]

/-- The bytes accepted by a write with progress, followed by the bytes the
advanced record still has to send, are the bytes the record had to send. -/
theorem accepted_write_advance {σ : Type} (P : Params) (T : Transport σ) (w : World σ)
    (nb : netbuf) (h1 : nb.s_off ≤ nb.b_len) (h2 : nb.b_len < P.LEN_MOD)
    (hT : write_bounded T)
    (hr : 0 < (T.SSL_write w.c.ssl (send_offered P nb) (send_len P nb)).1) :
    accepted [write_event P T w nb] ++
      nb_pending (net_send_advance P nb
        (T.SSL_write w.c.ssl (send_offered P nb) (send_len P nb)).1) = nb_pending nb := by
  have hb := hT w.c.ssl (send_offered P nb) (send_len P nb)
  obtain ⟨hadv, hle⟩ := net_send_advance_le P nb _ h1 h2 hb
  unfold write_event
  generalize (T.SSL_write w.c.ssl (send_offered P nb) (send_len P nb)).1 = r at *
  have hrl : r.toNat ≤ send_len P nb := by omega
  simp only [accepted, hr, if_true, List.append_nil]
  unfold nb_pending
  rw [hadv]
  have hb1 : (net_send_advance P nb r).b_len = nb.b_len := rfl
  have hb2 : (net_send_advance P nb r).buf = nb.buf := rfl
  rw [hb1, hb2]
  unfold send_offered
  rw [List.take_take, Nat.min_eq_left hrl]
  have hsplit : nb.b_len - nb.s_off = r.toNat + (nb.b_len - (nb.s_off + r.toNat)) := by
    rw [hadv] at hle
    omega
  conv_rhs => rw [hsplit, List.take_add]
  rw [List.drop_drop]

/-- One pass of `net_send`: the bytes accepted, followed by the bytes still to
be sent, are the bytes that were to be sent. -/
theorem pending_net_send_iter {σ : Type} (P : Params) (T : Transport σ) (hT : write_bounded T)
    (w : World σ) (hok : send_ok P w.c.send_queue) :
    ∃ evs, (net_send_iter P T w).world.trace = w.trace ++ evs ∧
      accepted evs ++ pending (net_send_iter P T w).world.c.send_queue =
        pending w.c.send_queue := by
  cases hq : w.c.send_queue with
  | nil =>
    rw [net_send_iter_nil P T w hq]
    exact ⟨[], by simp [Step.world], by simp [Step.world, hq, accepted]⟩
  | cons nb rest =>
    obtain ⟨h1, h2⟩ := hok nb (by rw [hq]; exact List.mem_cons_self _ _)
    obtain ⟨evs, q1, htr, hq1, hcases⟩ := net_send_iter_outcome P T w nb rest hq
    refine ⟨evs, htr, ?_⟩
    rw [hq1]
    rcases hcases with ⟨_, _, rfl, rfl⟩ | ⟨hb, hs, _, rfl, rfl⟩ | ⟨hb, hs, _, rfl, rfl⟩ |
      ⟨_, hr, rfl, hq2⟩ | ⟨_, hr, _, rfl, rfl⟩ | ⟨_, hr, hs, rfl, rfl⟩
    · rfl
    · simp [accepted_append, accepted_frame_events, accepted_release_events, pending,
        nb_pending, hb, hs]
    · simp [accepted_frame_events, pending, nb_pending]
    · have : accepted [write_event P T w nb] = [] := by
        have hr' : ¬ 0 < (T.SSL_write w.c.ssl (send_offered P nb) (send_len P nb)).1 := by omega
        simp [write_event, accepted, hr']
      rcases hq2 with rfl | rfl <;> simp [this, pending, nb_pending]
    · simp only [accepted_append, accepted_notify_events, List.append_nil, pending]
      rw [← List.append_assoc, accepted_write_advance P T w nb h1 h2 hT hr]
    · simp only [accepted_append, accepted_notify_events, accepted_frame_events,
        accepted_release_events, List.append_nil, pending]
      have key := accepted_write_advance P T w nb h1 h2 hT hr
      have hz : nb_pending (net_send_advance P nb
          (T.SSL_write w.c.ssl (send_offered P nb) (send_len P nb)).1) = [] := by
        unfold nb_pending
        rw [hs]
        have : (net_send_advance P nb
          (T.SSL_write w.c.ssl (send_offered P nb) (send_len P nb)).1).b_len = nb.b_len := rfl
        rw [this]
        simp
      rw [hz, List.append_nil] at key
      rw [key]

/-- Any sequence of `net_send` calls with nothing enqueued in between: the
bytes accepted, followed by the bytes still to be sent, are the bytes that
were to be sent. -/
theorem pending_net_send_seq {σ : Type} (P : Params) (T : Transport σ) (hT : write_bounded T)
    (ds : List (Nat × σ)) (w w1 : World σ) (hok : send_ok P w.c.send_queue)
    (h : net_send_seq P T ds w = some w1) :
    send_ok P w1.c.send_queue ∧
    ∃ evs, w1.trace = w.trace ++ evs ∧
      accepted evs ++ pending w1.c.send_queue = pending w.c.send_queue :=
  net_send_seq_law P T (send_ok P) (fun evs q q1 => accepted evs ++ pending q1 = pending q)
    (fun _ => rfl)
    (fun e1 e2 q1 q2 q3 h1 h2 => by
      show accepted (e1 ++ e2) ++ pending q3 = pending q1
      rw [accepted_append, List.append_assoc, h2, h1])
    (fun w0 hok0 => ⟨send_ok_net_send_iter P T hT w0 hok0, pending_net_send_iter P T hT w0 hok0⟩)
    ds w w1 hok h

/-- C3: partial writes resume where they stopped.  For a front record with
`s_off = k < b_len = n`, the next pass of `net_send` offers `SSL_write` exactly
the `min(NETBUF_SEND_PAYLOAD_MAX, n - k)` bytes at `buf + k`; on progress of
`r` bytes the record stays at the front with `s_off = k + r`, or is removed
when `k + r = n`; without progress `s_off` stays `k`.  Over any sequence of
`net_send` calls with nothing enqueued in between, the bytes the transport
accepted, followed by the bytes still to be sent, are `buf[k .. n)` followed by
the bytes of the records behind; so when the record has been retired and the
records behind are untouched, the bytes accepted are exactly `buf[k .. n)`. -/
theorem net_send_resumes {σ : Type} (P : Params) (T : Transport σ) (hT : write_bounded T)
    (w : World σ) (nb : netbuf) (rest : List netbuf) (hq : w.c.send_queue = nb :: rest)
    (hok : send_ok P (nb :: rest)) (hk : nb.s_off < nb.b_len) :
    send_len P nb = min P.NETBUF_SEND_PAYLOAD_MAX (nb.b_len - nb.s_off) ∧
    send_offered P nb =
      (nb.buf.cells.drop nb.s_off).take (min P.NETBUF_SEND_PAYLOAD_MAX (nb.b_len - nb.s_off)) ∧
    (∃ evs, (net_send_iter P T w).world.trace =
      w.trace ++ Event.SSL_write (send_offered P nb) (send_len P nb)
        (T.SSL_write w.c.ssl (send_offered P nb) (send_len P nb)).1 :: evs) ∧
    (0 < (T.SSL_write w.c.ssl (send_offered P nb) (send_len P nb)).1 →
      (nb.s_off + (T.SSL_write w.c.ssl (send_offered P nb) (send_len P nb)).1.toNat <
          nb.b_len →
        (net_send_iter P T w).world.c.send_queue =
          { nb with
            s_off := nb.s_off + (T.SSL_write w.c.ssl (send_offered P nb) (send_len P nb)).1.toNat,
            flags := { nb.flags with NETBUF_MUST_RESEND := false } } :: rest) ∧
      (nb.s_off + (T.SSL_write w.c.ssl (send_offered P nb) (send_len P nb)).1.toNat =
          nb.b_len →
        (net_send_iter P T w).world.c.send_queue = rest)) ∧
    ((T.SSL_write w.c.ssl (send_offered P nb) (send_len P nb)).1 ≤ 0 →
      (net_send_iter P T w).world.c.send_queue = nb :: rest ∨
      (net_send_iter P T w).world.c.send_queue =
        { nb with flags := { nb.flags with NETBUF_MUST_RESEND := true } } :: rest) ∧
    (∀ (ds : List (Nat × σ)) (w1 : World σ), net_send_seq P T ds w = some w1 →
      ∃ evs, w1.trace = w.trace ++ evs ∧
        accepted evs ++ pending w1.c.send_queue =
          (nb.buf.cells.drop nb.s_off).take (nb.b_len - nb.s_off) ++ pending rest ∧
        (w1.c.send_queue = rest →
          accepted evs = (nb.buf.cells.drop nb.s_off).take (nb.b_len - nb.s_off))) := by
  obtain ⟨h1, h2⟩ := hok nb (List.mem_cons_self _ _)
  have hlen := send_len_eq P nb h1 h2
  have hb : nb.b_len ≠ 0 := by omega
  have hbound := hT w.c.ssl (send_offered P nb) (send_len P nb)
  obtain ⟨hadv, _⟩ := net_send_advance_le P nb
    (T.SSL_write w.c.ssl (send_offered P nb) (send_len P nb)).1 h1 h2 hbound
  have hadv_eq : net_send_advance P nb
      (T.SSL_write w.c.ssl (send_offered P nb) (send_len P nb)).1 =
      { nb with
        s_off := nb.s_off + (T.SSL_write w.c.ssl (send_offered P nb) (send_len P nb)).1.toNat,
        flags := { nb.flags with NETBUF_MUST_RESEND := false } } := by
    have : (net_send_advance P nb
        (T.SSL_write w.c.ssl (send_offered P nb) (send_len P nb)).1).s_off =
        uadd P nb.s_off (T.SSL_write w.c.ssl (send_offered P nb) (send_len P nb)).1.toNat := rfl
    rw [this] at hadv
    unfold net_send_advance
    rw [hadv]
  obtain ⟨evs, q1, htr, hq1, hcases⟩ := net_send_iter_outcome P T w nb rest hq
  refine ⟨hlen, by rw [send_offered, hlen], ?_, ?_, ?_, ?_⟩
  · rcases hcases with ⟨h0, _⟩ | ⟨h0, _⟩ | ⟨h0, _⟩ | ⟨_, _, rfl, _⟩ | ⟨_, _, _, rfl, _⟩ |
      ⟨_, _, _, rfl, _⟩
    · exact absurd h0 hb
    · exact absurd h0 hb
    · exact absurd h0 hb
    · exact ⟨[], htr⟩
    · exact ⟨notify_events nb (T.SSL_write w.c.ssl (send_offered P nb) (send_len P nb)).1, htr⟩
    · refine ⟨notify_events nb (T.SSL_write w.c.ssl (send_offered P nb) (send_len P nb)).1 ++
        frame_events nb ++ release_events nb, ?_⟩
      rw [htr]
      simp only [write_event, List.singleton_append, List.cons_append, List.append_assoc,
        List.nil_append]
  · intro hr
    rw [hq1]
    rcases hcases with ⟨h0, _⟩ | ⟨h0, _⟩ | ⟨h0, _⟩ | ⟨_, hr0, _⟩ | ⟨_, _, hs, _, rfl⟩ |
      ⟨_, _, hs, _, rfl⟩
    · exact absurd h0 hb
    · exact absurd h0 hb
    · exact absurd h0 hb
    · omega
    · rw [hadv] at hs
      exact ⟨fun _ => by rw [hadv_eq], fun h => absurd h hs⟩
    · rw [hadv] at hs
      exact ⟨fun h => by omega, fun _ => rfl⟩
  · intro hr
    rw [hq1]
    rcases hcases with ⟨h0, _⟩ | ⟨h0, _⟩ | ⟨h0, _⟩ | ⟨_, _, _, hq2⟩ | ⟨_, hr0, _⟩ | ⟨_, hr0, _⟩
    · exact absurd h0 hb
    · exact absurd h0 hb
    · exact absurd h0 hb
    · exact hq2
    · omega
    · omega
  · intro ds w1 hrun
    obtain ⟨_, evs1, htr1, hacc⟩ := pending_net_send_seq P T hT ds w w1 (by rw [hq]; exact hok) hrun
    rw [hq] at hacc
    refine ⟨evs1, htr1, hacc, ?_⟩
    intro hw1
    rw [hw1] at hacc
    exact List.append_cancel_right hacc

theorem write_bounded_script : write_bounded script_transport := by
  intro st bytes len
  simp only [script_transport]
  cases st.1 with
  | nil => exact le_refl _
  | cons e rest =>
    simp only
    split
    · assumption
    · exact le_refl _

/-- An instance of `net_send_resumes`: the record "ABCD"; a first `net_send`
in which the transport accepts 2 bytes and then reports
`SSL_ERROR_WANT_WRITE`, a second `net_send` in which it accepts the rest.  The
record is retired and the bytes accepted are "ABCD". -/
theorem net_send_resumes_witness :
    write_bounded script_transport ∧
    world_abcd.c.send_queue = [new_send_netbuf params8 0 100 [65, 66, 67, 68] 4 none] ∧
    send_ok params8 [new_send_netbuf params8 0 100 [65, 66, 67, 68] 4 none] ∧
    (new_send_netbuf params8 0 100 [65, 66, 67, 68] 4 none).s_off <
      (new_send_netbuf params8 0 100 [65, 66, 67, 68] 4 none).b_len ∧
    ∃ (w1 : World (List (Int × Int) × Int)) (evs : List Event),
      net_send_seq params8 script_transport
        [(3, ([(2, 0), (-1, SSL_ERROR_WANT_WRITE)], 0)), (3, ([], 0))] world_abcd = some w1 ∧
      w1.c.send_queue = [] ∧
      w1.trace = world_abcd.trace ++ evs ∧
      writes w1.trace =
        [([some 65, some 66, some 67, some 68], 4), ([some 67, some 68], 2),
         ([some 67, some 68], 2)] ∧
      accepted evs = [some 65, some 66, some 67, some 68] := by
  have hok : send_ok params8 [new_send_netbuf params8 0 100 [65, 66, 67, 68] 4 none] := by
    intro nb hnb
    simp only [List.mem_singleton] at hnb
    subst hnb
    decide
  have hrun : (net_send_seq params8 script_transport
      [(3, ([(2, 0), (-1, SSL_ERROR_WANT_WRITE)], 0)), (3, ([], 0))] world_abcd).isSome = true :=
    rfl
  obtain ⟨w1, hw1⟩ := Option.isSome_iff_exists.1 hrun
  have hqueue : w1.c.send_queue = [] := by
    have h : (net_send_seq params8 script_transport
        [(3, ([(2, 0), (-1, SSL_ERROR_WANT_WRITE)], 0)), (3, ([], 0))] world_abcd).map
          (fun x => x.c.send_queue) = some [] := rfl
    rw [hw1] at h
    simpa using h
  have hwrites : writes w1.trace =
      [([some 65, some 66, some 67, some 68], 4), ([some 67, some 68], 2),
       ([some 67, some 68], 2)] := by
    have h : (net_send_seq params8 script_transport
        [(3, ([(2, 0), (-1, SSL_ERROR_WANT_WRITE)], 0)), (3, ([], 0))] world_abcd).map
          (fun x => writes x.trace) =
        some [([some 65, some 66, some 67, some 68], 4), ([some 67, some 68], 2),
          ([some 67, some 68], 2)] := rfl
    rw [hw1] at h
    simpa using h
  obtain ⟨evs, htr, _, hret⟩ :=
    (net_send_resumes params8 script_transport write_bounded_script world_abcd
      (new_send_netbuf params8 0 100 [65, 66, 67, 68] 4 none) [] rfl hok
      (by decide)).2.2.2.2.2
      [(3, ([(2, 0), (-1, SSL_ERROR_WANT_WRITE)], 0)), (3, ([], 0))] w1 hw1
  exact ⟨write_bounded_script, rfl, hok, by decide, w1, evs, hw1, hqueue, htr, hwrites,
    by rw [hret hqueue]; rfl⟩

/-! ## Flow-control notifications -/

theorem notifications_append (s : Nat) (e1 e2 : List Event) :
    notifications s (e1 ++ e2) = notifications s e1 ++ notifications s e2 := by
  induction e1 with
  | nil => rfl
  | cons e es ih =>
    cases e with
    | spdy_update_wsize s1 r =>
      simp only [List.cons_append, notifications]
      split <;> simp [ih]
    | _ => simpa [notifications] using ih

theorem notifications_frame_events (s : Nat) (nb : netbuf) :
    notifications s (frame_events nb) = [] := by
  unfold frame_events
  cases nb.stream with
  | none => rfl
  | some s1 => by_cases h : nb.flags.NETBUF_IS_STREAM = true <;> simp [h, notifications]

theorem notifications_release_events (s : Nat) (nb : netbuf) :
    notifications s (release_events nb) = [] := by
  unfold release_events
  by_cases h : nb.flags.NETBUF_IS_STREAM = true <;> simp [h, notifications]

theorem notifications_notify_events (s : Nat) (nb : netbuf) (r : Int) :
    notifications s (notify_events nb r) = if nb.stream = some s then [r] else [] := by
  unfold notify_events
  cases hs : nb.stream with
  | none => simp [notifications]
  | some s1 =>
    by_cases h : s1 = s
    · simp [notifications, h]
    · simp [notifications, h]

theorem notifications_write_event {σ : Type} (s : Nat) (P : Params) (T : Transport σ)
    (w : World σ) (nb : netbuf) : notifications s [write_event P T w nb] = [] := rfl

/-- The notifications of one pass of `net_send` for stream `s`: exactly the
`r` bytes of progress when the front record belongs to `s`, else none. -/
theorem notifications_net_send_pass {σ : Type} (P : Params) (T : Transport σ) (s : Nat)
    (w : World σ) :
    ∃ evs, (net_send_iter P T w).world.trace = w.trace ++ evs ∧
      (∀ nb rest, w.c.send_queue = nb :: rest →
        notifications s evs =
          if nb.b_len ≠ 0 ∧ 0 < (T.SSL_write w.c.ssl (send_offered P nb) (send_len P nb)).1 ∧
              nb.stream = some s
          then [(T.SSL_write w.c.ssl (send_offered P nb) (send_len P nb)).1] else []) := by
  cases hq : w.c.send_queue with
  | nil =>
    rw [net_send_iter_nil P T w hq]
    exact ⟨[], by simp [Step.world], fun nb rest h => by cases h⟩
  | cons nb rest =>
    obtain ⟨evs, q1, htr, _, hcases⟩ := net_send_iter_outcome P T w nb rest hq
    refine ⟨evs, htr, ?_⟩
    intro nb1 rest1 hnb
    cases hnb
    rcases hcases with ⟨hb, _, rfl, _⟩ | ⟨hb, _, _, rfl, _⟩ | ⟨hb, _, _, rfl, _⟩ |
      ⟨_, hr, rfl, _⟩ | ⟨hb, hr, _, rfl, _⟩ | ⟨hb, hr, _, rfl, _⟩
    · simp [notifications, hb]
    · simp [notifications_append, notifications_frame_events, notifications_release_events, hb]
    · simp [notifications_frame_events, hb]
    · have : ¬ 0 < (T.SSL_write w.c.ssl (send_offered P nb) (send_len P nb)).1 := by omega
      simp [notifications_write_event, this]
    · rw [notifications_append, notifications_write_event, notifications_notify_events]
      simp [hb, hr]
    · rw [notifications_append, notifications_append, notifications_append,
        notifications_write_event, notifications_notify_events, notifications_frame_events,
        notifications_release_events]
      simp [hb, hr]

/-- One pass of `net_send`: the notifications for stream `s` and the bytes
still to be sent on `s` add up to the bytes that were to be sent on `s`. -/
theorem notifications_net_send_iter {σ : Type} (P : Params) (T : Transport σ)
    (hT : write_bounded T) (s : Nat) (w : World σ) (hok : send_ok P w.c.send_queue) :
    ∃ evs, (net_send_iter P T w).world.trace = w.trace ++ evs ∧
      (notifications s evs).sum + (pending_on s (net_send_iter P T w).world.c.send_queue : Int) =
        (pending_on s w.c.send_queue : Int) := by
  cases hq : w.c.send_queue with
  | nil =>
    rw [net_send_iter_nil P T w hq]
    exact ⟨[], by simp [Step.world], by simp [Step.world, hq, notifications]⟩
  | cons nb rest =>
    obtain ⟨h1, h2⟩ := hok nb (by rw [hq]; exact List.mem_cons_self _ _)
    obtain ⟨evs, q1, htr, hq1, hcases⟩ := net_send_iter_outcome P T w nb rest hq
    have hbound := hT w.c.ssl (send_offered P nb) (send_len P nb)
    obtain ⟨hadv, hle⟩ := net_send_advance_le P nb
      (T.SSL_write w.c.ssl (send_offered P nb) (send_len P nb)).1 h1 h2 hbound
    have hstream : ∀ r, (net_send_advance P nb r).stream = nb.stream := fun _ => rfl
    have hblen : ∀ r, (net_send_advance P nb r).b_len = nb.b_len := fun _ => rfl
    refine ⟨evs, htr, ?_⟩
    rw [hq1]
    rcases hcases with ⟨_, _, rfl, rfl⟩ | ⟨hb, hs, _, rfl, rfl⟩ | ⟨hb, hs, _, rfl, rfl⟩ |
      ⟨_, hr, rfl, hq2⟩ | ⟨_, hr, _, rfl, rfl⟩ | ⟨_, hr, hs, rfl, rfl⟩
    · simp [notifications]
    · simp [notifications_append, notifications_frame_events, notifications_release_events,
        pending_on, hb, hs]
    · simp [notifications_frame_events, pending_on, hb, hs]
    · rcases hq2 with rfl | rfl <;> simp [notifications_write_event, pending_on]
    · simp only [notifications_append, notifications_write_event,
        notifications_notify_events, List.nil_append, pending_on, hstream, hblen, hadv]
      by_cases hst : nb.stream = some s
      · simp only [hst, if_true, List.sum_cons, List.sum_nil]
        push_cast
        rw [hadv] at hle
        omega
      · simp [hst]
    · simp only [notifications_append, notifications_write_event,
        notifications_notify_events, notifications_frame_events,
        notifications_release_events, List.nil_append, List.append_nil, pending_on]
      by_cases hst : nb.stream = some s
      · simp only [hst, if_true, List.sum_cons, List.sum_nil]
        push_cast
        rw [hadv] at hs
        omega
      · simp [hst]

/-- Any sequence of `net_send` calls with nothing enqueued in between: the
notifications for stream `s` and the bytes still to be sent on `s` add up to
the bytes that were to be sent on `s`. -/
theorem notifications_net_send_seq {σ : Type} (P : Params) (T : Transport σ)
    (hT : write_bounded T) (s : Nat) (ds : List (Nat × σ)) (w w1 : World σ)
    (hok : send_ok P w.c.send_queue) (h : net_send_seq P T ds w = some w1) :
    send_ok P w1.c.send_queue ∧
    ∃ evs, w1.trace = w.trace ++ evs ∧
      (notifications s evs).sum + (pending_on s w1.c.send_queue : Int) =
        (pending_on s w.c.send_queue : Int) :=
  net_send_seq_law P T (send_ok P)
    (fun evs q q1 => (notifications s evs).sum + (pending_on s q1 : Int) = (pending_on s q : Int))
    (fun _ => by simp [notifications])
    (fun e1 e2 q1 q2 q3 h1 h2 => by
      show (notifications s (e1 ++ e2)).sum + (pending_on s q3 : Int) = (pending_on s q1 : Int)
      rw [notifications_append, List.sum_append]
      omega)
    (fun w0 hok0 => ⟨send_ok_net_send_iter P T hT w0 hok0,
      notifications_net_send_iter P T hT s w0 hok0⟩)
    ds w w1 hok h

/-- C8: flow-control notifications of `net_send`.  In a pass on the front
record `nb`, the calls `spdy_update_wsize` for a stream `s` are exactly one,
with the `r` bytes of progress, when the write on `nb` made progress and `nb`
belongs to `s`, and none otherwise (no progress, a record of length zero,
another stream or no stream).  When a write never reports more than was
requested, over any sequence of `net_send` calls with nothing enqueued in
between the notifications for `s` and the bytes still to be sent on `s` add up
to the bytes that were to be sent on `s`; so when the front record of stream
`s` has been retired and the records behind are untouched, its notifications
sum to `b_len - s_off`, its length when nothing of it had been sent.
Scenario A: "AB" then "CD" on stream 7 give one record "ABCD" of length 4; with
a transport accepting at most 2 bytes per call `net_send` makes two writes,
notifies stream 7 of 2 and 2 bytes, and retires the record after the second. -/
theorem net_send_notifies {σ : Type} (P : Params) (T : Transport σ) (w : World σ) :
    (∃ evs, (net_send_iter P T w).world.trace = w.trace ++ evs ∧
      ∀ (s : Nat) (nb : netbuf) (rest : List netbuf), w.c.send_queue = nb :: rest →
        notifications s evs =
          if nb.b_len ≠ 0 ∧ 0 < (T.SSL_write w.c.ssl (send_offered P nb) (send_len P nb)).1 ∧
              nb.stream = some s
          then [(T.SSL_write w.c.ssl (send_offered P nb) (send_len P nb)).1] else []) ∧
    (write_bounded T → send_ok P w.c.send_queue →
      ∀ (s : Nat) (ds : List (Nat × σ)) (w1 : World σ), net_send_seq P T ds w = some w1 →
      ∃ evs, w1.trace = w.trace ++ evs ∧
        (notifications s evs).sum + (pending_on s w1.c.send_queue : Int) =
          (pending_on s w.c.send_queue : Int) ∧
        ∀ (nb : netbuf) (rest : List netbuf), w.c.send_queue = nb :: rest →
          nb.stream = some s → w1.c.send_queue = rest →
          (notifications s evs).sum = ((nb.b_len - nb.s_off : Nat) : Int)) ∧
    (lengths world_A.c.send_queue = [4] ∧
      queued_bytes world_A.c.send_queue = [some 65, some 66, some 67, some 68] ∧
      (net_send params8 (chunk_transport 2) 3 world_A).map
          (fun x => (x.1, x.2.c.send_queue, x.2.trace)) =
        some (KORE_RESULT_OK, [],
          [Event.SSL_write [some 65, some 66, some 67, some 68] 4 2,
           Event.spdy_update_wsize 7 2,
           Event.SSL_write [some 67, some 68] 2 2,
           Event.spdy_update_wsize 7 2,
           Event.kore_mem_free 100,
           Event.kore_pool_put 0])) := by
  refine ⟨?_, ?_, rfl, rfl, rfl⟩
  · obtain ⟨evs, htr, _⟩ := notifications_net_send_pass P T 0 w
    refine ⟨evs, htr, ?_⟩
    intro s nb rest hq
    obtain ⟨evs1, htr1, h1⟩ := notifications_net_send_pass P T s w
    have : evs = evs1 := by
      rw [htr] at htr1
      exact List.append_cancel_left htr1
    rw [this]
    exact h1 nb rest hq
  · intro hT hok s ds w1 hrun
    obtain ⟨_, evs, htr, hsum⟩ := notifications_net_send_seq P T hT s ds w w1 hok hrun
    refine ⟨evs, htr, hsum, ?_⟩
    intro nb rest hq hs hq1
    rw [hq, hq1] at hsum
    simp only [pending_on, hs, if_true] at hsum
    push_cast at hsum
    omega

theorem write_bounded_chunk (k : Nat) : write_bounded (chunk_transport k) := by
  intro s bytes len
  simp only [chunk_transport]
  omega

/-- An instance of `net_send_notifies` on scenario A: the notifications of
stream 7 over the drain of the record "ABCD" sum to 4, its length. -/
theorem net_send_notifies_witness :
    write_bounded (chunk_transport 2) ∧
    send_ok params8 world_A.c.send_queue ∧
    ∃ (w1 : World Unit) (evs : List Event),
      net_send_seq params8 (chunk_transport 2) [(3, ())] world_A = some w1 ∧
      w1.c.send_queue = [] ∧
      w1.trace = world_A.trace ++ evs ∧
      notifications 7 w1.trace = [2, 2] ∧
      (notifications 7 evs).sum = 4 := by
  have hq : world_A.c.send_queue =
      [{ new_send_netbuf params8 0 100 [65, 66] 2 (some 7) with
          buf := { addr := 100,
                   cells := memcpy (new_send_netbuf params8 0 100 [65, 66] 2 (some 7)).buf.cells
                     2 [67, 68] 2 },
          b_len := 4 }] := rfl
  have hok : send_ok params8 world_A.c.send_queue := by
    intro nb hnb
    rw [hq] at hnb
    simp only [List.mem_singleton] at hnb
    subst hnb
    decide
  have hrun : (net_send_seq params8 (chunk_transport 2) [(3, ())] world_A).isSome = true := rfl
  obtain ⟨w1, hw1⟩ := Option.isSome_iff_exists.1 hrun
  have hqueue : w1.c.send_queue = [] := by
    have h : (net_send_seq params8 (chunk_transport 2) [(3, ())] world_A).map
        (fun x => x.c.send_queue) = some [] := rfl
    rw [hw1] at h
    simpa using h
  have hnot : notifications 7 w1.trace = [2, 2] := by
    have h : (net_send_seq params8 (chunk_transport 2) [(3, ())] world_A).map
        (fun x => notifications 7 x.trace) = some [2, 2] := rfl
    rw [hw1] at h
    simpa using h
  obtain ⟨evs, htr, _, hsum⟩ :=
    (net_send_notifies params8 (chunk_transport 2) world_A).2.1 (write_bounded_chunk 2) hok
      7 [(3, ())] w1 hw1
  exact ⟨write_bounded_chunk 2, hok, w1, evs, hw1, hqueue, htr, hnot,
    hsum _ [] hq rfl hqueue⟩

/-! ## The final frame of a borrowed record -/

theorem final_frames_append (s : Nat) (e1 e2 : List Event) :
    final_frames s (e1 ++ e2) = final_frames s e1 + final_frames s e2 := by
  induction e1 with
  | nil => simp [final_frames]
  | cons e es ih =>
    cases e with
    | spdy_frame_send ty fl len s1 misc =>
      cases ty
      cases fl
      cases len with
      | zero =>
        cases misc with
        | zero =>
          simp only [List.cons_append, final_frames]
          have ih1 : final_frames s (es.append e2) = final_frames s es + final_frames s e2 := ih
          rw [ih1]
          omega
        | succ m => simpa [final_frames] using ih
      | succ n => simpa [final_frames] using ih
    | _ => simpa [final_frames] using ih

theorem final_frames_frame_events (s : Nat) (nb : netbuf) :
    final_frames s (frame_events nb) =
      if nb.stream = some s ∧ nb.flags.NETBUF_IS_STREAM = true then 1 else 0 := by
  unfold frame_events
  cases hs : nb.stream with
  | none => simp [final_frames]
  | some s1 =>
    by_cases h : nb.flags.NETBUF_IS_STREAM = true
    · by_cases h1 : s1 = s <;> simp [h, h1, final_frames]
    · simp [h, final_frames]

theorem final_frames_release_events (s : Nat) (nb : netbuf) :
    final_frames s (release_events nb) = 0 := by
  unfold release_events
  by_cases h : nb.flags.NETBUF_IS_STREAM = true <;> simp [h, final_frames]

theorem final_frames_notify_events (s : Nat) (nb : netbuf) (r : Int) :
    final_frames s (notify_events nb r) = 0 := by
  unfold notify_events
  cases nb.stream <;> simp [final_frames]

theorem final_frames_write_event {σ : Type} (s : Nat) (P : Params) (T : Transport σ)
    (w : World σ) (nb : netbuf) : final_frames s [write_event P T w nb] = 0 := rfl

/-- The final frames of one pass of `net_send`: one for stream `s` exactly when
the front record becomes complete, is borrowed and belongs to `s`; the count of
borrowed records of `s` in the queue goes down by as much. -/
theorem final_frames_net_send_iter {σ : Type} (P : Params) (T : Transport σ) (s : Nat)
    (w : World σ) :
    ∃ evs, (net_send_iter P T w).world.trace = w.trace ++ evs ∧
      final_frames s evs + borrowed_on s (net_send_iter P T w).world.c.send_queue =
        borrowed_on s w.c.send_queue ∧
      (∀ nb rest, w.c.send_queue = nb :: rest →
        ((send_completes P T w nb ∧ nb.stream = some s ∧ nb.flags.NETBUF_IS_STREAM = true) →
          final_frames s evs = 1) ∧
        (¬ (send_completes P T w nb ∧ nb.stream = some s ∧ nb.flags.NETBUF_IS_STREAM = true) →
          final_frames s evs = 0)) := by
  cases hq : w.c.send_queue with
  | nil =>
    rw [net_send_iter_nil P T w hq]
    exact ⟨[], by simp [Step.world], by simp [Step.world, hq, final_frames],
      fun nb rest h => by cases h⟩
  | cons nb rest =>
    obtain ⟨evs, q1, htr, hq1, hcases⟩ := net_send_iter_outcome P T w nb rest hq
    have hstream : ∀ r, (net_send_advance P nb r).stream = nb.stream := fun _ => rfl
    have hflag : ∀ r, (net_send_advance P nb r).flags.NETBUF_IS_STREAM =
      nb.flags.NETBUF_IS_STREAM := fun _ => rfl
    refine ⟨evs, htr, ?_, ?_⟩
    · rw [hq1]
      rcases hcases with ⟨_, _, rfl, rfl⟩ | ⟨hb, hs, _, rfl, rfl⟩ | ⟨hb, hs, _, rfl, rfl⟩ |
        ⟨_, hr, rfl, hq2⟩ | ⟨_, hr, _, rfl, rfl⟩ | ⟨_, hr, hs, rfl, rfl⟩
      · simp [final_frames]
      · simp only [final_frames_append, final_frames_frame_events, final_frames_release_events,
          borrowed_on]
        omega
      · simp only [final_frames_frame_events, borrowed_on]
        simp
      · rcases hq2 with rfl | rfl <;> simp [final_frames_write_event, borrowed_on]
      · simp only [final_frames_append, final_frames_write_event, final_frames_notify_events,
          borrowed_on, hstream, hflag]
        omega
      · simp only [final_frames_append, final_frames_write_event, final_frames_notify_events,
          final_frames_frame_events, final_frames_release_events, borrowed_on]
        omega
    · intro nb1 rest1 hnb
      cases hnb
      unfold send_completes
      rcases hcases with ⟨hb, hs, rfl, _⟩ | ⟨hb, hs, _, rfl, _⟩ | ⟨hb, hs, _, rfl, _⟩ |
        ⟨hb, hr, rfl, _⟩ | ⟨hb, hr, hs, rfl, _⟩ | ⟨hb, hr, hs, rfl, _⟩
      · refine ⟨fun h => ?_, fun _ => rfl⟩
        rcases h.1 with h1 | h1
        · exact absurd h1.2 hs
        · exact absurd hb h1.1
      · simp only [final_frames_append, final_frames_frame_events, final_frames_release_events]
        refine ⟨fun h => by simp [h.2.1, h.2.2], fun h => ?_⟩
        have : ¬ (nb.stream = some s ∧ nb.flags.NETBUF_IS_STREAM = true) :=
          fun h2 => h ⟨Or.inl ⟨hb, hs⟩, h2⟩
        simp [this]
      · simp only [final_frames_frame_events]
        refine ⟨fun h => by simp [h.2.1, h.2.2], fun h => ?_⟩
        have : ¬ (nb.stream = some s ∧ nb.flags.NETBUF_IS_STREAM = true) :=
          fun h2 => h ⟨Or.inl ⟨hb, hs⟩, h2⟩
        simp [this]
      · refine ⟨fun h => ?_, fun _ => rfl⟩
        rcases h.1 with h1 | h1
        · exact absurd h1.1 hb
        · omega
      · rw [final_frames_append, final_frames_write_event, final_frames_notify_events]
        refine ⟨fun h => ?_, fun _ => rfl⟩
        rcases h.1 with h1 | h1
        · exact absurd h1.1 hb
        · exact absurd h1.2.2 hs
      · simp only [final_frames_append, final_frames_write_event, final_frames_notify_events,
          final_frames_frame_events, final_frames_release_events]
        refine ⟨fun h => by simp [h.2.1, h.2.2], fun h => ?_⟩
        have : ¬ (nb.stream = some s ∧ nb.flags.NETBUF_IS_STREAM = true) :=
          fun h2 => h ⟨Or.inr ⟨hb, hr, hs⟩, h2⟩
        simp [this]

/-- Any sequence of `net_send` calls with nothing enqueued in between: the
final frames for stream `s` are as many as the borrowed records of `s` that
left the queue. -/
theorem final_frames_net_send_seq {σ : Type} (P : Params) (T : Transport σ) (s : Nat)
    (ds : List (Nat × σ)) (w w1 : World σ) (h : net_send_seq P T ds w = some w1) :
    ∃ evs, w1.trace = w.trace ++ evs ∧
      final_frames s evs + borrowed_on s w1.c.send_queue = borrowed_on s w.c.send_queue :=
  (net_send_seq_law P T (fun _ => True)
    (fun evs q q1 => final_frames s evs + borrowed_on s q1 = borrowed_on s q)
    (fun _ => by simp [final_frames])
    (fun e1 e2 q1 q2 q3 h1 h2 => by
      show final_frames s (e1 ++ e2) + borrowed_on s q3 = borrowed_on s q1
      rw [final_frames_append]
      omega)
    (fun w0 _ => ⟨trivial, by
      obtain ⟨evs, htr, hsum, _⟩ := final_frames_net_send_iter P T s w0
      exact ⟨evs, htr, hsum⟩⟩)
    ds w w1 trivial h).2

/-- C9: the final frame of a borrowed record.  In a pass of `net_send` the
call `spdy_frame_send(c, SPDY_DATA_FRAME, FLAG_FIN, 0, s, 0)` is made once when
the front record becomes complete in that pass, is borrowed
(`NETBUF_IS_STREAM`) and belongs to stream `s`, and not at all otherwise, so
never for a record that is not borrowed.  In that pass the frame comes after
the write and its notification and before the record goes back to the pool;
the record leaves the queue and no `kore_mem_free` is called.  Over any
sequence of `net_send` calls with nothing enqueued in between, the final
frames for `s` are as many as the borrowed records of `s` that left the queue.
Scenario C: a borrowed payload of 5 bytes on stream 9, accepted in one write:
one notification of 5, one final frame, the record retired, nothing freed. -/
theorem net_send_final_frame {σ : Type} (P : Params) (T : Transport σ) (w : World σ) :
    (∃ evs, (net_send_iter P T w).world.trace = w.trace ++ evs ∧
      ∀ (s : Nat) (nb : netbuf) (rest : List netbuf), w.c.send_queue = nb :: rest →
        ((send_completes P T w nb ∧ nb.stream = some s ∧ nb.flags.NETBUF_IS_STREAM = true) →
          final_frames s evs = 1) ∧
        (¬ (send_completes P T w nb ∧ nb.stream = some s ∧ nb.flags.NETBUF_IS_STREAM = true) →
          final_frames s evs = 0)) ∧
    (∀ (s : Nat) (nb : netbuf) (rest : List netbuf), w.c.send_queue = nb :: rest →
      nb.stream = some s → nb.flags.NETBUF_IS_STREAM = true → send_completes P T w nb →
      (nb.b_len = 0 → nb.flags.NETBUF_MUST_RESEND = false) →
      (net_send_iter P T w).world.c.send_queue = rest ∧
      (net_send_iter P T w).world.trace =
        w.trace ++
          (if nb.b_len = 0 then []
           else [write_event P T w nb,
                 Event.spdy_update_wsize s
                   (T.SSL_write w.c.ssl (send_offered P nb) (send_len P nb)).1]) ++
          [Event.spdy_frame_send SpdyFrameType.SPDY_DATA_FRAME SpdyFrameFlag.FLAG_FIN 0 s 0,
           Event.kore_pool_put nb.id]) ∧
    (∀ (s : Nat) (ds : List (Nat × σ)) (w1 : World σ), net_send_seq P T ds w = some w1 →
      ∃ evs, w1.trace = w.trace ++ evs ∧
        final_frames s evs + borrowed_on s w1.c.send_queue = borrowed_on s w.c.send_queue) ∧
    (world_C.c.send_queue.map (fun nb => (nb.buf, nb.b_len, nb.m_len, nb.s_off, nb.flags)) =
        [({ addr := 55, cells := [some 1, some 2, some 3, some 4, some 5] }, 5, 5, 0,
          { NETBUF_CALL_CB_ALWAYS := false, NETBUF_FORCE_REMOVE := false,
            NETBUF_MUST_RESEND := false, NETBUF_IS_STREAM := true })] ∧
      (net_send params8 (chunk_transport 8) 2 world_C).map
          (fun x => (x.1, x.2.c.send_queue, x.2.trace)) =
        some (KORE_RESULT_OK, [],
          [Event.SSL_write [some 1, some 2, some 3, some 4, some 5] 5 5,
           Event.spdy_update_wsize 9 5,
           Event.spdy_frame_send SpdyFrameType.SPDY_DATA_FRAME SpdyFrameFlag.FLAG_FIN 0 9 0,
           Event.kore_pool_put 0])) := by
  refine ⟨?_, ?_, ?_, rfl, rfl⟩
  · obtain ⟨evs, htr, _, _⟩ := final_frames_net_send_iter P T 0 w
    refine ⟨evs, htr, ?_⟩
    intro s nb rest hq
    obtain ⟨evs1, htr1, _, h1⟩ := final_frames_net_send_iter P T s w
    have : evs = evs1 := by
      rw [htr] at htr1
      exact List.append_cancel_left htr1
    rw [this]
    exact h1 nb rest hq
  · intro s nb rest hq hs hi hc hz
    obtain ⟨evs, q1, htr, hq1, hcases⟩ := net_send_iter_outcome P T w nb rest hq
    have hfr : frame_events nb =
        [Event.spdy_frame_send SpdyFrameType.SPDY_DATA_FRAME SpdyFrameFlag.FLAG_FIN 0 s 0] := by
      simp [frame_events, hs, hi]
    have hrel : release_events nb = [Event.kore_pool_put nb.id] := by
      simp [release_events, hi]
    have hnot : ∀ r, notify_events nb r = [Event.spdy_update_wsize s r] := by
      intro r
      simp [notify_events, hs]
    rw [htr, hq1]
    rcases hcases with ⟨hb, hs0, _, _⟩ | ⟨hb, _, _, rfl, rfl⟩ | ⟨hb, _, hf, _, _⟩ |
      ⟨hb, hr, _, _⟩ | ⟨hb, hr, hs1, _, _⟩ | ⟨hb, hr, _, rfl, rfl⟩
    · rcases hc with h1 | h1
      · exact absurd h1.2 hs0
      · exact absurd hb h1.1
    · refine ⟨rfl, ?_⟩
      rw [hfr, hrel]
      simp [hb]
    · rw [hz hb] at hf
      cases hf
    · rcases hc with h1 | h1
      · exact absurd h1.1 hb
      · omega
    · rcases hc with h1 | h1
      · exact absurd h1.1 hb
      · exact absurd h1.2.2 hs1
    · refine ⟨rfl, ?_⟩
      rw [hfr, hrel, hnot]
      simp [hb]
  · intro s ds w1 hrun
    exact final_frames_net_send_seq P T s ds w w1 hrun

/-- An instance of `net_send_final_frame` on scenario C: the pass in which the
borrowed record completes leaves the queue empty, and over the whole drain one
final frame is sent for stream 9. -/
theorem net_send_final_frame_witness :
    world_C.c.send_queue =
      [{ id := 0, buf := { addr := 55, cells := [some 1, some 2, some 3, some 4, some 5] },
         s_off := 0, b_len := 5, m_len := 5, type := NetbufType.NETBUF_SEND,
         flags := { NETBUF_CALL_CB_ALWAYS := false, NETBUF_FORCE_REMOVE := false,
                    NETBUF_MUST_RESEND := false, NETBUF_IS_STREAM := true },
         stream := some 9, cb := none }] ∧
    (net_send_iter params8 (chunk_transport 8) world_C).world.c.send_queue = [] ∧
    ∃ (w1 : World Unit) (evs : List Event),
      net_send_seq params8 (chunk_transport 8) [(2, ())] world_C = some w1 ∧
      w1.trace = world_C.trace ++ evs ∧
      freed w1.trace = [] ∧
      final_frames 9 evs = 1 := by
  have hrun : (net_send_seq params8 (chunk_transport 8) [(2, ())] world_C).isSome = true := rfl
  obtain ⟨w1, hw1⟩ := Option.isSome_iff_exists.1 hrun
  have hqueue : w1.c.send_queue = [] := by
    have h : (net_send_seq params8 (chunk_transport 8) [(2, ())] world_C).map
        (fun x => x.c.send_queue) = some [] := rfl
    rw [hw1] at h
    simpa using h
  have hfreed : freed w1.trace = [] := by
    have h : (net_send_seq params8 (chunk_transport 8) [(2, ())] world_C).map
        (fun x => freed x.trace) = some [] := rfl
    rw [hw1] at h
    simpa using h
  obtain ⟨evs, htr, hsum⟩ :=
    (net_send_final_frame params8 (chunk_transport 8) world_C).2.2.1 9 [(2, ())] w1 hw1
  refine ⟨rfl, ?_, w1, evs, hw1, htr, hfreed, ?_⟩
  · exact ((net_send_final_frame params8 (chunk_transport 8) world_C).2.1 9 _ [] rfl rfl rfl
      (Or.inr ⟨by decide, by decide, by decide⟩) (by decide)).1
  · rw [hqueue] at hsum
    have hb : borrowed_on 9 world_C.c.send_queue = 1 := by decide
    rw [hb] at hsum
    simpa [borrowed_on] using hsum

/-! ## The front record across enqueueing calls -/

theorem nb_extends_refl (nb : netbuf) (h : nb.b_len ≤ nb.buf.cells.length) :
    nb_extends nb nb :=
  ⟨rfl, rfl, rfl, rfl, rfl, rfl, le_refl _, h, rfl, le_max_left _ _⟩

theorem nb_extends_trans {a b c : netbuf} (h1 : nb_extends a b) (h2 : nb_extends b c) :
    nb_extends a c := by
  obtain ⟨a1, a2, a3, a4, a5, a6, a7, _, a9, a10⟩ := h1
  obtain ⟨b1, b2, b3, b4, b5, b6, b7, b8, b9, b10⟩ := h2
  refine ⟨by rw [b1, a1], by rw [b2, a2], by rw [b3, a3], by rw [b4, a4], by rw [b5, a5],
    by rw [b6, a6], le_trans a7 b7, b8, ?_, ?_⟩
  · have h : (c.buf.cells.take b.b_len).take a.b_len =
        (b.buf.cells.take b.b_len).take a.b_len := by
      rw [b9]
    rw [List.take_take, List.take_take, Nat.min_eq_left a7] at h
    rw [h, a9]
  · rw [a6] at b10
    omega

theorem memcpy_take_prefix (c : List Cell) (off : Nat) (d : List Nat) (n : Nat)
    (hoff : off ≤ c.length) : (memcpy c off d n).take off = c.take off := by
  unfold memcpy
  rw [List.append_assoc, List.take_append_of_le_length (by simp [hoff])]
  simp

/-- The record written by `net_send_queue` extends the tail it wrote into. -/
theorem nb_extends_memcpy (t : netbuf) (data : List Nat) (n : Nat) (hn : n ≤ data.length)
    (ht : t.b_len ≤ t.buf.cells.length) (hcap : t.b_len + n ≤ t.m_len) :
    nb_extends t { t with buf := { t.buf with cells := memcpy t.buf.cells t.b_len data n },
                          b_len := t.b_len + n } := by
  refine ⟨rfl, rfl, rfl, rfl, rfl, rfl, Nat.le_add_right _ _, ?_, ?_, ?_⟩
  · show t.b_len + n ≤ (memcpy t.buf.cells t.b_len data n).length
    rw [memcpy_length _ _ _ _ ht hn]
    omega
  · exact memcpy_take_prefix _ _ _ _ ht
  · show t.b_len + n ≤ max t.b_len t.m_len
    omega

/-- What `net_send_queue` does to the queue: it appends a record, or it
extends a tail that has room and may append a record after it. -/
theorem net_send_queue_extends {σ : Type} (P : Params) (w : World σ) (data : List Nat)
    (s : Option Nat) :
    (∃ x, (net_send_queue P w data data.length s).c.send_queue = w.c.send_queue ++ [x]) ∨
    (∃ t t1 ex, (net_send_queue P w data data.length s).c.send_queue =
        w.c.send_queue.dropLast ++ [t1] ++ ex ∧
      w.c.send_queue.getLast? = some t ∧ t.b_len < t.m_len ∧
      (t.b_len ≤ t.buf.cells.length → nb_extends t t1)) := by
  rcases net_send_queue_cases P w data data.length s with
    h | ⟨t, hl, hs, hfit, h⟩ | ⟨t, hl, hs, hroom, hover, h⟩
  · rw [h]
    exact Or.inl ⟨_, rfl⟩
  · rw [h]
    exact Or.inr ⟨t, _, [], (List.append_nil _).symm, hl, by omega,
      fun ht => nb_extends_memcpy t data data.length (le_refl _) ht (by omega)⟩
  · rw [h]
    refine Or.inr ⟨t, _, [_], rfl, hl, hroom, fun ht => ?_⟩
    have hext := nb_extends_memcpy t data (t.m_len - t.b_len) (by omega) ht (by omega)
    have hb : t.b_len + (t.m_len - t.b_len) = t.m_len := by omega
    rw [hb] at hext
    exact hext

/-- One enqueueing call leaves the front record at the front, extended at most
by appended bytes; it leaves it as it is when it is not the tail or is at
capacity. -/
theorem enqueue_front {σ : Type} (P : Params) (w : World σ) (op : EnqueueCall) (nb : netbuf)
    (rest : List netbuf) (hq : w.c.send_queue = nb :: rest)
    (hwf : nb.b_len ≤ nb.buf.cells.length) :
    ∃ nb1 rest1, (enqueue P w op).c.send_queue = nb1 :: rest1 ∧ nb_extends nb nb1 ∧
      (rest ≠ [] → nb1 = nb ∧ rest1 ≠ []) ∧ (nb.m_len ≤ nb.b_len → nb1 = nb) ∧
      (enqueue P w op).trace = w.trace := by
  cases op with
  | stream data len s =>
    have hx : ∃ x, (net_send_stream w data len s).c.send_queue = w.c.send_queue ++ [x] :=
      ⟨_, rfl⟩
    obtain ⟨x, hx⟩ := hx
    refine ⟨nb, rest ++ [x], ?_, nb_extends_refl nb hwf, fun _ => ⟨rfl, by simp⟩,
      fun _ => rfl, rfl⟩
    simp only [enqueue, hx, hq, List.cons_append]
  | queue data s =>
    simp only [enqueue]
    have htr := (net_send_queue_frame P w data data.length s).2.2.2
    rcases net_send_queue_extends P w data s with ⟨x, hx⟩ | ⟨t, t1, ex, hx, hl, hroom, hext⟩
    · refine ⟨nb, rest ++ [x], ?_, nb_extends_refl nb hwf, fun _ => ⟨rfl, by simp⟩,
        fun _ => rfl, htr⟩
      simp only [hx, hq, List.cons_append]
    · rcases List.eq_nil_or_concat rest with rfl | ⟨L, b, rfl⟩
      · rw [hq] at hl
        simp only [List.getLast?_singleton, Option.some.injEq] at hl
        subst hl
        refine ⟨t1, ex, ?_, hext hwf, fun h0 => absurd rfl h0, fun hcap => by omega, htr⟩
        rw [hx]
        simp [hq]
      · refine ⟨nb, L ++ [t1] ++ ex, ?_, nb_extends_refl nb hwf, fun _ => ⟨rfl, by simp⟩,
          fun _ => rfl, htr⟩
        rw [hx]
        simp only [hq, List.concat_eq_append]
        rw [← List.cons_append, List.dropLast_concat]
        simp

/-- Any sequence of enqueueing calls leaves the front record at the front,
extended at most by appended bytes; it leaves it as it is when it is not the
tail or is at capacity. -/
theorem enqueue_seq_front {σ : Type} (P : Params) (ops : List EnqueueCall) :
    ∀ (w : World σ) (nb : netbuf) (rest : List netbuf), w.c.send_queue = nb :: rest →
      nb.b_len ≤ nb.buf.cells.length →
      ∃ nb1 rest1, (enqueue_seq P ops w).c.send_queue = nb1 :: rest1 ∧ nb_extends nb nb1 ∧
        (rest ≠ [] → nb1 = nb) ∧ (nb.m_len ≤ nb.b_len → nb1 = nb) ∧
        (enqueue_seq P ops w).trace = w.trace := by
  induction ops with
  | nil =>
    intro w nb rest hq hwf
    exact ⟨nb, rest, hq, nb_extends_refl nb hwf, fun _ => rfl, fun _ => rfl, rfl⟩
  | cons op ops ih =>
    intro w nb rest hq hwf
    obtain ⟨nb1, rest1, hq1, hext1, hne1, hcap1, htr1⟩ := enqueue_front P w op nb rest hq hwf
    obtain ⟨nb2, rest2, hq2, hext2, hne2, hcap2, htr2⟩ :=
      ih (enqueue P w op) nb1 rest1 hq1 hext1.2.2.2.2.2.2.2.1
    refine ⟨nb2, rest2, hq2, nb_extends_trans hext1 hext2, ?_, ?_, by
      simp only [enqueue_seq]
      rw [htr2, htr1]⟩
    · intro hne
      obtain ⟨h1, h2⟩ := hne1 hne
      rw [hne2 h2, h1]
    · intro hcap
      have h1 := hcap1 hcap
      subst h1
      exact hcap2 hcap

/-- A pass of `net_send` on a front record of non-zero length begins with the
write on that record. -/
theorem net_send_iter_first_write {σ : Type} (P : Params) (T : Transport σ) (w : World σ)
    (nb : netbuf) (rest : List netbuf) (hq : w.c.send_queue = nb :: rest) (hb : nb.b_len ≠ 0) :
    ∃ evs, (net_send_iter P T w).world.trace = w.trace ++ write_event P T w nb :: evs := by
  obtain ⟨evs, q1, htr, _, hcases⟩ := net_send_iter_outcome P T w nb rest hq
  rcases hcases with ⟨h0, _⟩ | ⟨h0, _⟩ | ⟨h0, _⟩ | ⟨_, _, rfl, _⟩ | ⟨_, _, _, rfl, _⟩ |
    ⟨_, _, _, rfl, _⟩
  · exact absurd h0 hb
  · exact absurd h0 hb
  · exact absurd h0 hb
  · exact ⟨[], htr⟩
  · exact ⟨notify_events nb (T.SSL_write w.c.ssl (send_offered P nb) (send_len P nb)).1, htr⟩
  · refine ⟨notify_events nb (T.SSL_write w.c.ssl (send_offered P nb) (send_len P nb)).1 ++
      frame_events nb ++ release_events nb, ?_⟩
    rw [htr]
    simp only [List.singleton_append, List.cons_append, List.append_assoc, List.nil_append]

/-- The bytes offered for a record are the first bytes offered for the record
extended by appended bytes. -/
theorem send_offered_extends (P : Params) (nb nb1 : netbuf) (hext : nb_extends nb nb1)
    (hoff : nb.s_off ≤ nb.b_len) (hfit : nb.b_len < P.LEN_MOD) (hcap : nb.m_len < P.LEN_MOD) :
    send_len P nb ≤ send_len P nb1 ∧
    send_offered P nb = (nb1.buf.cells.drop nb1.s_off).take (send_len P nb) ∧
    send_offered P nb <+: send_offered P nb1 := by
  obtain ⟨_, _, h3, _, _, _, h7, _, h9, h10⟩ := hext
  have hl := send_len_eq P nb hoff hfit
  have hl1 := send_len_eq P nb1 (by omega) (by omega)
  have hle : send_len P nb ≤ send_len P nb1 := by
    rw [hl, hl1, h3]
    omega
  have hm : send_len P nb ≤ nb.b_len - nb.s_off := by
    rw [hl]
    exact Nat.min_le_right _ _
  have key : send_offered P nb = (nb1.buf.cells.drop nb1.s_off).take (send_len P nb) := by
    unfold send_offered
    have e1 : (nb.buf.cells.drop nb.s_off).take (send_len P nb) =
        ((nb.buf.cells.take nb.b_len).drop nb.s_off).take (send_len P nb) := by
      rw [List.drop_take, List.take_take, Nat.min_eq_left hm]
    have e2 : (nb1.buf.cells.drop nb.s_off).take (send_len P nb) =
        ((nb1.buf.cells.take nb.b_len).drop nb.s_off).take (send_len P nb) := by
      rw [List.drop_take, List.take_take, Nat.min_eq_left hm]
    rw [e1, h3, e2, h9]
  refine ⟨hle, key, ?_⟩
  rw [key]
  exact List.take_prefix_take_left _ hle

/-- C2, amended: `net_send` returns on a would-block outcome after offering the
transport the bytes `send_offered` (`buf[k .. k+m)`) of the front record, which
is then marked `NETBUF_MUST_RESEND`.  After any sequence of `net_send_queue`
and `net_send_stream` calls the same record is at the front, with the same
block, the same offset `k` and the mark, and the first write of the next
`net_send` is offered bytes of it at offset `k` that begin with the same `m`
bytes.  They are exactly the same `m` bytes when the record is not the tail of
the queue, is at capacity, or `m` is `NETBUF_SEND_PAYLOAD_MAX`. -/
theorem net_send_resend {σ : Type} (P : Params) (T : Transport σ) (w0 : World σ)
    (nb : netbuf) (rest : List netbuf) (ops : List EnqueueCall)
    (hq : w0.c.send_queue = nb :: rest) (hoff : nb.s_off ≤ nb.b_len)
    (hcells : nb.b_len ≤ nb.buf.cells.length) (hfit : nb.b_len < P.LEN_MOD)
    (hcap : nb.m_len < P.LEN_MOD) (hb : nb.b_len ≠ 0)
    (hr : (T.SSL_write w0.c.ssl (send_offered P nb) (send_len P nb)).1 ≤ 0)
    (he : T.SSL_get_error (T.SSL_write w0.c.ssl (send_offered P nb) (send_len P nb)).2
            (T.SSL_write w0.c.ssl (send_offered P nb) (send_len P nb)).1 = SSL_ERROR_WANT_READ ∨
          T.SSL_get_error (T.SSL_write w0.c.ssl (send_offered P nb) (send_len P nb)).2
            (T.SSL_write w0.c.ssl (send_offered P nb) (send_len P nb)).1 = SSL_ERROR_WANT_WRITE) :
    ∃ (w : World σ) (nb1 : netbuf) (rest1 : List netbuf),
      net_send_iter P T w0 = Step.ret KORE_RESULT_OK w ∧
      w.trace = w0.trace ++ [Event.SSL_write (send_offered P nb) (send_len P nb)
        (T.SSL_write w0.c.ssl (send_offered P nb) (send_len P nb)).1] ∧
      (enqueue_seq P ops w).c.send_queue = nb1 :: rest1 ∧
      nb1.id = nb.id ∧ nb1.buf.addr = nb.buf.addr ∧ nb1.s_off = nb.s_off ∧
      nb1.flags.NETBUF_MUST_RESEND = true ∧
      (∀ T1 : Transport σ, ∃ evs,
        (net_send_iter P T1 (enqueue_seq P ops w)).world.trace =
          (enqueue_seq P ops w).trace ++
            Event.SSL_write (send_offered P nb1) (send_len P nb1)
              (T1.SSL_write (enqueue_seq P ops w).c.ssl (send_offered P nb1)
                (send_len P nb1)).1 :: evs) ∧
      send_len P nb ≤ send_len P nb1 ∧
      send_offered P nb <+: send_offered P nb1 ∧
      ((rest ≠ [] ∨ nb.m_len ≤ nb.b_len ∨ send_len P nb = P.NETBUF_SEND_PAYLOAD_MAX) →
        send_len P nb1 = send_len P nb ∧ send_offered P nb1 = send_offered P nb) := by
  have hiter := net_send_iter_block P T w0 nb rest hq hb hr he
  obtain ⟨nb1, rest1, hq1, hext, hne, hfull, _⟩ := enqueue_seq_front P ops _
    { nb with flags := { nb.flags with NETBUF_MUST_RESEND := true } } rest
    (show ({ net_send_wrote P w0 nb (T.SSL_write w0.c.ssl (send_offered P nb) (send_len P nb)) with
        c := { (net_send_wrote P w0 nb
                  (T.SSL_write w0.c.ssl (send_offered P nb) (send_len P nb))).c with
          flags := { w0.c.flags with CONN_WRITE_POSSIBLE := false },
          send_queue :=
            { nb with flags := { nb.flags with NETBUF_MUST_RESEND := true } } :: rest } } :
        World σ).c.send_queue = _ from rfl) hcells
  have hoffered := send_offered_extends P
    { nb with flags := { nb.flags with NETBUF_MUST_RESEND := true } } nb1 hext hoff hfit hcap
  have hsame_len : send_len P { nb with flags := { nb.flags with NETBUF_MUST_RESEND := true } } =
    send_len P nb := rfl
  have hsame_off : send_offered P
      { nb with flags := { nb.flags with NETBUF_MUST_RESEND := true } } = send_offered P nb := rfl
  rw [hsame_len, hsame_off] at hoffered
  obtain ⟨h1, h2, h3, h4, _, _, h7, _, _, _⟩ := hext
  have hb1 : nb1.b_len ≠ 0 := by
    have : nb.b_len ≤ nb1.b_len := h7
    omega
  refine ⟨_, nb1, rest1, hiter, rfl, hq1, h1, h2, h3, by rw [h4], ?_, hoffered.1,
    hoffered.2.2, ?_⟩
  · intro T1
    exact net_send_iter_first_write P T1 _ nb1 rest1 hq1 hb1
  · intro hcond
    have hlen : send_len P nb1 = send_len P nb := by
      rcases hcond with h | h | h
      · rw [hne h]
        exact hsame_len
      · rw [hfull h]
        exact hsame_len
      · have hmax : send_len P nb1 ≤ P.NETBUF_SEND_PAYLOAD_MAX := Nat.min_le_left _ _
        have := hoffered.1
        omega
    refine ⟨hlen, ?_⟩
    rw [hoffered.2.1, ← hlen]
    rfl

/-- An instance of `net_send_resend`: the record "AB" is offered to a transport
that is not ready, then "CD" is enqueued with the same stream. -/
theorem net_send_resend_witness :
    world_ab.c.send_queue = [new_send_netbuf params8 0 100 [65, 66] 2 none] ∧
    (new_send_netbuf params8 0 100 [65, 66] 2 none).s_off ≤
      (new_send_netbuf params8 0 100 [65, 66] 2 none).b_len ∧
    (new_send_netbuf params8 0 100 [65, 66] 2 none).b_len ≤
      (new_send_netbuf params8 0 100 [65, 66] 2 none).buf.cells.length ∧
    (new_send_netbuf params8 0 100 [65, 66] 2 none).b_len ≠ 0 ∧
    ∃ (w : World Unit) (nb1 : netbuf) (rest1 : List netbuf),
      net_send_iter params8 blocked_transport world_ab = Step.ret KORE_RESULT_OK w ∧
      w.trace = world_ab.trace ++
        [Event.SSL_write (send_offered params8 (new_send_netbuf params8 0 100 [65, 66] 2 none))
          (send_len params8 (new_send_netbuf params8 0 100 [65, 66] 2 none))
          (blocked_transport.SSL_write world_ab.c.ssl
            (send_offered params8 (new_send_netbuf params8 0 100 [65, 66] 2 none))
            (send_len params8 (new_send_netbuf params8 0 100 [65, 66] 2 none))).1] ∧
      (enqueue_seq params8 [EnqueueCall.queue [67, 68] none] w).c.send_queue = nb1 :: rest1 ∧
      nb1.id = (new_send_netbuf params8 0 100 [65, 66] 2 none).id ∧
      nb1.buf.addr = (new_send_netbuf params8 0 100 [65, 66] 2 none).buf.addr ∧
      nb1.s_off = (new_send_netbuf params8 0 100 [65, 66] 2 none).s_off ∧
      nb1.flags.NETBUF_MUST_RESEND = true ∧
      (∀ T1 : Transport Unit, ∃ evs,
        (net_send_iter params8 T1
            (enqueue_seq params8 [EnqueueCall.queue [67, 68] none] w)).world.trace =
          (enqueue_seq params8 [EnqueueCall.queue [67, 68] none] w).trace ++
            Event.SSL_write (send_offered params8 nb1) (send_len params8 nb1)
              (T1.SSL_write (enqueue_seq params8 [EnqueueCall.queue [67, 68] none] w).c.ssl
                (send_offered params8 nb1) (send_len params8 nb1)).1 :: evs) ∧
      send_len params8 (new_send_netbuf params8 0 100 [65, 66] 2 none) ≤ send_len params8 nb1 ∧
      send_offered params8 (new_send_netbuf params8 0 100 [65, 66] 2 none) <+:
        send_offered params8 nb1 ∧
      ((([] : List netbuf) ≠ [] ∨
          (new_send_netbuf params8 0 100 [65, 66] 2 none).m_len ≤
            (new_send_netbuf params8 0 100 [65, 66] 2 none).b_len ∨
          send_len params8 (new_send_netbuf params8 0 100 [65, 66] 2 none) =
            params8.NETBUF_SEND_PAYLOAD_MAX) →
        send_len params8 nb1 = send_len params8 (new_send_netbuf params8 0 100 [65, 66] 2 none) ∧
        send_offered params8 nb1 =
          send_offered params8 (new_send_netbuf params8 0 100 [65, 66] 2 none)) :=
  ⟨rfl, by decide, by decide, by decide,
    net_send_resend params8 blocked_transport world_ab
      (new_send_netbuf params8 0 100 [65, 66] 2 none) [] [EnqueueCall.queue [67, 68] none]
      rfl (by decide) (by decide) (by decide) (by decide) (by decide) (by decide)
      (Or.inr rfl)⟩

/-! ## The outbound byte stream -/

theorem pending_append (q1 q2 : List netbuf) :
    pending (q1 ++ q2) = pending q1 ++ pending q2 := by
  induction q1 with
  | nil => rfl
  | cons x xs ih => simp [pending, ih]

theorem pending_singleton (nb : netbuf) : pending [nb] = nb_pending nb := by
  simp [pending]

theorem nb_pending_eq (nb : netbuf) :
    nb_pending nb = (nb.buf.cells.take nb.b_len).drop nb.s_off := by
  unfold nb_pending
  rw [List.drop_take]

theorem nb_pending_new_send_netbuf (P : Params) (id addr : Nat) (d : List Nat) (n : Nat)
    (s : Option Nat) (hn : n ≤ d.length) :
    nb_pending (new_send_netbuf P id addr d n s) = (d.take n).map some := by
  rw [nb_pending_eq]
  have hb : (new_send_netbuf P id addr d n s).b_len = n := rfl
  have hs : (new_send_netbuf P id addr d n s).s_off = 0 := rfl
  rw [hb, hs, new_send_netbuf_take P _ _ d n s hn, List.drop_zero]

theorem nb_pending_memcpy (t : netbuf) (d : List Nat) (n : Nat) (hs : t.s_off ≤ t.b_len)
    (ht : t.b_len ≤ t.buf.cells.length) (hn : n ≤ d.length) :
    nb_pending { t with buf := { t.buf with cells := memcpy t.buf.cells t.b_len d n },
                        b_len := t.b_len + n } =
      nb_pending t ++ (d.take n).map some := by
  rw [nb_pending_eq, nb_pending_eq]
  show ((memcpy t.buf.cells t.b_len d n).take (t.b_len + n)).drop t.s_off = _
  rw [memcpy_take _ _ _ _ ht hn, List.drop_append_of_le_length]
  rw [List.length_take]
  omega

/-- The bytes still to be sent after `net_send_queue` are the bytes still to be
sent before the call followed by the payload. -/
theorem pending_net_send_queue {σ : Type} (P : Params) (w : World σ) (data : List Nat)
    (len : Nat) (s : Option Nat) (hlen : len ≤ data.length)
    (hwf : ∀ t ∈ w.c.send_queue, t.s_off ≤ t.b_len ∧ t.b_len ≤ t.buf.cells.length) :
    pending (net_send_queue P w data len s).c.send_queue =
      pending w.c.send_queue ++ (data.take len).map some := by
  have hnew : ∀ (w1 : World σ) (d : List Nat) (n : Nat), n ≤ d.length →
      pending (net_send_queue_new P w1 d n s).c.send_queue =
        pending w1.c.send_queue ++ (d.take n).map some := by
    intro w1 d n hn
    simp only [net_send_queue_new, pending_append, pending_singleton]
    rw [nb_pending_new_send_netbuf P _ _ d n s hn]
  rcases net_send_queue_cases P w data len s with
    h | ⟨t, hl, _, hfit, h⟩ | ⟨t, hl, _, hroom, hover, h⟩
  · rw [h]
    exact hnew w data len hlen
  · have hq := queue_eq_dropLast_of_getLast? hl
    have ht := hwf t (by rw [hq]; simp)
    rw [h]
    simp only [pending_append, pending_singleton]
    rw [nb_pending_memcpy t data len ht.1 ht.2 hlen]
    conv_rhs => rw [hq]
    simp [pending_append, pending_singleton]
  · have hq := queue_eq_dropLast_of_getLast? hl
    have ht := hwf t (by rw [hq]; simp)
    rw [h, hnew _ _ _ (by simp; omega)]
    simp only [pending_append, pending_singleton]
    have hm : t.b_len + (t.m_len - t.b_len) = t.m_len := by omega
    have key := nb_pending_memcpy t data (t.m_len - t.b_len) ht.1 ht.2 (by omega)
    rw [hm] at key
    rw [key]
    conv_rhs => rw [hq]
    have hsplit : List.take len data =
        List.take (t.m_len - t.b_len) data ++
          List.take (len - (t.m_len - t.b_len)) (List.drop (t.m_len - t.b_len) data) := by
      have : len = (t.m_len - t.b_len) + (len - (t.m_len - t.b_len)) := by omega
      conv_lhs => rw [this]
      rw [List.take_add]
    simp [pending_append, pending_singleton, hsplit]

/-- The call `net_send_queue` leaves the `s_off` of every record as it was; a
record it adds starts at `s_off = 0`. -/
theorem s_off_net_send_queue {σ : Type} (P : Params) (w : World σ) (data : List Nat)
    (len : Nat) (s : Option Nat) :
    (net_send_queue P w data len s).c.send_queue.map (fun nb => (nb.id, nb.s_off)) =
        w.c.send_queue.map (fun nb => (nb.id, nb.s_off)) ∨
    (net_send_queue P w data len s).c.send_queue.map (fun nb => (nb.id, nb.s_off)) =
        w.c.send_queue.map (fun nb => (nb.id, nb.s_off)) ++ [(w.nb_pool, 0)] := by
  rcases net_send_queue_cases P w data len s with
    h | ⟨t, hl, _, hfit, h⟩ | ⟨t, hl, _, hroom, hover, h⟩
  · right
    rw [h]
    simp [net_send_queue_new, new_send_netbuf]
  · left
    have hq := queue_eq_dropLast_of_getLast? hl
    rw [h]
    conv_rhs => rw [hq]
    simp
  · right
    have hq := queue_eq_dropLast_of_getLast? hl
    rw [h]
    conv_rhs => rw [hq]
    simp [net_send_queue_new, new_send_netbuf]

/-- C19: for a send queue whose records satisfy `s_off <= b_len <= m_len`
within their payload blocks, the valid bytes of the queue after
`net_send_queue(c, data, len, s)` are the valid bytes before the call followed
by the `len` bytes at `data`; the records of the queue keep their `s_off` (a
record that is added starts at 0), and the bytes still to be sent are those of
before followed by the payload.  This holds in every branch of the function. -/
theorem net_send_queue_byte_stream {σ : Type} (P : Params) (w : World σ) (data : List Nat)
    (len : Nat) (s : Option Nat) (hlen : len ≤ data.length)
    (hinv : ∀ nb ∈ w.c.send_queue,
      nb.s_off ≤ nb.b_len ∧ nb.b_len ≤ nb.m_len ∧ nb.m_len ≤ nb.buf.cells.length) :
    queued_bytes (net_send_queue P w data len s).c.send_queue =
      queued_bytes w.c.send_queue ++ (data.take len).map some ∧
    ((net_send_queue P w data len s).c.send_queue.map (fun nb => (nb.id, nb.s_off)) =
        w.c.send_queue.map (fun nb => (nb.id, nb.s_off)) ∨
      (net_send_queue P w data len s).c.send_queue.map (fun nb => (nb.id, nb.s_off)) =
        w.c.send_queue.map (fun nb => (nb.id, nb.s_off)) ++ [(w.nb_pool, 0)]) ∧
    pending (net_send_queue P w data len s).c.send_queue =
      pending w.c.send_queue ++ (data.take len).map some :=
  ⟨queued_bytes_net_send_queue P w data len s hlen
      (fun t ht => le_trans (hinv t ht).2.1 (hinv t ht).2.2),
    s_off_net_send_queue P w data len s,
    pending_net_send_queue P w data len s hlen
      (fun t ht => ⟨(hinv t ht).1, le_trans (hinv t ht).2.1 (hinv t ht).2.2⟩)⟩

/-- An instance of `net_send_queue_byte_stream`: the bytes "CD" enqueued behind
the record "AB", which has room for them. -/
theorem net_send_queue_byte_stream_witness :
    ([67, 68].length ≤ [67, 68].length) ∧
    (∀ nb ∈ world_ab.c.send_queue,
      nb.s_off ≤ nb.b_len ∧ nb.b_len ≤ nb.m_len ∧ nb.m_len ≤ nb.buf.cells.length) ∧
    queued_bytes (net_send_queue params8 world_ab [67, 68] 2 none).c.send_queue =
      queued_bytes world_ab.c.send_queue ++ ([67, 68].take 2).map some ∧
    ((net_send_queue params8 world_ab [67, 68] 2 none).c.send_queue.map
          (fun nb => (nb.id, nb.s_off)) =
        world_ab.c.send_queue.map (fun nb => (nb.id, nb.s_off)) ∨
      (net_send_queue params8 world_ab [67, 68] 2 none).c.send_queue.map
          (fun nb => (nb.id, nb.s_off)) =
        world_ab.c.send_queue.map (fun nb => (nb.id, nb.s_off)) ++ [(world_ab.nb_pool, 0)]) ∧
    pending (net_send_queue params8 world_ab [67, 68] 2 none).c.send_queue =
      pending world_ab.c.send_queue ++ ([67, 68].take 2).map some :=
  ⟨le_refl _, by decide,
    net_send_queue_byte_stream params8 world_ab [67, 68] 2 none (le_refl _) (by decide)⟩

/-! ## The byte-order codec -/

theorem net_write16_eq (le : Bool) (p : List Cell) (n : Nat) (hn : n < 65536) :
    net_write16 le p n = some (n / 256) :: some (n % 256) :: p.drop 2 := by
  have h1 : n / 256 % 256 = n / 256 := by omega
  cases le
  · have h2 : n % 65536 / 256 % 256 = n / 256 := by omega
    have h3 : n % 65536 % 256 = n % 256 := by omega
    simp [net_write16, memcpy, store16, htons, h2, h3]
  · have h2 : (n % 256 * 256 + n / 256 % 256) % 256 = n / 256 := by omega
    have h3 : (n % 256 * 256 + n / 256 % 256) / 256 % 256 = n % 256 := by omega
    simp [net_write16, memcpy, store16, htons, bswap16, h2, h3]

theorem net_read16_eq (le : Bool) (b0 b1 : Nat) (rest : List Cell) (h0 : b0 < 256)
    (h1 : b1 < 256) : net_read16 le (some b0 :: some b1 :: rest) = some (256 * b0 + b1) := by
  cases le
  · simp only [net_read16, load16, ntohs, Option.map_some', Bool.false_eq_true, if_false]
    congr 1
    omega
  · simp only [net_read16, load16, ntohs, bswap16, Option.map_some', if_true]
    congr 1
    omega

theorem net_write32_eq (le : Bool) (p : List Cell) (n : Nat) (hn : n < 4294967296) :
    net_write32 le p n =
      some (n / 16777216) :: some (n / 65536 % 256) :: some (n / 256 % 256) ::
        some (n % 256) :: p.drop 4 := by
  cases le
  · have h1 : n % 4294967296 / 16777216 % 256 = n / 16777216 := by omega
    have h2 : n % 4294967296 / 65536 % 256 = n / 65536 % 256 := by omega
    have h3 : n % 4294967296 / 256 % 256 = n / 256 % 256 := by omega
    have h4 : n % 4294967296 % 256 = n % 256 := by omega
    simp [net_write32, memcpy, store32, htonl, h1, h2, h3, h4]
  · have key : ∀ a b c d : Nat, a < 256 → b < 256 → c < 256 → d < 256 →
        (a * 16777216 + b * 65536 + c * 256 + d) % 256 = d ∧
        (a * 16777216 + b * 65536 + c * 256 + d) / 256 % 256 = c ∧
        (a * 16777216 + b * 65536 + c * 256 + d) / 65536 % 256 = b ∧
        (a * 16777216 + b * 65536 + c * 256 + d) / 16777216 % 256 = a := by
      intro a b c d ha hb hc hd
      omega
    obtain ⟨h1, h2, h3, h4⟩ := key (n % 256) (n / 256 % 256) (n / 65536 % 256)
      (n / 16777216 % 256) (Nat.mod_lt _ (by decide)) (Nat.mod_lt _ (by decide))
      (Nat.mod_lt _ (by decide)) (Nat.mod_lt _ (by decide))
    have h5 : n / 16777216 % 256 = n / 16777216 := by omega
    rw [h5] at h1 h2 h3 h4
    simp only [net_write32, memcpy, store32, htonl, bswap32, h5, if_true, List.take_zero,
      List.nil_append, List.take_succ_cons, List.map_cons, List.map_nil, Nat.zero_add,
      List.cons_append, h1, h2, h3, h4]

theorem net_read32_eq (le : Bool) (b0 b1 b2 b3 : Nat) (rest : List Cell) (h0 : b0 < 256)
    (h1 : b1 < 256) (h2 : b2 < 256) (h3 : b3 < 256) :
    net_read32 le (some b0 :: some b1 :: some b2 :: some b3 :: rest) =
      some (16777216 * b0 + 65536 * b1 + 256 * b2 + b3) := by
  cases le
  · simp only [net_read32, load32, ntohl, Option.map_some', Bool.false_eq_true, if_false]
    congr 1
    omega
  · simp only [net_read32, load32, ntohl, bswap32, Option.map_some', if_true]
    congr 1
    omega

theorem bytes16 (a b : Nat) (ha : a < 256) (hb : b < 256) :
    (a * 256 + b) % 256 = b ∧ (a * 256 + b) / 256 % 256 = a := by
  omega

theorem bytes32 (a b c d : Nat) (ha : a < 256) (hb : b < 256) (hc : c < 256) (hd : d < 256) :
    (a * 16777216 + b * 65536 + c * 256 + d) % 256 = d ∧
    (a * 16777216 + b * 65536 + c * 256 + d) / 256 % 256 = c ∧
    (a * 16777216 + b * 65536 + c * 256 + d) / 65536 % 256 = b ∧
    (a * 16777216 + b * 65536 + c * 256 + d) / 16777216 % 256 = a := by
  omega

theorem net_write16_host (le : Bool) (p : List Cell) (n : Nat) :
    net_write16 le p n = net_write16 false p n := by
  cases le
  · rfl
  · obtain ⟨k1, k2⟩ := bytes16 (n % 256) (n / 256 % 256) (Nat.mod_lt _ (by decide))
      (Nat.mod_lt _ (by decide))
    have g1 : n % 65536 / 256 % 256 = n / 256 % 256 := by
      rw [show (65536 : Nat) = 256 * 256 from rfl, Nat.mod_mul_right_div_self, Nat.mod_mod]
    have g2 : n % 65536 % 256 = n % 256 := Nat.mod_mod_of_dvd n (by decide)
    simp only [net_write16, memcpy, store16, htons, bswap16, if_true, Bool.false_eq_true,
      if_false, k1, k2, g1, g2]

theorem net_read16_host (le : Bool) (b : List Cell) :
    net_read16 le b = net_read16 false b := by
  cases le
  · rfl
  · rcases b with _ | ⟨_ | b0, _ | ⟨_ | b1, rest⟩⟩ <;> try rfl
    simp only [net_read16, load16, ntohs, bswap16, Option.map_some', if_true,
      Bool.false_eq_true, if_false]
    congr 1
    have h0 : b0 % 256 < 256 := Nat.mod_lt _ (by decide)
    have h1 : b1 % 256 < 256 := Nat.mod_lt _ (by decide)
    generalize b0 % 256 = a at h0
    generalize b1 % 256 = b at h1
    have e : a + 256 * b = b * 256 + a := by omega
    obtain ⟨k1, k2⟩ := bytes16 b a h1 h0
    rw [e, k1, k2]
    omega

theorem net_write32_host (le : Bool) (p : List Cell) (n : Nat) :
    net_write32 le p n = net_write32 false p n := by
  cases le
  · rfl
  · obtain ⟨h1, h2, h3, h4⟩ := bytes32 (n % 256) (n / 256 % 256) (n / 65536 % 256)
      (n / 16777216 % 256) (Nat.mod_lt _ (by decide)) (Nat.mod_lt _ (by decide))
      (Nat.mod_lt _ (by decide)) (Nat.mod_lt _ (by decide))
    have g1 : n % 4294967296 / 16777216 % 256 = n / 16777216 % 256 := by
      rw [show (4294967296 : Nat) = 16777216 * 256 from rfl, Nat.mod_mul_right_div_self,
        Nat.mod_mod]
    have g2 : n % 4294967296 / 65536 % 256 = n / 65536 % 256 := by
      rw [show (4294967296 : Nat) = 65536 * 65536 from rfl, Nat.mod_mul_right_div_self]
      exact Nat.mod_mod_of_dvd _ (by decide)
    have g3 : n % 4294967296 / 256 % 256 = n / 256 % 256 := by
      rw [show (4294967296 : Nat) = 256 * 16777216 from rfl, Nat.mod_mul_right_div_self]
      exact Nat.mod_mod_of_dvd _ (by decide)
    have g4 : n % 4294967296 % 256 = n % 256 := Nat.mod_mod_of_dvd n (by decide)
    simp only [net_write32, memcpy, store32, htonl, bswap32, if_true, Bool.false_eq_true,
      if_false, h1, h2, h3, h4, g1, g2, g3, g4]

theorem net_read32_host (le : Bool) (b : List Cell) :
    net_read32 le b = net_read32 false b := by
  cases le
  · rfl
  · rcases b with _ | ⟨_ | b0, _ | ⟨_ | b1, _ | ⟨_ | b2, _ | ⟨_ | b3, rest⟩⟩⟩⟩ <;> try rfl
    simp only [net_read32, load32, ntohl, bswap32, Option.map_some', if_true,
      Bool.false_eq_true, if_false]
    congr 1
    have h0 : b0 % 256 < 256 := Nat.mod_lt _ (by decide)
    have h1 : b1 % 256 < 256 := Nat.mod_lt _ (by decide)
    have h2 : b2 % 256 < 256 := Nat.mod_lt _ (by decide)
    have h3 : b3 % 256 < 256 := Nat.mod_lt _ (by decide)
    generalize b0 % 256 = a0 at h0
    generalize b1 % 256 = a1 at h1
    generalize b2 % 256 = a2 at h2
    generalize b3 % 256 = a3 at h3
    have e : a0 + 256 * a1 + 65536 * a2 + 16777216 * a3 =
        a3 * 16777216 + a2 * 65536 + a1 * 256 + a0 := by omega
    obtain ⟨k1, k2, k3, k4⟩ := bytes32 a3 a2 a1 a0 h3 h2 h1 h0
    rw [e, k1, k2, k3, k4]
    omega

/-- C17: `net_write16` stores the two bytes of a 16-bit `n` most
significant first and `net_read16` of the memory written returns `n`;
`net_write32` stores the four bytes of a 32-bit `n` most significant first and
`net_read32` returns `n`; writing back what `net_read16` or `net_read32`
returned for two or four bytes reproduces them; and on a little-endian host
every one of the four functions gives what it gives on a big-endian host. -/
theorem byte_order_codec (le : Bool) :
    (∀ (p : List Cell) (n : Nat), n < 65536 → 2 ≤ p.length →
      net_write16 le p n = some (n / 256) :: some (n % 256) :: p.drop 2 ∧
      (net_write16 le p n).length = p.length ∧
      net_read16 le (net_write16 le p n) = some n) ∧
    (∀ (p : List Cell) (n : Nat), n < 4294967296 → 4 ≤ p.length →
      net_write32 le p n =
        some (n / 16777216) :: some (n / 65536 % 256) :: some (n / 256 % 256) ::
          some (n % 256) :: p.drop 4 ∧
      (net_write32 le p n).length = p.length ∧
      net_read32 le (net_write32 le p n) = some n) ∧
    (∀ (b0 b1 : Nat) (rest : List Cell), b0 < 256 → b1 < 256 →
      net_read16 le (some b0 :: some b1 :: rest) = some (256 * b0 + b1) ∧
      net_write16 le (some b0 :: some b1 :: rest) (256 * b0 + b1) =
        some b0 :: some b1 :: rest) ∧
    (∀ (b0 b1 b2 b3 : Nat) (rest : List Cell), b0 < 256 → b1 < 256 → b2 < 256 → b3 < 256 →
      net_read32 le (some b0 :: some b1 :: some b2 :: some b3 :: rest) =
        some (16777216 * b0 + 65536 * b1 + 256 * b2 + b3) ∧
      net_write32 le (some b0 :: some b1 :: some b2 :: some b3 :: rest)
          (16777216 * b0 + 65536 * b1 + 256 * b2 + b3) =
        some b0 :: some b1 :: some b2 :: some b3 :: rest) ∧
    (∀ (p : List Cell) (n : Nat),
      net_write16 le p n = net_write16 false p n ∧ net_write32 le p n = net_write32 false p n ∧
      net_read16 le p = net_read16 false p ∧ net_read32 le p = net_read32 false p) := by
  refine ⟨?_, ?_, ?_, ?_, ?_⟩
  · intro p n hn hp
    have hw := net_write16_eq le p n hn
    refine ⟨hw, ?_, ?_⟩
    · rw [hw]
      simp only [List.length_cons, List.length_drop]
      omega
    · rw [hw, net_read16_eq le _ _ _ (by omega) (Nat.mod_lt _ (by decide))]
      congr 1
      omega
  · intro p n hn hp
    have hw := net_write32_eq le p n hn
    refine ⟨hw, ?_, ?_⟩
    · rw [hw]
      simp only [List.length_cons, List.length_drop]
      omega
    · rw [hw, net_read32_eq le _ _ _ _ _ (by omega) (Nat.mod_lt _ (by decide))
        (Nat.mod_lt _ (by decide)) (Nat.mod_lt _ (by decide))]
      congr 1
      omega
  · intro b0 b1 rest h0 h1
    refine ⟨net_read16_eq le b0 b1 rest h0 h1, ?_⟩
    rw [net_write16_eq le _ _ (by omega)]
    have e0 : (256 * b0 + b1) / 256 = b0 := by omega
    have e1 : (256 * b0 + b1) % 256 = b1 := by omega
    rw [e0, e1]
    rfl
  · intro b0 b1 b2 b3 rest h0 h1 h2 h3
    refine ⟨net_read32_eq le b0 b1 b2 b3 rest h0 h1 h2 h3, ?_⟩
    rw [net_write32_eq le _ _ (by omega)]
    have e0 : (16777216 * b0 + 65536 * b1 + 256 * b2 + b3) / 16777216 = b0 := by omega
    have e1 : (16777216 * b0 + 65536 * b1 + 256 * b2 + b3) / 65536 % 256 = b1 := by omega
    have e2 : (16777216 * b0 + 65536 * b1 + 256 * b2 + b3) / 256 % 256 = b2 := by omega
    have e3 : (16777216 * b0 + 65536 * b1 + 256 * b2 + b3) % 256 = b3 := by omega
    rw [e0, e1, e2, e3]
    rfl
  · intro p n
    exact ⟨net_write16_host le p n, net_write32_host le p n, net_read16_host le p,
      net_read32_host le p⟩

/-- An instance of `byte_order_codec` on a little-endian host: the value
`0x1234` written over two bytes, and read back. -/
theorem byte_order_codec_witness :
    (4660 < 65536) ∧ (2 ≤ [some 0, none, some 9].length) ∧
    net_write16 true [some 0, none, some 9] 4660 =
      some (4660 / 256) :: some (4660 % 256) :: [some 0, none, some 9].drop 2 ∧
    (net_write16 true [some 0, none, some 9] 4660).length = [some 0, none, some 9].length ∧
    net_read16 true (net_write16 true [some 0, none, some 9] 4660) = some 4660 :=
  ⟨by decide, by decide,
    (byte_order_codec true).1 [some 0, none, some 9] 4660 (by decide) (by decide)⟩

/-! ## Retirement of a record anywhere in a queue -/

theorem nb_find_mid (pre post : List netbuf) (nb : netbuf) (hpre : ∀ x ∈ pre, x.id ≠ nb.id) :
    nb_find nb.id (pre ++ nb :: post) = some nb := by
  induction pre with
  | nil => simp [nb_find]
  | cons y ys ih =>
    have hy : y.id ≠ nb.id := hpre y (List.mem_cons_self _ _)
    have ih1 := ih (fun x hx => hpre x (List.mem_cons_of_mem _ hx))
    unfold nb_find at ih1 ⊢
    simp only [List.cons_append, List.find?_cons, hy, decide_False]
    exact ih1

theorem nb_update_mid (f : netbuf → netbuf) (pre post : List netbuf) (nb : netbuf)
    (hpre : ∀ x ∈ pre, x.id ≠ nb.id) :
    nb_update f nb.id (pre ++ nb :: post) = pre ++ f nb :: post := by
  induction pre with
  | nil => simp [nb_update]
  | cons y ys ih =>
    have hy : y.id ≠ nb.id := hpre y (List.mem_cons_self _ _)
    have ih1 := ih (fun x hx => hpre x (List.mem_cons_of_mem _ hx))
    simp only [List.cons_append, nb_update, hy, if_false]
    exact congrArg (List.cons y) ih1

theorem TAILQ_REMOVE_mid (pre post : List netbuf) (x : netbuf) (id : Nat) (hx : x.id = id)
    (hpre : ∀ y ∈ pre, y.id ≠ id) :
    TAILQ_REMOVE id (pre ++ x :: post) = pre ++ post := by
  induction pre with
  | nil => simp [TAILQ_REMOVE, hx]
  | cons y ys ih =>
    have hy : y.id ≠ id := hpre y (List.mem_cons_self _ _)
    have ih1 := ih (fun z hz => hpre z (List.mem_cons_of_mem _ hz))
    simp only [List.cons_append, TAILQ_REMOVE, hy, if_false]
    exact congrArg (List.cons y) ih1

/-- C15: `net_remove_netbuf(list, nb)` for a record `nb` of the queue
(the first record of its slot, so that the pointer designates it).  With
`NETBUF_MUST_RESEND` set the record stays at its position with its stream
cleared, the rest of the queue is as before, and nothing is freed or returned
to the pool; otherwise the record is unlinked, the others keep their order, the
payload is freed exactly when `NETBUF_IS_STREAM` is not set, and the record is
returned to the pool. -/
theorem net_remove_netbuf_retires (pre post : List netbuf) (nb : netbuf) (trace : List Event)
    (hpre : ∀ x ∈ pre, x.id ≠ nb.id) :
    (nb.flags.NETBUF_MUST_RESEND = true →
      net_remove_netbuf (pre ++ nb :: post) nb.id trace =
        (pre ++ { nb with stream := none } :: post, trace)) ∧
    (nb.flags.NETBUF_MUST_RESEND = false →
      net_remove_netbuf (pre ++ nb :: post) nb.id trace =
        (pre ++ post,
          trace ++ (if nb.flags.NETBUF_IS_STREAM = true then []
                    else [Event.kore_mem_free nb.buf.addr]) ++ [Event.kore_pool_put nb.id])) := by
  constructor
  · intro h
    unfold net_remove_netbuf
    rw [nb_find_mid pre post nb hpre, nb_update_mid _ pre post nb hpre]
    simp [h]
  · intro h
    unfold net_remove_netbuf
    rw [nb_find_mid pre post nb hpre, nb_update_mid _ pre post nb hpre]
    simp only [h, Bool.false_eq_true, if_false]
    rw [TAILQ_REMOVE_mid pre post { nb with stream := none } nb.id rfl hpre]
    cases hs : nb.flags.NETBUF_IS_STREAM <;> simp

/-- An instance of `net_remove_netbuf_retires`: the second of three records is
retired, with and without `NETBUF_MUST_RESEND`. -/
theorem net_remove_netbuf_retires_witness :
    (∀ x ∈ [new_send_netbuf params4 0 100 [1] 1 none], x.id ≠ 1) ∧
    (net_remove_netbuf
        ([new_send_netbuf params4 0 100 [1] 1 none] ++
          { new_send_netbuf params4 1 101 [2] 1 (some 5) with
            flags := { NetbufFlags.zero with NETBUF_MUST_RESEND := true } } ::
          [new_send_netbuf params4 2 102 [3] 1 none]) 1 [] =
      ([new_send_netbuf params4 0 100 [1] 1 none] ++
        { new_send_netbuf params4 1 101 [2] 1 none with
          flags := { NetbufFlags.zero with NETBUF_MUST_RESEND := true } } ::
        [new_send_netbuf params4 2 102 [3] 1 none], [])) ∧
    (net_remove_netbuf
        ([new_send_netbuf params4 0 100 [1] 1 none] ++
          new_send_netbuf params4 1 101 [2] 1 (some 5) ::
          [new_send_netbuf params4 2 102 [3] 1 none]) 1 [] =
      ([new_send_netbuf params4 0 100 [1] 1 none] ++
        [new_send_netbuf params4 2 102 [3] 1 none],
        [Event.kore_mem_free 101, Event.kore_pool_put 1])) :=
  ⟨by decide,
    (net_remove_netbuf_retires [new_send_netbuf params4 0 100 [1] 1 none]
      [new_send_netbuf params4 2 102 [3] 1 none]
      { new_send_netbuf params4 1 101 [2] 1 (some 5) with
        flags := { NetbufFlags.zero with NETBUF_MUST_RESEND := true } } [] (by decide)).1 rfl,
    (net_remove_netbuf_retires [new_send_netbuf params4 0 100 [1] 1 none]
      [new_send_netbuf params4 2 102 [3] 1 none]
      (new_send_netbuf params4 1 101 [2] 1 (some 5)) [] (by decide)).2 rfl⟩

/-! ## One pass of `net_recv` -/

theorem net_recv_step {σ : Type} (P : Params) (T : Transport σ)
    (cbs : Nat → Nat → World σ → Int × World σ) (fuel : Nat) (w : World σ) :
    net_recv P T cbs (fuel + 1) w =
      match net_recv_iter P T cbs w with
      | none => none
      | some (Step.ret r w1) => some (r, w1)
      | some (Step.next w1) => net_recv P T cbs fuel w1 := rfl

theorem net_recv_iter_nil {σ : Type} (P : Params) (T : Transport σ)
    (cbs : Nat → Nat → World σ → Int × World σ) (w : World σ) (hq : w.c.recv_queue = []) :
    net_recv_iter P T cbs w = some (Step.ret KORE_RESULT_OK w) := by
  simp [net_recv_iter, hq]

theorem net_recv_iter_no_cb {σ : Type} (P : Params) (T : Transport σ)
    (cbs : Nat → Nat → World σ → Int × World σ) (w : World σ) (nb : netbuf)
    (rest : List netbuf) (hq : w.c.recv_queue = nb :: rest) (hcb : nb.cb = none) :
    net_recv_iter P T cbs w = some (Step.ret KORE_RESULT_ERROR w) := by
  simp [net_recv_iter, hq, hcb]

theorem net_recv_iter_block {σ : Type} (P : Params) (T : Transport σ)
    (cbs : Nat → Nat → World σ → Int × World σ) (w : World σ) (nb : netbuf)
    (rest : List netbuf) (fn : Nat) (hq : w.c.recv_queue = nb :: rest) (hcb : nb.cb = some fn)
    (hr : (T.SSL_read w.c.ssl (recv_len P nb)).1 ≤ 0)
    (he : T.SSL_get_error (T.SSL_read w.c.ssl (recv_len P nb)).2.2
            (T.SSL_read w.c.ssl (recv_len P nb)).1 = SSL_ERROR_WANT_READ ∨
          T.SSL_get_error (T.SSL_read w.c.ssl (recv_len P nb)).2.2
            (T.SSL_read w.c.ssl (recv_len P nb)).1 = SSL_ERROR_WANT_WRITE) :
    net_recv_iter P T cbs w = some (Step.ret KORE_RESULT_OK
      { net_recv_read P w nb (T.SSL_read w.c.ssl (recv_len P nb)) with
        c := { (net_recv_read P w nb (T.SSL_read w.c.ssl (recv_len P nb))).c with
          flags := { w.c.flags with CONN_READ_POSSIBLE := false } } }) := by
  unfold recv_len at hr he
  simp only [net_recv_iter, hq, hcb, hr, he, if_true]
  simp [net_recv_read, recv_len, hq]

theorem net_recv_iter_error {σ : Type} (P : Params) (T : Transport σ)
    (cbs : Nat → Nat → World σ → Int × World σ) (w : World σ) (nb : netbuf)
    (rest : List netbuf) (fn : Nat) (hq : w.c.recv_queue = nb :: rest) (hcb : nb.cb = some fn)
    (hr : (T.SSL_read w.c.ssl (recv_len P nb)).1 ≤ 0)
    (he : ¬ (T.SSL_get_error (T.SSL_read w.c.ssl (recv_len P nb)).2.2
            (T.SSL_read w.c.ssl (recv_len P nb)).1 = SSL_ERROR_WANT_READ ∨
          T.SSL_get_error (T.SSL_read w.c.ssl (recv_len P nb)).2.2
            (T.SSL_read w.c.ssl (recv_len P nb)).1 = SSL_ERROR_WANT_WRITE)) :
    net_recv_iter P T cbs w = some (Step.ret KORE_RESULT_ERROR
      (net_recv_read P w nb (T.SSL_read w.c.ssl (recv_len P nb)))) := by
  unfold recv_len at hr he
  simp only [net_recv_iter, hq, hcb, hr, he, if_true, if_false]
  simp [net_recv_read, recv_len, hq]

theorem net_recv_iter_quiet {σ : Type} (P : Params) (T : Transport σ)
    (cbs : Nat → Nat → World σ → Int × World σ) (w : World σ) (nb : netbuf)
    (rest : List netbuf) (fn : Nat) (hq : w.c.recv_queue = nb :: rest) (hcb : nb.cb = some fn)
    (hr : 0 < (T.SSL_read w.c.ssl (recv_len P nb)).1)
    (hc : ¬ ((net_recv_advance P nb (T.SSL_read w.c.ssl (recv_len P nb))).s_off = nb.b_len ∨
      nb.flags.NETBUF_CALL_CB_ALWAYS = true)) :
    net_recv_iter P T cbs w =
      some (Step.next (net_recv_stored P w nb rest (T.SSL_read w.c.ssl (recv_len P nb)))) := by
  obtain ⟨id, buf, s_off, b_len, m_len, type, flags, stream, cb⟩ := nb
  simp only at hcb
  subst hcb
  have hr' : ¬ (T.SSL_read w.c.ssl (to_int (usub P b_len s_off))).1 ≤ 0 := by
    unfold recv_len at hr
    simp only at hr
    omega
  unfold recv_len net_recv_advance at hc
  simp only at hc
  simp only [net_recv_iter, hq, hr', hc, if_false]
  simp [net_recv_stored, net_recv_advance, net_recv_read, recv_len]

theorem net_recv_iter_cb {σ : Type} (P : Params) (T : Transport σ)
    (cbs : Nat → Nat → World σ → Int × World σ) (w : World σ) (nb : netbuf)
    (rest : List netbuf) (fn : Nat) (hq : w.c.recv_queue = nb :: rest) (hcb : nb.cb = some fn)
    (hr : 0 < (T.SSL_read w.c.ssl (recv_len P nb)).1)
    (hc : (net_recv_advance P nb (T.SSL_read w.c.ssl (recv_len P nb))).s_off = nb.b_len ∨
      nb.flags.NETBUF_CALL_CB_ALWAYS = true) :
    net_recv_iter P T cbs w =
      net_recv_after_cb
        (cbs fn nb.id
          (net_recv_enter P w nb rest (T.SSL_read w.c.ssl (recv_len P nb)) fn)).2 nb.id
        (cbs fn nb.id
          (net_recv_enter P w nb rest (T.SSL_read w.c.ssl (recv_len P nb)) fn)).1 := by
  obtain ⟨id, buf, s_off, b_len, m_len, type, flags, stream, cb⟩ := nb
  simp only at hcb
  subst hcb
  have hr' : ¬ (T.SSL_read w.c.ssl (to_int (usub P b_len s_off))).1 ≤ 0 := by
    unfold recv_len at hr
    simp only at hr
    omega
  unfold recv_len net_recv_advance at hc
  simp only at hc
  simp only [net_recv_iter, hq, hr', hc, if_false, if_true]
  simp [net_recv_enter, net_recv_stored, net_recv_advance, net_recv_read, recv_len]

theorem net_recv_after_cb_keep {σ : Type} (w : World σ) (nb : Nat) (r : Int) (nb2 : netbuf)
    (hf : nb_find nb w.c.recv_queue = some nb2)
    (hc : ¬ (nb2.s_off = nb2.b_len ∨ nb2.flags.NETBUF_FORCE_REMOVE = true)) :
    net_recv_after_cb w nb r =
      some (if r ≠ KORE_RESULT_OK then Step.ret r w else Step.next w) := by
  simp only [net_recv_after_cb, hf, hc, if_false]
  split <;> rfl

theorem net_recv_after_cb_remove {σ : Type} (w : World σ) (nb : Nat) (r : Int) (nb2 : netbuf)
    (hf : nb_find nb w.c.recv_queue = some nb2)
    (hc : nb2.s_off = nb2.b_len ∨ nb2.flags.NETBUF_FORCE_REMOVE = true) :
    net_recv_after_cb w nb r =
      some (if r ≠ KORE_RESULT_OK then
          Step.ret r { w with
            c := { w.c with recv_queue := (net_remove_netbuf w.c.recv_queue nb w.trace).1 },
            trace := (net_remove_netbuf w.c.recv_queue nb w.trace).2 }
        else
          Step.next { w with
            c := { w.c with recv_queue := (net_remove_netbuf w.c.recv_queue nb w.trace).1 },
            trace := (net_remove_netbuf w.c.recv_queue nb w.trace).2 }) := by
  simp only [net_recv_after_cb, hf, hc, if_true]
  split <;> rfl

/-- The loop of `net_recv`, started `k` passes earlier, goes on from the world
those passes lead to. -/
theorem net_recv_of_passes {σ : Type} (P : Params) (T : Transport σ)
    (cbs : Nat → Nat → World σ → Int × World σ) (fuel : Nat) :
    ∀ (k : Nat) (w0 w : World σ), net_recv_passes P T cbs k w0 = some w →
      net_recv P T cbs (k + fuel) w0 = net_recv P T cbs fuel w := by
  intro k
  induction k with
  | zero =>
    intro w0 w h
    simp only [net_recv_passes, Option.some.injEq] at h
    rw [h, Nat.zero_add]
  | succ k ih =>
    intro w0 w h
    have hk : k + 1 + fuel = (k + fuel) + 1 := by omega
    rw [hk, net_recv_step]
    simp only [net_recv_passes] at h
    cases hi : net_recv_iter P T cbs w0 with
    | none => rw [hi] at h; cases h
    | some st =>
      cases st with
      | ret r w1 => rw [hi] at h; cases h
      | next w1 =>
        rw [hi] at h
        exact ih w1 w h

/-- C13: `net_recv_expand` on a pointer to a record of the connection
returns `KORE_RESULT_ERROR` exactly when the type of the record is not
`NETBUF_RECV`, and then leaves the whole state (the record, the receive queue)
as it was; and at a pass of `net_recv` where the front record of the receive
queue has no callback, `net_recv` returns `KORE_RESULT_ERROR` in the state the
pass started in: no transport read, no change to the record, the queue or the
flags. -/
theorem programming_errors {σ : Type} (P : Params) (T : Transport σ)
    (cbs : Nat → Nat → World σ → Int × World σ) (w : World σ) :
    (∀ (nb len : Nat) (cb : Option Nat) (r0 : netbuf),
      (nb_find nb w.c.recv_queue = some r0 ∨
        (nb_find nb w.c.recv_queue = none ∧ nb_find nb w.c.send_queue = some r0)) →
      (r0.type ≠ NetbufType.NETBUF_RECV →
        net_recv_expand P w nb len cb = some (KORE_RESULT_ERROR, w)) ∧
      (r0.type = NetbufType.NETBUF_RECV → nb_find nb w.c.recv_queue = some r0 →
        ∃ w1, net_recv_expand P w nb len cb = some (KORE_RESULT_OK, w1)) ∧
      (∀ res, net_recv_expand P w nb len cb = some res →
        (res.1 = KORE_RESULT_ERROR ↔ r0.type ≠ NetbufType.NETBUF_RECV))) ∧
    (∀ (nb : netbuf) (rest : List netbuf), w.c.recv_queue = nb :: rest → nb.cb = none →
      net_recv_iter P T cbs w = some (Step.ret KORE_RESULT_ERROR w) ∧
      ∀ (k : Nat) (w0 : World σ) (fuel : Nat), net_recv_passes P T cbs k w0 = some w →
        net_recv P T cbs (k + (fuel + 1)) w0 = some (KORE_RESULT_ERROR, w)) := by
  constructor
  · intro nb len cb r0 hr0
    have hne : KORE_RESULT_OK ≠ KORE_RESULT_ERROR := by decide
    rcases hr0 with h | ⟨h1, h2⟩
    · refine ⟨?_, ?_, ?_⟩
      · intro ht
        simp [net_recv_expand, h, ht]
      · intro ht _
        exact ⟨net_recv_expand_apply P w r0 len cb, by simp [net_recv_expand, h, ht]⟩
      · intro res hres
        by_cases ht : r0.type = NetbufType.NETBUF_RECV
        · simp only [net_recv_expand, h, ht, ne_eq, not_true_eq_false, if_false,
            Option.some.injEq] at hres
          rw [← hres]
          simp [ht, hne]
        · simp only [net_recv_expand, h, ht, ne_eq, not_false_eq_true, if_true,
            Option.some.injEq] at hres
          rw [← hres]
          simp [ht]
    · refine ⟨?_, ?_, ?_⟩
      · intro ht
        simp [net_recv_expand, h1, h2, ht]
      · intro _ hf
        rw [h1] at hf
        cases hf
      · intro res hres
        by_cases ht : r0.type = NetbufType.NETBUF_RECV
        · simp [net_recv_expand, h1, h2, ht] at hres
        · simp only [net_recv_expand, h1, h2, ht, ne_eq, not_false_eq_true, if_true,
            Option.some.injEq] at hres
          rw [← hres]
          simp [ht]
  · intro nb rest hq hcb
    have hi := net_recv_iter_no_cb P T cbs w nb rest hq hcb
    refine ⟨hi, ?_⟩
    intro k w0 fuel hk
    rw [net_recv_of_passes P T cbs (fuel + 1) k w0 w hk, net_recv_step, hi]

/-- An instance of `programming_errors`: `net_recv_expand` is given the send
record "AB", and `net_recv` finds a front record without a callback. -/
theorem programming_errors_witness :
    (nb_find 0 world_ab_recv.c.recv_queue = none ∧
      nb_find 0 world_ab_recv.c.send_queue = some (new_send_netbuf params8 0 100 [65, 66] 2 none) ∧
      (new_send_netbuf params8 0 100 [65, 66] 2 none).type ≠ NetbufType.NETBUF_RECV ∧
      net_recv_expand params8 world_ab_recv 0 6 (some 2) =
        some (KORE_RESULT_ERROR, world_ab_recv)) ∧
    (net_recv_passes params8 (duplex_transport 2) idle_callbacks 0 world_ab_no_cb =
        some world_ab_no_cb ∧
      net_recv params8 (duplex_transport 2) idle_callbacks (0 + (0 + 1)) world_ab_no_cb =
        some (KORE_RESULT_ERROR, world_ab_no_cb)) :=
  ⟨⟨rfl, rfl, by decide,
      ((programming_errors params8 (duplex_transport 2) idle_callbacks world_ab_recv).1 0 6
        (some 2) (new_send_netbuf params8 0 100 [65, 66] 2 none) (Or.inr ⟨rfl, rfl⟩)).1
        (by decide)⟩,
    rfl,
    ((programming_errors params8 (duplex_transport 2) idle_callbacks world_ab_no_cb).2
      { id := 1, cb := none, b_len := 4, m_len := 4, s_off := 0, stream := none,
        flags := NetbufFlags.zero, type := NetbufType.NETBUF_RECV, buf := kore_malloc 101 4 }
      [] rfl rfl).2 0 world_ab_no_cb 0 rfl⟩

/-- The call of line 273 of `net_recv` on a record `nb2` of the queue the
callback left: with `NETBUF_MUST_RESEND` the record stays, otherwise it is
unlinked and released. -/
theorem net_recv_retire_mid {σ : Type} (w : World σ) (pre post : List netbuf) (nb2 : netbuf)
    (hq : w.c.recv_queue = pre ++ nb2 :: post) (hpre : ∀ x ∈ pre, x.id ≠ nb2.id) :
    (nb2.flags.NETBUF_MUST_RESEND = true →
      (net_recv_retire w nb2.id).c.recv_queue = pre ++ { nb2 with stream := none } :: post ∧
      (net_recv_retire w nb2.id).trace = w.trace) ∧
    (nb2.flags.NETBUF_MUST_RESEND = false →
      (net_recv_retire w nb2.id).c.recv_queue = pre ++ post ∧
      (net_recv_retire w nb2.id).trace = w.trace ++ release_events nb2) := by
  have hmid : ∀ (tr : List Event),
      (nb2.flags.NETBUF_MUST_RESEND = true →
        net_remove_netbuf (pre ++ nb2 :: post) nb2.id tr =
          (pre ++ { nb2 with stream := none } :: post, tr)) ∧
      (nb2.flags.NETBUF_MUST_RESEND = false →
        net_remove_netbuf (pre ++ nb2 :: post) nb2.id tr =
          (pre ++ post, tr ++ release_events nb2)) := by
    intro tr
    constructor
    · intro h
      unfold net_remove_netbuf
      rw [nb_find_mid pre post nb2 hpre, nb_update_mid _ pre post nb2 hpre]
      simp [h]
    · intro h
      unfold net_remove_netbuf
      rw [nb_find_mid pre post nb2 hpre, nb_update_mid _ pre post nb2 hpre]
      simp only [h, Bool.false_eq_true, if_false]
      rw [TAILQ_REMOVE_mid pre post { nb2 with stream := none } nb2.id rfl hpre]
      cases hs : nb2.flags.NETBUF_IS_STREAM <;> simp [release_events, hs]
  constructor
  · intro h
    simp [net_recv_retire, hq, (hmid w.trace).1 h]
  · intro h
    simp [net_recv_retire, hq, (hmid w.trace).2 h]

/-- A pass of `net_recv` that enters the callback: the callback returned `v`
and left the world `wc`, in which the pointer designates `nb2`. -/
theorem net_recv_iter_cb_outcome {σ : Type} (P : Params) (T : Transport σ)
    (cbs : Nat → Nat → World σ → Int × World σ) (w : World σ) (nb : netbuf)
    (rest : List netbuf) (fn : Nat) (v : Int) (wc : World σ) (nb2 : netbuf)
    (hq : w.c.recv_queue = nb :: rest) (hcb : nb.cb = some fn)
    (hr : 0 < (T.SSL_read w.c.ssl (recv_len P nb)).1)
    (hc : (net_recv_advance P nb (T.SSL_read w.c.ssl (recv_len P nb))).s_off = nb.b_len ∨
      nb.flags.NETBUF_CALL_CB_ALWAYS = true)
    (hcbs : cbs fn nb.id (net_recv_enter P w nb rest (T.SSL_read w.c.ssl (recv_len P nb)) fn) =
      (v, wc))
    (hf : nb_find nb.id wc.c.recv_queue = some nb2) :
    net_recv_iter P T cbs w =
      some (net_recv_result v
        (if nb2.s_off = nb2.b_len ∨ nb2.flags.NETBUF_FORCE_REMOVE = true then
          net_recv_retire wc nb.id else wc)) := by
  rw [net_recv_iter_cb P T cbs w nb rest fn hq hcb hr hc, hcbs]
  by_cases hc2 : nb2.s_off = nb2.b_len ∨ nb2.flags.NETBUF_FORCE_REMOVE = true
  · rw [net_recv_after_cb_remove wc nb.id v nb2 hf hc2, if_pos hc2]
    rfl
  · rw [net_recv_after_cb_keep wc nb.id v nb2 hf hc2, if_neg hc2]
    rfl

/-! ## The callback of a receive record is called once -/

/-- C14: in a pass of `net_recv` that enters the callback, let the callback
return `v` and leave the world `wc`, in which the record (not carrying the
send-path mark `NETBUF_MUST_RESEND`) is `nb2`.  When `v` is not
`KORE_RESULT_OK`, `net_recv` returns `v` with no further pass; when `v` is
`KORE_RESULT_OK` the loop goes on.  In both cases the world `wend` that is
left has the record unlinked and released exactly when `s_off = b_len` or
`NETBUF_FORCE_REMOVE` is set on it after the callback, and is `wc` itself,
with the record queued, otherwise. -/
theorem net_recv_callback_failure {σ : Type} (P : Params) (T : Transport σ)
    (cbs : Nat → Nat → World σ → Int × World σ) (w : World σ) (nb : netbuf)
    (rest : List netbuf) (fn : Nat) (out : Int × List Nat × σ) (v : Int) (wc : World σ)
    (nb2 : netbuf) (pre post : List netbuf)
    (hq : w.c.recv_queue = nb :: rest) (hcb : nb.cb = some fn)
    (hout : T.SSL_read w.c.ssl (recv_len P nb) = out) (hr : 0 < out.1)
    (hc : (net_recv_advance P nb out).s_off = nb.b_len ∨ nb.flags.NETBUF_CALL_CB_ALWAYS = true)
    (hcbs : cbs fn nb.id (net_recv_enter P w nb rest out fn) = (v, wc))
    (hqc : wc.c.recv_queue = pre ++ nb2 :: post) (hpre : ∀ x ∈ pre, x.id ≠ nb.id)
    (hid : nb2.id = nb.id) (hflag : nb2.flags.NETBUF_MUST_RESEND = false) :
    ∃ wend : World σ,
      (v ≠ KORE_RESULT_OK →
        net_recv_iter P T cbs w = some (Step.ret v wend) ∧
        ∀ (k : Nat) (w0 : World σ) (fuel : Nat), net_recv_passes P T cbs k w0 = some w →
          net_recv P T cbs (k + (fuel + 1)) w0 = some (v, wend)) ∧
      (v = KORE_RESULT_OK →
        net_recv_iter P T cbs w = some (Step.next wend) ∧
        ∀ (k : Nat) (w0 : World σ) (fuel : Nat), net_recv_passes P T cbs k w0 = some w →
          net_recv P T cbs (k + (fuel + 1)) w0 = net_recv P T cbs fuel wend) ∧
      ((nb2.s_off = nb2.b_len ∨ nb2.flags.NETBUF_FORCE_REMOVE = true) →
        wend.c.recv_queue = pre ++ post ∧ wend.trace = wc.trace ++ release_events nb2 ∧
        wend.c.send_queue = wc.c.send_queue ∧ wend.c.flags = wc.c.flags) ∧
      (¬ (nb2.s_off = nb2.b_len ∨ nb2.flags.NETBUF_FORCE_REMOVE = true) →
        wend = wc ∧ wend.c.recv_queue = pre ++ nb2 :: post) := by
  subst hout
  have hpre2 : ∀ x ∈ pre, x.id ≠ nb2.id := by
    rw [hid]
    exact hpre
  have hf : nb_find nb.id wc.c.recv_queue = some nb2 := by
    rw [hqc, ← hid]
    exact nb_find_mid pre post nb2 hpre2
  have hi := net_recv_iter_cb_outcome P T cbs w nb rest fn v wc nb2 hq hcb hr hc hcbs hf
  refine ⟨if nb2.s_off = nb2.b_len ∨ nb2.flags.NETBUF_FORCE_REMOVE = true then
    net_recv_retire wc nb.id else wc, ?_, ?_, ?_, ?_⟩
  · intro hv
    have hi1 : net_recv_iter P T cbs w = some (Step.ret v
        (if nb2.s_off = nb2.b_len ∨ nb2.flags.NETBUF_FORCE_REMOVE = true then
          net_recv_retire wc nb.id else wc)) := by
      rw [hi]
      simp [net_recv_result, hv]
    refine ⟨hi1, ?_⟩
    intro k w0 fuel hk
    rw [net_recv_of_passes P T cbs (fuel + 1) k w0 w hk, net_recv_step, hi1]
  · intro hv
    have hi1 : net_recv_iter P T cbs w = some (Step.next
        (if nb2.s_off = nb2.b_len ∨ nb2.flags.NETBUF_FORCE_REMOVE = true then
          net_recv_retire wc nb.id else wc)) := by
      rw [hi]
      simp [net_recv_result, hv]
    refine ⟨hi1, ?_⟩
    intro k w0 fuel hk
    rw [net_recv_of_passes P T cbs (fuel + 1) k w0 w hk, net_recv_step, hi1]
  · intro hc2
    rw [if_pos hc2, ← hid]
    exact ⟨((net_recv_retire_mid wc pre post nb2 hqc hpre2).2 hflag).1,
      ((net_recv_retire_mid wc pre post nb2 hqc hpre2).2 hflag).2, rfl, rfl⟩
  · intro hc2
    rw [if_neg hc2]
    exact ⟨rfl, hqc⟩

/-- An instance of `net_recv_callback_failure`: in the second drain of
scenario B the callback returns 7; `net_recv` returns 7 and the record, which
is complete, has been retired. -/
theorem net_recv_callback_failure_witness :
    (world_B2.c.recv_queue = nb_B2 :: [] ∧ nb_B2.cb = some 1 ∧
      read_script_transport.SSL_read world_B2.c.ssl (recv_len params8 nb_B2) =
        (12, [5, 6, 7, 8, 9, 10, 11, 12, 13, 14, 15, 16], ([], 0)) ∧
      (0 : Int) < 12 ∧ (7 : Int) ≠ KORE_RESULT_OK ∧
      net_recv_passes params8 read_script_transport (const_callbacks 7) 0 world_B2 =
        some world_B2) ∧
    (∃ wend : World (List (Int × Int × List Nat) × Int),
      ((7 : Int) ≠ KORE_RESULT_OK →
        net_recv_iter params8 read_script_transport (const_callbacks 7) world_B2 =
          some (Step.ret 7 wend) ∧
        ∀ (k : Nat) (w0 : World (List (Int × Int × List Nat) × Int)) (fuel : Nat),
          net_recv_passes params8 read_script_transport (const_callbacks 7) k w0 =
            some world_B2 →
          net_recv params8 read_script_transport (const_callbacks 7) (k + (fuel + 1)) w0 =
            some (7, wend))) ∧
    (∃ w3, net_recv params8 read_script_transport (const_callbacks 7) 1 world_B2 =
        some (7, w3) ∧ w3.c.recv_queue = [] ∧
      w3.trace = [Event.SSL_read 10 4, Event.SSL_read 6 (-1), Event.SSL_read 12 12,
        Event.cb 1 0, Event.kore_mem_free 101, Event.kore_pool_put 0]) :=
  ⟨⟨rfl, rfl, rfl, by decide, by decide, rfl⟩,
    (net_recv_callback_failure params8 read_script_transport (const_callbacks 7) world_B2
        nb_B2 [] 1 (12, [5, 6, 7, 8, 9, 10, 11, 12, 13, 14, 15, 16], ([], 0)) 7
        (net_recv_enter params8 world_B2 nb_B2 []
          (12, [5, 6, 7, 8, 9, 10, 11, 12, 13, 14, 15, 16], ([], 0)) 1)
        (net_recv_advance params8 nb_B2
          ((12, [5, 6, 7, 8, 9, 10, 11, 12, 13, 14, 15, 16], ([], 0)) :
            Int × List Nat × (List (Int × Int × List Nat) × Int))) [] []
        rfl rfl rfl (by decide) (Or.inl rfl) rfl rfl (by simp) rfl rfl).imp
      (fun _ h => h.1),
    ⟨_, rfl, rfl, rfl⟩⟩

/-! ## The length requested from the transport -/

theorem chunk_bounded_frame_events (P : Params) (nb : netbuf) :
    ∀ e ∈ frame_events nb, chunk_bounded P e := by
  intro e he
  unfold frame_events at he
  cases hs : nb.stream with
  | none => simp [hs] at he
  | some s =>
    by_cases hi : nb.flags.NETBUF_IS_STREAM = true
    · simp only [hs, hi, if_true, List.mem_singleton] at he
      subst he
      trivial
    · simp [hs, hi] at he

theorem chunk_bounded_release_events (P : Params) (nb : netbuf) :
    ∀ e ∈ release_events nb, chunk_bounded P e := by
  intro e he
  unfold release_events at he
  cases hi : nb.flags.NETBUF_IS_STREAM
  · simp only [hi, Bool.false_eq_true, if_false, List.mem_append, List.mem_singleton] at he
    rcases he with he | he <;> subst he <;> trivial
  · simp only [hi, if_true, List.nil_append, List.mem_singleton] at he
    subst he
    trivial

theorem chunk_bounded_notify_events (P : Params) (nb : netbuf) (r : Int) :
    ∀ e ∈ notify_events nb r, chunk_bounded P e := by
  intro e he
  unfold notify_events at he
  cases hs : nb.stream with
  | none => simp [hs] at he
  | some s =>
    simp only [hs, List.mem_singleton] at he
    subst he
    trivial

theorem chunk_bounded_write_event {σ : Type} (P : Params) (T : Transport σ) (w : World σ)
    (nb : netbuf) : chunk_bounded P (write_event P T w nb) := by
  show send_len P nb ≤ P.NETBUF_SEND_PAYLOAD_MAX
  exact min_le_left _ _

/-- Every call one pass of `net_send` adds to the trace is within the chunk
size. -/
theorem chunk_bounded_net_send_iter {σ : Type} (P : Params) (T : Transport σ) (w : World σ) :
    ∃ evs, (net_send_iter P T w).world.trace = w.trace ++ evs ∧
      ∀ e ∈ evs, chunk_bounded P e := by
  cases hq : w.c.send_queue with
  | nil =>
    rw [net_send_iter_nil P T w hq]
    exact ⟨[], by simp [Step.world], by simp⟩
  | cons nb rest =>
    obtain ⟨evs, q1, htr, _, hcases⟩ := net_send_iter_outcome P T w nb rest hq
    refine ⟨evs, htr, ?_⟩
    have hf := chunk_bounded_frame_events P nb
    have hrel := chunk_bounded_release_events P nb
    have hw := chunk_bounded_write_event P T w nb
    rcases hcases with ⟨_, _, he, _⟩ | ⟨_, _, _, he, _⟩ | ⟨_, _, _, he, _⟩ | ⟨_, _, he, _⟩ |
      ⟨_, _, _, he, _⟩ | ⟨_, _, _, he, _⟩ <;> subst he <;> intro e hmem
    · simp at hmem
    · rcases List.mem_append.1 hmem with h | h
      · exact hf e h
      · exact hrel e h
    · exact hf e hmem
    · rw [List.mem_singleton] at hmem
      subst hmem
      exact hw
    · rcases List.mem_append.1 hmem with h | h
      · rw [List.mem_singleton] at h
        subst h
        exact hw
      · exact chunk_bounded_notify_events P nb _ e h
    · rcases List.mem_append.1 hmem with h | h
      · rcases List.mem_append.1 h with h | h
        · rcases List.mem_append.1 h with h | h
          · rw [List.mem_singleton] at h
            subst h
            exact hw
          · exact chunk_bounded_notify_events P nb _ e h
        · exact hf e h
      · exact hrel e h

theorem net_remove_netbuf_trace (q : List netbuf) (nb : Nat) (tr : List Event) :
    ∃ evs, (net_remove_netbuf q nb tr).2 = tr ++ evs := by
  unfold net_remove_netbuf
  cases nb_find nb q with
  | none => exact ⟨[], by simp⟩
  | some r =>
    by_cases hm : r.flags.NETBUF_MUST_RESEND = true
    · exact ⟨[], by simp [hm]⟩
    · by_cases hi : r.flags.NETBUF_IS_STREAM = true
      · exact ⟨[Event.kore_pool_put nb], by simp [hm, hi]⟩
      · exact ⟨[Event.kore_mem_free r.buf.addr, Event.kore_pool_put nb], by simp [hm, hi]⟩

/-- A pass of `net_recv` on a front record with a callback reads once, and
requests `recv_len` bytes; the callbacks are taken to add to the trace only. -/
theorem net_recv_iter_read_event {σ : Type} (P : Params) (T : Transport σ)
    (cbs : Nat → Nat → World σ → Int × World σ) (w : World σ) (nb : netbuf)
    (rest : List netbuf) (fn : Nat) (hq : w.c.recv_queue = nb :: rest) (hcb : nb.cb = some fn)
    (hcbs : ∀ (f n : Nat) (w1 : World σ), ∃ evs, (cbs f n w1).2.trace = w1.trace ++ evs)
    (st : Step (World σ)) (hst : net_recv_iter P T cbs w = some st) :
    ∃ evs, st.world.trace =
      w.trace ++ Event.SSL_read (recv_len P nb) (T.SSL_read w.c.ssl (recv_len P nb)).1 :: evs := by
  by_cases hr : (T.SSL_read w.c.ssl (recv_len P nb)).1 ≤ 0
  · by_cases he : T.SSL_get_error (T.SSL_read w.c.ssl (recv_len P nb)).2.2
          (T.SSL_read w.c.ssl (recv_len P nb)).1 = SSL_ERROR_WANT_READ ∨
        T.SSL_get_error (T.SSL_read w.c.ssl (recv_len P nb)).2.2
          (T.SSL_read w.c.ssl (recv_len P nb)).1 = SSL_ERROR_WANT_WRITE
    · rw [net_recv_iter_block P T cbs w nb rest fn hq hcb hr he] at hst
      cases hst
      exact ⟨[], rfl⟩
    · rw [net_recv_iter_error P T cbs w nb rest fn hq hcb hr he] at hst
      cases hst
      exact ⟨[], rfl⟩
  · have hr' : 0 < (T.SSL_read w.c.ssl (recv_len P nb)).1 := by omega
    by_cases hc : (net_recv_advance P nb (T.SSL_read w.c.ssl (recv_len P nb))).s_off = nb.b_len ∨
        nb.flags.NETBUF_CALL_CB_ALWAYS = true
    · rw [net_recv_iter_cb P T cbs w nb rest fn hq hcb hr' hc] at hst
      obtain ⟨evs, hevs⟩ := hcbs fn nb.id
        (net_recv_enter P w nb rest (T.SSL_read w.c.ssl (recv_len P nb)) fn)
      generalize cbs fn nb.id
        (net_recv_enter P w nb rest (T.SSL_read w.c.ssl (recv_len P nb)) fn) = res at hst hevs
      have hent : (net_recv_enter P w nb rest (T.SSL_read w.c.ssl (recv_len P nb)) fn).trace =
          w.trace ++ Event.SSL_read (recv_len P nb) (T.SSL_read w.c.ssl (recv_len P nb)).1 ::
            [Event.cb fn nb.id] := by
        simp [net_recv_enter, net_recv_stored, net_recv_read]
      rw [hent] at hevs
      cases hf : nb_find nb.id res.2.c.recv_queue with
      | none => simp [net_recv_after_cb, hf] at hst
      | some nb2 =>
        by_cases hc2 : nb2.s_off = nb2.b_len ∨ nb2.flags.NETBUF_FORCE_REMOVE = true
        · rw [net_recv_after_cb_remove res.2 nb.id res.1 nb2 hf hc2] at hst
          obtain ⟨evs2, hevs2⟩ := net_remove_netbuf_trace res.2.c.recv_queue nb.id res.2.trace
          have hw : st.world.trace = (net_remove_netbuf res.2.c.recv_queue nb.id res.2.trace).2 := by
            simp only [Option.some.injEq] at hst
            rw [← hst]
            split <;> rfl
          refine ⟨[Event.cb fn nb.id] ++ evs ++ evs2, ?_⟩
          rw [hw, hevs2, hevs]
          simp
        · rw [net_recv_after_cb_keep res.2 nb.id res.1 nb2 hf hc2] at hst
          have hw : st.world.trace = res.2.trace := by
            simp only [Option.some.injEq] at hst
            rw [← hst]
            split <;> rfl
          refine ⟨[Event.cb fn nb.id] ++ evs, ?_⟩
          rw [hw, hevs]
          simp
    · rw [net_recv_iter_quiet P T cbs w nb rest fn hq hcb hr' hc] at hst
      cases hst
      exact ⟨[], rfl⟩

/-- C18 as stated fails: a receive record of 10 bytes with a chunk size of 8.
The read of `net_recv` requests all 10 bytes. -/
theorem net_recv_requests_beyond_chunk :
    (∃ w1 : World Unit,
      net_recv params8 (duplex_transport 16) idle_callbacks 2 world_ab_recv =
        some (KORE_RESULT_OK, w1) ∧
      w1.trace = [Event.SSL_read 10 10, Event.cb 1 1, Event.kore_mem_free 101,
        Event.kore_pool_put 1]) ∧
    ¬ chunk_bounded params8 (Event.SSL_read 10 10) := by
  refine ⟨⟨_, rfl, rfl⟩, ?_⟩
  show ¬ ((10 : Int) ≤ ((8 : Nat) : Int))
  decide

/-- C18, amended: every call a run of `net_send` adds to the trace, so every
`SSL_write`, requests at most `NETBUF_SEND_PAYLOAD_MAX` bytes, whatever the
lengths of the records.  A pass of `net_recv` is not bound by the chunk size:
it requests from `SSL_read` the whole remainder `b_len - s_off` of the front
record, converted to `int`.  A remainder below `2^31` is requested as it is,
which is more than the chunk size when more than that is outstanding; a
remainder from `2^31` up to `2^32` reaches `SSL_read` as the negative number
`b_len - s_off - 2^32`. -/
theorem transfers_bounded {σ : Type} (P : Params) (T : Transport σ)
    (cbs : Nat → Nat → World σ → Int × World σ) (w : World σ) :
    (∀ (fuel : Nat) (res : Int × World σ), net_send P T fuel w = some res →
      ∃ evs, res.2.trace = w.trace ++ evs ∧ ∀ e ∈ evs, chunk_bounded P e) ∧
    (∀ (nb : netbuf) (rest : List netbuf) (fn : Nat), w.c.recv_queue = nb :: rest →
      nb.cb = some fn →
      (∀ (f n : Nat) (w1 : World σ), ∃ evs, (cbs f n w1).2.trace = w1.trace ++ evs) →
      (∀ st, net_recv_iter P T cbs w = some st →
        ∃ evs, st.world.trace =
          w.trace ++
            Event.SSL_read (recv_len P nb) (T.SSL_read w.c.ssl (recv_len P nb)).1 :: evs) ∧
      (nb.s_off ≤ nb.b_len → nb.b_len < P.LEN_MOD →
        (nb.b_len - nb.s_off < 2 ^ 31 →
          recv_len P nb = ((nb.b_len - nb.s_off : Nat) : Int) ∧
          (P.NETBUF_SEND_PAYLOAD_MAX < nb.b_len - nb.s_off →
            ∀ r, ¬ chunk_bounded P (Event.SSL_read (recv_len P nb) r))) ∧
        (2 ^ 31 ≤ nb.b_len - nb.s_off → nb.b_len - nb.s_off < 2 ^ 32 →
          recv_len P nb = ((nb.b_len - nb.s_off : Nat) : Int) - 2 ^ 32 ∧
          recv_len P nb < 0))) := by
  constructor
  · intro fuel res h
    have hlaw := net_send_law P T (fun _ => True)
      (fun evs _ _ => ∀ e ∈ evs, chunk_bounded P e)
      (fun e1 e2 _ _ _ h1 h2 e he => by
        rcases List.mem_append.1 he with h | h
        · exact h1 e h
        · exact h2 e h)
      (fun w1 _ => ⟨trivial, chunk_bounded_net_send_iter P T w1⟩) fuel w res trivial h
    exact hlaw.2
  · intro nb rest fn hq hcb hcbs
    refine ⟨fun st hst => net_recv_iter_read_event P T cbs w nb rest fn hq hcb hcbs st hst, ?_⟩
    intro h1 h2
    have hlen : usub P nb.b_len nb.s_off = nb.b_len - nb.s_off := usub_eq P _ _ h1 h2
    constructor
    · intro hsmall
      have hrl : recv_len P nb = ((nb.b_len - nb.s_off : Nat) : Int) := by
        unfold recv_len
        rw [hlen]
        exact to_int_eq _ hsmall
      refine ⟨hrl, ?_⟩
      intro hbig r hcb2
      have : recv_len P nb ≤ (P.NETBUF_SEND_PAYLOAD_MAX : Int) := hcb2
      omega
    · intro hbig hlt
      have hmod : (nb.b_len - nb.s_off) % 2 ^ 32 = nb.b_len - nb.s_off :=
        Nat.mod_eq_of_lt hlt
      have hrl : recv_len P nb = ((nb.b_len - nb.s_off : Nat) : Int) - 2 ^ 32 := by
        unfold recv_len to_int
        rw [hlen, hmod, if_neg (by omega)]
      refine ⟨hrl, ?_⟩
      rw [hrl]
      omega

/-- An instance of `transfers_bounded`: the record "AB" sent over a transport
that takes one byte per call; and a receive record with 3000000000 bytes
outstanding, for which `SSL_read` is called with a negative length. -/
theorem transfers_bounded_witness :
    (∃ res, net_send params8 (chunk_transport 1) 3 world_ab = some res ∧
      ∃ evs, res.2.trace = world_ab.trace ++ evs ∧ ∀ e ∈ evs, chunk_bounded params8 e) ∧
    (world_big_recv.c.recv_queue = nb_big_recv :: [] ∧ nb_big_recv.cb = some 1 ∧
      nb_big_recv.s_off ≤ nb_big_recv.b_len ∧ nb_big_recv.b_len < params8.LEN_MOD ∧
      2 ^ 31 ≤ nb_big_recv.b_len - nb_big_recv.s_off ∧
      nb_big_recv.b_len - nb_big_recv.s_off < 2 ^ 32 ∧
      recv_len params8 nb_big_recv =
        ((nb_big_recv.b_len - nb_big_recv.s_off : Nat) : Int) - 2 ^ 32 ∧
      recv_len params8 nb_big_recv < 0) :=
  ⟨⟨_, rfl, (transfers_bounded params8 (chunk_transport 1) idle_callbacks world_ab).1 3 _ rfl⟩,
    rfl, rfl, by decide, by decide, by decide, by decide,
    ((((transfers_bounded params8 (duplex_transport 4) idle_callbacks world_big_recv).2
      nb_big_recv [] 1 rfl rfl (fun _ _ _ => ⟨[], by simp [idle_callbacks]⟩)).2
        (by decide) (by decide)).2 (by decide) (by decide)).1,
    ((((transfers_bounded params8 (duplex_transport 4) idle_callbacks world_big_recv).2
      nb_big_recv [] 1 rfl rfl (fun _ _ _ => ⟨[], by simp [idle_callbacks]⟩)).2
        (by decide) (by decide)).2 (by decide) (by decide)).2⟩

/-! ## Extending a receive record -/

theorem kore_realloc_take (addr : Nat) (buf : Block) (n k : Nat) (hk : k ≤ buf.cells.length)
    (hn : k ≤ n) : (kore_realloc addr buf n).cells.take k = buf.cells.take k := by
  unfold kore_realloc
  simp only
  rw [List.take_append_of_le_length (by rw [List.length_take]; omega), List.take_take]
  congr 1
  omega

theorem kore_realloc_length (addr : Nat) (buf : Block) (n : Nat) :
    (kore_realloc addr buf n).cells.length = n := by
  unfold kore_realloc
  simp only [List.length_append, List.length_take, List.length_replicate]
  omega

/-- C12 as stated fails: the record of scenario B, with 4 of its 10
bytes received, is extended by `2^32 - 8`.  The call succeeds; the length
field wraps to 2, below `s_off`, and the payload block is cut to 2 bytes. -/
theorem net_recv_expand_wraps :
    world_B1.c.recv_queue.map
        (fun nb => (nb.id, nb.type, nb.s_off, nb.b_len, nb.buf.cells.take nb.s_off)) =
      [(0, NetbufType.NETBUF_RECV, 4, 10, [some 1, some 2, some 3, some 4])] ∧
    ∃ w1, net_recv_expand params8 world_B1 0 4294967288 (some 1) = some (KORE_RESULT_OK, w1) ∧
      w1.c.recv_queue.map
          (fun nb => (nb.id, nb.s_off, nb.b_len, nb.m_len, nb.buf.cells.take nb.s_off)) =
        [(0, 4, 2, 2, [some 1, some 2])] :=
  ⟨rfl, _, rfl, rfl⟩

/-- C12, amended: for a record `r` of type `NETBUF_RECV` in the receive
queue whose length plus `len` fits the length field, `net_recv_expand(c, r,
len, cb)` returns `KORE_RESULT_OK`; afterwards the record is at the front of
the queue with length and capacity `b_len + len`, the same `s_off`, the
callback `cb`, a payload block of the new length whose first `b_len` bytes are
those of before, and the other records follow as they were, in their order. -/
theorem net_recv_expand_extends {σ : Type} (P : Params) (w : World σ) (pre post : List netbuf)
    (r : netbuf) (len : Nat) (cb : Option Nat)
    (hq : w.c.recv_queue = pre ++ r :: post) (hpre : ∀ x ∈ pre, x.id ≠ r.id)
    (ht : r.type = NetbufType.NETBUF_RECV) (hblk : r.b_len ≤ r.buf.cells.length)
    (hfit : r.b_len + len < P.LEN_MOD) :
    ∃ (r1 : netbuf) (w1 : World σ),
      net_recv_expand P w r.id len cb = some (KORE_RESULT_OK, w1) ∧
      w1.c.recv_queue = r1 :: (pre ++ post) ∧
      r1.id = r.id ∧ r1.b_len = r.b_len + len ∧ r1.m_len = r.b_len + len ∧
      r1.s_off = r.s_off ∧ r1.cb = cb ∧ r1.flags = r.flags ∧ r1.type = r.type ∧
      r1.stream = r.stream ∧ r1.buf.cells.length = r.b_len + len ∧
      r1.buf.cells.take r.b_len = r.buf.cells.take r.b_len ∧
      w1.c.send_queue = w.c.send_queue ∧ w1.c.flags = w.c.flags ∧ w1.trace = w.trace := by
  have hfind : nb_find r.id w.c.recv_queue = some r := by
    rw [hq]
    exact nb_find_mid pre post r hpre
  have hrem : TAILQ_REMOVE r.id w.c.recv_queue = pre ++ post := by
    rw [hq]
    exact TAILQ_REMOVE_mid pre post r r.id rfl hpre
  have hu : uadd P r.b_len len = r.b_len + len := uadd_eq P _ _ hfit
  refine ⟨{ r with cb := cb, b_len := r.b_len + len, m_len := r.b_len + len,
                   buf := kore_realloc w.heap r.buf (r.b_len + len) },
    net_recv_expand_apply P w r len cb, ?_, ?_, rfl, rfl, rfl, rfl, rfl, rfl, rfl, rfl,
    kore_realloc_length _ _ _, kore_realloc_take _ _ _ _ hblk (by omega), rfl, rfl, rfl⟩
  · simp [net_recv_expand, hfind, ht]
  · simp only [net_recv_expand_apply, hrem, hu]

/-- An instance of `net_recv_expand_extends`, scenario B: the record with 4 of
its 10 bytes received is extended by 6. -/
theorem net_recv_expand_extends_witness :
    (world_B1.c.recv_queue = [] ++ nb_B1 :: [] ∧ nb_B1.b_len + 6 < params8.LEN_MOD) ∧
    ∃ (r1 : netbuf) (w1 : World (List (Int × Int × List Nat) × Int)),
      net_recv_expand params8 world_B1 0 6 (some 1) = some (KORE_RESULT_OK, w1) ∧
      w1.c.recv_queue = r1 :: ([] ++ []) ∧
      r1.id = 0 ∧ r1.b_len = 10 + 6 ∧ r1.m_len = 10 + 6 ∧ r1.s_off = 4 ∧ r1.cb = some 1 ∧
      r1.flags = NetbufFlags.zero ∧ r1.type = NetbufType.NETBUF_RECV ∧ r1.stream = none ∧
      r1.buf.cells.length = 10 + 6 ∧
      r1.buf.cells.take 10 =
        ([some 1, some 2, some 3, some 4] ++ List.replicate 6 none).take 10 ∧
      w1.c.send_queue = world_B1.c.send_queue ∧ w1.c.flags = world_B1.c.flags ∧
      w1.trace = world_B1.trace :=
  ⟨⟨rfl, by decide⟩,
    net_recv_expand_extends params8 world_B1 [] [] nb_B1 6 (some 1) rfl (by decide) rfl
      (by decide) (by decide)⟩

/-! ## Flushing the send queue -/

/-- A pass of `net_send` that returns, returns `KORE_RESULT_OK` with the send
queue empty or `CONN_WRITE_POSSIBLE` cleared, or `KORE_RESULT_ERROR`. -/
theorem net_send_iter_ret {σ : Type} (P : Params) (T : Transport σ) (w : World σ) (r : Int)
    (w1 : World σ) (h : net_send_iter P T w = Step.ret r w1) :
    (r = KORE_RESULT_OK ∧
      (w1.c.send_queue = [] ∨ w1.c.flags.CONN_WRITE_POSSIBLE = false)) ∨
    r = KORE_RESULT_ERROR := by
  cases hq : w.c.send_queue with
  | nil =>
    rw [net_send_iter_nil P T w hq] at h
    cases h
    exact Or.inl ⟨rfl, Or.inl hq⟩
  | cons nb rest =>
    by_cases hb : nb.b_len = 0
    · rw [net_send_iter_zero P T w nb rest hq hb] at h
      cases h
    · by_cases hr : (T.SSL_write w.c.ssl (send_offered P nb) (send_len P nb)).1 ≤ 0
      · by_cases he :
            T.SSL_get_error (T.SSL_write w.c.ssl (send_offered P nb) (send_len P nb)).2
              (T.SSL_write w.c.ssl (send_offered P nb) (send_len P nb)).1 =
                SSL_ERROR_WANT_READ ∨
            T.SSL_get_error (T.SSL_write w.c.ssl (send_offered P nb) (send_len P nb)).2
              (T.SSL_write w.c.ssl (send_offered P nb) (send_len P nb)).1 =
                SSL_ERROR_WANT_WRITE
        · rw [net_send_iter_block P T w nb rest hq hb hr he] at h
          cases h
          exact Or.inl ⟨rfl, Or.inr rfl⟩
        · rw [net_send_iter_error P T w nb rest hq hb hr he] at h
          cases h
          exact Or.inr rfl
      · rw [net_send_iter_progress P T w nb rest hq hb (by omega)] at h
        cases h

/-- The function `net_send` returns `KORE_RESULT_OK` with the send queue empty
or `CONN_WRITE_POSSIBLE` cleared, or `KORE_RESULT_ERROR`. -/
theorem net_send_ret {σ : Type} (P : Params) (T : Transport σ) (fuel : Nat) :
    ∀ (w : World σ) (r : Int) (w1 : World σ), net_send P T fuel w = some (r, w1) →
      (r = KORE_RESULT_OK ∧
        (w1.c.send_queue = [] ∨ w1.c.flags.CONN_WRITE_POSSIBLE = false)) ∨
      r = KORE_RESULT_ERROR := by
  induction fuel with
  | zero => intro w r w1 h; cases h
  | succ n ih =>
    intro w r w1 h
    rw [net_send_step] at h
    cases hi : net_send_iter P T w with
    | ret r2 w2 =>
      rw [hi] at h
      cases h
      exact net_send_iter_ret P T w r w1 hi
    | next w2 =>
      rw [hi] at h
      exact ih w2 r w1 h

theorem net_send_flush_step {σ : Type} (P : Params) (T : Transport σ) (inner fuel : Nat)
    (w : World σ) :
    net_send_flush P T inner (fuel + 1) w =
      if w.c.send_queue ≠ [] ∧ w.c.flags.CONN_WRITE_POSSIBLE = true then
        match net_send P T inner w with
        | none => none
        | some (r, w1) =>
          if r = 0 then some (KORE_RESULT_ERROR, w1) else net_send_flush P T inner fuel w1
      else some (KORE_RESULT_OK, net_send_flush_close w) := rfl

/-- C16: `net_send_flush` calls `net_send` only with the send queue not
empty and `CONN_WRITE_POSSIBLE` set; when that call reports failure it returns
`KORE_RESULT_ERROR` in the state `net_send` left, without a disconnect;
otherwise it returns `KORE_RESULT_OK` with the send queue empty or
`CONN_WRITE_POSSIBLE` cleared, having called `kore_connection_disconnect` once
if `CONN_CLOSE_EMPTY` is set and the send queue is empty then, and not at all
otherwise. -/
theorem net_send_flush_rule {σ : Type} (P : Params) (T : Transport σ) (inner fuel : Nat)
    (w : World σ) :
    (¬ (w.c.send_queue ≠ [] ∧ w.c.flags.CONN_WRITE_POSSIBLE = true) →
      net_send_flush P T inner (fuel + 1) w = some (KORE_RESULT_OK, net_send_flush_close w)) ∧
    (w.c.send_queue ≠ [] ∧ w.c.flags.CONN_WRITE_POSSIBLE = true →
      ∀ (r : Int) (w1 : World σ), net_send P T inner w = some (r, w1) →
        (r = KORE_RESULT_ERROR →
          net_send_flush P T inner (fuel + 1) w = some (KORE_RESULT_ERROR, w1)) ∧
        (r ≠ KORE_RESULT_ERROR →
          (w1.c.send_queue = [] ∨ w1.c.flags.CONN_WRITE_POSSIBLE = false) ∧
          net_send_flush P T inner (fuel + 2) w =
            some (KORE_RESULT_OK, net_send_flush_close w1))) ∧
    (∀ w1 : World σ,
      (net_send_flush_close w1).c = w1.c ∧
      (w1.c.flags.CONN_CLOSE_EMPTY = true ∧ w1.c.send_queue = [] →
        (net_send_flush_close w1).trace = w1.trace ++ [Event.kore_connection_disconnect]) ∧
      (¬ (w1.c.flags.CONN_CLOSE_EMPTY = true ∧ w1.c.send_queue = []) →
        (net_send_flush_close w1).trace = w1.trace)) := by
  refine ⟨?_, ?_, ?_⟩
  · intro hc
    rw [net_send_flush_step, if_neg hc]
  · intro hc r w1 hs
    constructor
    · intro hr
      rw [net_send_flush_step, if_pos hc, hs]
      have : r = 0 := hr
      simp [this]
    · intro hr
      have hok := net_send_ret P T inner w r w1 hs
      rcases hok with ⟨_, hdone⟩ | hbad
      · refine ⟨hdone, ?_⟩
        have hr0 : ¬ r = 0 := hr
        have hc1 : ¬ (w1.c.send_queue ≠ [] ∧ w1.c.flags.CONN_WRITE_POSSIBLE = true) := by
          rcases hdone with h | h
          · exact fun hh => hh.1 h
          · intro hh
            rw [h] at hh
            exact Bool.noConfusion hh.2
        rw [net_send_flush_step, if_pos hc, hs]
        simp only [hr0, if_false]
        rw [net_send_flush_step, if_neg hc1]
      · exact absurd hbad hr
  · intro w1
    unfold net_send_flush_close
    by_cases h : w1.c.flags.CONN_CLOSE_EMPTY = true ∧ w1.c.send_queue = []
    · simp [h]
    · rw [if_neg h]
      exact ⟨rfl, fun hh => absurd hh h, fun _ => rfl⟩

/-- An instance of `net_send_flush_rule`: the record "AB" on a connection with
`CONN_CLOSE_EMPTY` set is flushed over a transport that takes it in one
write; the connection is then disconnected. -/
theorem net_send_flush_rule_witness :
    (world_ab_closing.c.send_queue ≠ [] ∧
      world_ab_closing.c.flags.CONN_WRITE_POSSIBLE = true) ∧
    ∃ w1, net_send params8 (chunk_transport 8) 2 world_ab_closing =
        some (KORE_RESULT_OK, w1) ∧
      KORE_RESULT_OK ≠ KORE_RESULT_ERROR ∧
      (w1.c.send_queue = [] ∨ w1.c.flags.CONN_WRITE_POSSIBLE = false) ∧
      net_send_flush params8 (chunk_transport 8) 2 (0 + 2) world_ab_closing =
        some (KORE_RESULT_OK, net_send_flush_close w1) ∧
      (net_send_flush_close w1).trace =
        [Event.SSL_write [some 65, some 66] 2 2, Event.kore_mem_free 100, Event.kore_pool_put 0,
          Event.kore_connection_disconnect] :=
  ⟨by decide, _, rfl, by decide,
    (((net_send_flush_rule params8 (chunk_transport 8) 2 0 world_ab_closing).2.1
      (by decide) KORE_RESULT_OK _ rfl).2 (by decide)).1,
    (((net_send_flush_rule params8 (chunk_transport 8) 2 0 world_ab_closing).2.1
      (by decide) KORE_RESULT_OK _ rfl).2 (by decide)).2,
    rfl⟩

/-! ## The placement of `NETBUF_MUST_RESEND` -/

theorem resend_inv_nil : resend_inv [] := by
  constructor <;> intro nb h <;> simp at h

theorem resend_inv_cons (x : netbuf) (rest : List netbuf) :
    resend_inv (x :: rest) ↔
      (x.b_len = 0 → x.flags.NETBUF_MUST_RESEND = false) ∧
      ∀ nb ∈ rest, nb.flags.NETBUF_MUST_RESEND = false := by
  constructor
  · intro h
    exact ⟨h.2 x (List.mem_cons_self _ _), h.1⟩
  · intro h
    refine ⟨h.2, ?_⟩
    intro nb hnb hz
    rcases List.mem_cons.1 hnb with rfl | hnb
    · exact h.1 hz
    · exact h.2 nb hnb

theorem resend_inv_of_unflagged (q : List netbuf)
    (h : ∀ nb ∈ q, nb.flags.NETBUF_MUST_RESEND = false) : resend_inv q := by
  cases q with
  | nil => exact resend_inv_nil
  | cons x rest =>
    exact (resend_inv_cons x rest).2
      ⟨fun _ => h x (List.mem_cons_self _ _), fun nb hnb => h nb (List.mem_cons_of_mem _ hnb)⟩

theorem resend_inv_append_unflagged (q : List netbuf) (x : netbuf) (h : resend_inv q)
    (hx : x.flags.NETBUF_MUST_RESEND = false) : resend_inv (q ++ [x]) := by
  cases q with
  | nil => exact resend_inv_of_unflagged [x] (by simpa using hx)
  | cons y ys =>
    have hy := (resend_inv_cons y ys).1 h
    refine (resend_inv_cons y (ys ++ [x])).2 ⟨hy.1, ?_⟩
    intro nb hnb
    rcases List.mem_append.1 hnb with h1 | h1
    · exact hy.2 nb h1
    · rw [List.mem_singleton] at h1
      rw [h1]
      exact hx

theorem resend_inv_set_last (pre : List netbuf) (t t1 : netbuf) (h : resend_inv (pre ++ [t]))
    (hf : t1.flags = t.flags) (hz : t1.b_len = 0 → t.b_len = 0) : resend_inv (pre ++ [t1]) := by
  cases pre with
  | nil =>
    have ht := (resend_inv_cons t []).1 h
    refine (resend_inv_cons t1 []).2 ⟨?_, by simp⟩
    intro h0
    rw [hf]
    exact ht.1 (hz h0)
  | cons y ys =>
    have hy := (resend_inv_cons y (ys ++ [t])).1 h
    refine (resend_inv_cons y (ys ++ [t1])).2 ⟨hy.1, ?_⟩
    intro nb hnb
    rcases List.mem_append.1 hnb with h1 | h1
    · exact hy.2 nb (List.mem_append_left _ h1)
    · rw [List.mem_singleton] at h1
      rw [h1, hf]
      exact hy.2 t (List.mem_append_right _ (List.mem_singleton.2 rfl))

theorem resend_inv_tail (x : netbuf) (rest : List netbuf) (h : resend_inv (x :: rest)) :
    resend_inv rest :=
  resend_inv_of_unflagged rest ((resend_inv_cons x rest).1 h).2

theorem new_send_netbuf_flags (P : Params) (id addr : Nat) (d : List Nat) (len : Nat)
    (s : Option Nat) : (new_send_netbuf P id addr d len s).flags = NetbufFlags.zero := by
  unfold new_send_netbuf
  rfl

theorem rec_ok_new_send_netbuf (P : Params) (id addr : Nat) (d : List Nat) (len : Nat)
    (s : Option Nat) (hP : P.NETBUF_SEND_PAYLOAD_MAX < P.LEN_MOD) (hlen : len < P.LEN_MOD) :
    rec_ok P (new_send_netbuf P id addr d len s) := by
  have hm := new_send_netbuf_m_len P id addr d len s
  have hb : (new_send_netbuf P id addr d len s).b_len = len := rfl
  have hs : (new_send_netbuf P id addr d len s).s_off = 0 := rfl
  unfold rec_ok
  rw [hb, hs, hm]
  omega

theorem send_wf_append_new (P : Params) (q : List netbuf) (x : netbuf) (h : send_wf P q)
    (hf : x.flags.NETBUF_MUST_RESEND = false) (hx : rec_ok P x) : send_wf P (q ++ [x]) := by
  refine ⟨resend_inv_append_unflagged q x h.1 hf, ?_⟩
  intro nb hnb
  rcases List.mem_append.1 hnb with h1 | h1
  · exact h.2 nb h1
  · rw [List.mem_singleton] at h1
    rw [h1]
    exact hx

theorem send_wf_set_last (P : Params) (pre : List netbuf) (t t1 : netbuf)
    (h : send_wf P (pre ++ [t])) (hf : t1.flags = t.flags) (hz : t1.b_len = 0 → t.b_len = 0)
    (hx : rec_ok P t1) : send_wf P (pre ++ [t1]) := by
  refine ⟨resend_inv_set_last pre t t1 h.1 hf hz, ?_⟩
  intro nb hnb
  rcases List.mem_append.1 hnb with h1 | h1
  · exact h.2 nb (List.mem_append_left _ h1)
  · rw [List.mem_singleton] at h1
    rw [h1]
    exact hx

/-- The call `net_send_queue` with a length that is a value of the length
fields keeps the send queue well formed. -/
theorem send_wf_net_send_queue {σ : Type} (P : Params) (w : World σ) (data : List Nat)
    (len : Nat) (s : Option Nat) (hP : P.NETBUF_SEND_PAYLOAD_MAX < P.LEN_MOD)
    (hlen : len < P.LEN_MOD) (h : send_wf P w.c.send_queue) :
    send_wf P (net_send_queue P w data len s).c.send_queue := by
  have hnew : ∀ (w1 : World σ) (d : List Nat) (n : Nat), n < P.LEN_MOD →
      send_wf P w1.c.send_queue → send_wf P (net_send_queue_new P w1 d n s).c.send_queue := by
    intro w1 d n hn h1
    exact send_wf_append_new P _ _ h1 (by rw [new_send_netbuf_flags]; rfl)
      (rec_ok_new_send_netbuf P _ _ d n s hP hn)
  rcases net_send_queue_cases P w data len s with
    hc | ⟨t, hl, _, hfit, hc⟩ | ⟨t, hl, _, hroom, hover, hc⟩
  · rw [hc]
    exact hnew w data len hlen h
  · have hq := queue_eq_dropLast_of_getLast? hl
    rw [hq] at h
    have ht : rec_ok P t := h.2 t (List.mem_append_right _ (List.mem_singleton.2 rfl))
    rw [hc]
    refine send_wf_set_last P _ t _ h rfl ?_ ?_
    · intro h0
      have : t.b_len + len = 0 := h0
      omega
    · unfold rec_ok at ht ⊢
      simp only
      omega
  · have hq := queue_eq_dropLast_of_getLast? hl
    rw [hq] at h
    have ht : rec_ok P t := h.2 t (List.mem_append_right _ (List.mem_singleton.2 rfl))
    rw [hc]
    refine hnew _ _ _ (by omega) ?_
    refine send_wf_set_last P _ t _ h rfl ?_ ?_
    · intro h0
      have : t.m_len = 0 := h0
      omega
    · unfold rec_ok at ht ⊢
      simp only
      omega

/-- The call `net_send_stream` with a length that is a value of the length
fields keeps the send queue well formed. -/
theorem send_wf_net_send_stream {σ : Type} (P : Params) (w : World σ) (data : Block)
    (len : Nat) (s : Option Nat) (hlen : len < P.LEN_MOD) (h : send_wf P w.c.send_queue) :
    send_wf P (net_send_stream w data len s).c.send_queue := by
  unfold net_send_stream
  refine send_wf_append_new P _ _ h rfl ?_
  unfold rec_ok
  simp only
  omega

theorem net_recv_expand_send_queue {σ : Type} (P : Params) (w : World σ) (nb len : Nat)
    (cb : Option Nat) (res : Int × World σ) (h : net_recv_expand P w nb len cb = some res) :
    res.2.c.send_queue = w.c.send_queue := by
  unfold net_recv_expand at h
  cases hf : nb_find nb w.c.recv_queue with
  | some r =>
    rw [hf] at h
    by_cases ht : r.type = NetbufType.NETBUF_RECV
    · simp only [ht, ne_eq, not_true_eq_false, if_false, Option.some.injEq] at h
      rw [← h]
      rfl
    · simp only [ht, ne_eq, not_false_eq_true, if_true, Option.some.injEq] at h
      rw [← h]
  | none =>
    rw [hf] at h
    cases hf2 : nb_find nb w.c.send_queue with
    | none => simp [hf2] at h
    | some r =>
      by_cases ht : r.type = NetbufType.NETBUF_RECV
      · simp [hf2, ht] at h
      · simp only [hf2, ht, ne_eq, not_false_eq_true, if_true, Option.some.injEq] at h
        rw [← h]

/-- One pass of `net_send` over a transport whose writes report at most the
length requested keeps the send queue well formed, and a pass that does not
return lowers the measure of the queue. -/
theorem net_send_iter_wf {σ : Type} (P : Params) (T : Transport σ) (hT : write_bounded T)
    (w : World σ) (h : send_wf P w.c.send_queue) :
    send_wf P (net_send_iter P T w).world.c.send_queue ∧
    (∀ w2, net_send_iter P T w = Step.next w2 →
      send_measure w2.c.send_queue < send_measure w.c.send_queue) := by
  cases hq : w.c.send_queue with
  | nil =>
    rw [net_send_iter_nil P T w hq]
    refine ⟨?_, fun w2 h2 => by cases h2⟩
    simp only [Step.world, hq]
    exact ⟨resend_inv_nil, by simp⟩
  | cons nb rest =>
    rw [hq] at h
    have hnb : rec_ok P nb := h.2 nb (List.mem_cons_self _ _)
    have hcons := (resend_inv_cons nb rest).1 h.1
    have hrest : send_wf P rest :=
      ⟨resend_inv_tail nb rest h.1, fun x hx => h.2 x (List.mem_cons_of_mem _ hx)⟩
    have hmrest : send_measure rest < send_measure (nb :: rest) := by
      simp only [send_measure]
      omega
    by_cases hb : nb.b_len = 0
    · have hs : nb.s_off = nb.b_len := by
        have := hnb.1
        omega
      rw [net_send_iter_zero P T w nb rest hq hb,
        net_send_retire_removed w nb rest hs (hcons.1 hb)]
      refine ⟨hrest, ?_⟩
      intro w2 h2
      cases h2
      exact hmrest
    · by_cases hr : (T.SSL_write w.c.ssl (send_offered P nb) (send_len P nb)).1 ≤ 0
      · by_cases he :
            T.SSL_get_error (T.SSL_write w.c.ssl (send_offered P nb) (send_len P nb)).2
              (T.SSL_write w.c.ssl (send_offered P nb) (send_len P nb)).1 =
                SSL_ERROR_WANT_READ ∨
            T.SSL_get_error (T.SSL_write w.c.ssl (send_offered P nb) (send_len P nb)).2
              (T.SSL_write w.c.ssl (send_offered P nb) (send_len P nb)).1 =
                SSL_ERROR_WANT_WRITE
        · rw [net_send_iter_block P T w nb rest hq hb hr he]
          refine ⟨?_, fun w2 h2 => by cases h2⟩
          simp only [Step.world]
          refine ⟨(resend_inv_cons _ rest).2 ⟨fun h0 => absurd h0 hb, hcons.2⟩, ?_⟩
          intro x hx
          rcases List.mem_cons.1 hx with rfl | hx
          · exact hnb
          · exact hrest.2 x hx
        · rw [net_send_iter_error P T w nb rest hq hb hr he]
          refine ⟨?_, fun w2 h2 => by cases h2⟩
          simp only [Step.world, net_send_wrote, hq]
          exact h
      · have hr' : 0 < (T.SSL_write w.c.ssl (send_offered P nb) (send_len P nb)).1 := by omega
        rw [net_send_iter_progress P T w nb rest hq hb hr']
        have hadv := net_send_advance_le P nb
          (T.SSL_write w.c.ssl (send_offered P nb) (send_len P nb)).1 hnb.1
          (lt_of_le_of_lt hnb.2.1 hnb.2.2) (hT w.c.ssl _ _)
        by_cases hs : (net_send_advance P nb
            (T.SSL_write w.c.ssl (send_offered P nb) (send_len P nb)).1).s_off = nb.b_len
        · rw [net_send_retire_removed _ _ rest hs rfl]
          refine ⟨hrest, ?_⟩
          intro w2 h2
          cases h2
          exact hmrest
        · rw [net_send_retire_incomplete _ _ rest hs]
          refine ⟨⟨(resend_inv_cons _ rest).2 ⟨fun _ => rfl, hcons.2⟩, ?_⟩, ?_⟩
          · intro x hx
            rcases List.mem_cons.1 hx with rfl | hx
            · exact ⟨hadv.2, hnb.2.1, hnb.2.2⟩
            · exact hrest.2 x hx
          · intro w2 h2
            cases h2
            simp only [send_measure]
            have h1 : (net_send_advance P nb
                (T.SSL_write w.c.ssl (send_offered P nb) (send_len P nb)).1).b_len =
                nb.b_len := rfl
            rw [h1, hadv.1]
            have := hadv.2
            rw [hadv.1] at this
            omega

/-- The call `net_remove_netbuf` keeps a send queue well formed. -/
theorem send_wf_net_remove_netbuf (P : Params) (q : List netbuf) (nb : Nat) (tr : List Event)
    (h : send_wf P q) : send_wf P (net_remove_netbuf q nb tr).1 := by
  refine ⟨?_, forall_net_remove_netbuf (p := rec_ok P) (fun _ hx => hx) q nb tr h.2⟩
  cases q with
  | nil =>
    simp only [net_remove_netbuf, nb_find, List.find?_nil]
    exact resend_inv_nil
  | cons x rest =>
    have hcons := (resend_inv_cons x rest).1 h.1
    by_cases hx : x.id = nb
    · have hf : nb_find nb (x :: rest) = some x := by
        rw [← hx]
        exact nb_find_head x rest
      cases hm : x.flags.NETBUF_MUST_RESEND
      · simp only [net_remove_netbuf, hf, hm, nb_update, hx, if_true, TAILQ_REMOVE,
          Bool.false_eq_true, if_false]
        exact resend_inv_tail x rest h.1
      · simp only [net_remove_netbuf, hf, hm, nb_update, hx, if_true]
        exact (resend_inv_cons _ rest).2 ⟨hcons.1, hcons.2⟩
    · have hf : nb_find nb (x :: rest) = nb_find nb rest := by
        simp [nb_find, List.find?_cons, hx]
      cases hr : nb_find nb rest with
      | none =>
        simp only [net_remove_netbuf, hf, hr]
        exact h.1
      | some r =>
        have hrm : r.flags.NETBUF_MUST_RESEND = false := hcons.2 r (nb_find_mem hr).1
        simp only [net_remove_netbuf, hf, hr, hrm, Bool.false_eq_true, if_false, nb_update, hx,
          TAILQ_REMOVE]
        refine (resend_inv_cons x _).2 ⟨hcons.1, ?_⟩
        intro y hy
        exact forall_nb_update (p := fun z => z.flags.NETBUF_MUST_RESEND = false)
          (fun z => { z with stream := none }) (fun _ hz => hz) nb rest hcons.2 y
          (mem_of_mem_TAILQ_REMOVE nb _ y hy)

/-- A pass of `net_recv` leaves the send queue well formed when the callbacks
do. -/
theorem send_wf_net_recv_iter {σ : Type} (P : Params) (T : Transport σ)
    (cbs : Nat → Nat → World σ → Int × World σ)
    (hcbs : ∀ (f n : Nat) (w1 : World σ), send_wf P w1.c.send_queue →
      send_wf P (cbs f n w1).2.c.send_queue)
    (w : World σ) (st : Step (World σ)) (hst : net_recv_iter P T cbs w = some st)
    (h : send_wf P w.c.send_queue) : send_wf P st.world.c.send_queue := by
  cases hq : w.c.recv_queue with
  | nil =>
    rw [net_recv_iter_nil P T cbs w hq] at hst
    cases hst
    exact h
  | cons nb rest =>
    cases hcb : nb.cb with
    | none =>
      rw [net_recv_iter_no_cb P T cbs w nb rest hq hcb] at hst
      cases hst
      exact h
    | some fn =>
      by_cases hr : (T.SSL_read w.c.ssl (recv_len P nb)).1 ≤ 0
      · by_cases he : T.SSL_get_error (T.SSL_read w.c.ssl (recv_len P nb)).2.2
              (T.SSL_read w.c.ssl (recv_len P nb)).1 = SSL_ERROR_WANT_READ ∨
            T.SSL_get_error (T.SSL_read w.c.ssl (recv_len P nb)).2.2
              (T.SSL_read w.c.ssl (recv_len P nb)).1 = SSL_ERROR_WANT_WRITE
        · rw [net_recv_iter_block P T cbs w nb rest fn hq hcb hr he] at hst
          cases hst
          exact h
        · rw [net_recv_iter_error P T cbs w nb rest fn hq hcb hr he] at hst
          cases hst
          exact h
      · have hr' : 0 < (T.SSL_read w.c.ssl (recv_len P nb)).1 := by omega
        by_cases hc :
            (net_recv_advance P nb (T.SSL_read w.c.ssl (recv_len P nb))).s_off = nb.b_len ∨
            nb.flags.NETBUF_CALL_CB_ALWAYS = true
        · rw [net_recv_iter_cb P T cbs w nb rest fn hq hcb hr' hc] at hst
          have hwc := hcbs fn nb.id
            (net_recv_enter P w nb rest (T.SSL_read w.c.ssl (recv_len P nb)) fn) h
          generalize cbs fn nb.id
            (net_recv_enter P w nb rest (T.SSL_read w.c.ssl (recv_len P nb)) fn) = res
            at hst hwc
          cases hf : nb_find nb.id res.2.c.recv_queue with
          | none => simp [net_recv_after_cb, hf] at hst
          | some nb2 =>
            have hw : st.world.c.send_queue = res.2.c.send_queue := by
              by_cases hc2 : nb2.s_off = nb2.b_len ∨ nb2.flags.NETBUF_FORCE_REMOVE = true
              · rw [net_recv_after_cb_remove res.2 nb.id res.1 nb2 hf hc2] at hst
                simp only [Option.some.injEq] at hst
                rw [← hst]
                split <;> rfl
              · rw [net_recv_after_cb_keep res.2 nb.id res.1 nb2 hf hc2] at hst
                simp only [Option.some.injEq] at hst
                rw [← hst]
                split <;> rfl
            rw [hw]
            exact hwc
        · rw [net_recv_iter_quiet P T cbs w nb rest fn hq hcb hr' hc] at hst
          cases hst
          exact h

/-- In every reachable state the send queue is well formed, when the callbacks
keep it so. -/
theorem send_wf_of_reachable {σ : Type} (P : Params)
    (cbs : Nat → Nat → World σ → Int × World σ)
    (hP : P.NETBUF_SEND_PAYLOAD_MAX < P.LEN_MOD)
    (hcbs : ∀ (f n : Nat) (w1 : World σ), send_wf P w1.c.send_queue →
      send_wf P (cbs f n w1).2.c.send_queue)
    (w : World σ) (h : Reachable P cbs w) : send_wf P w.c.send_queue := by
  induction h with
  | init w hs _ =>
    rw [hs]
    exact ⟨resend_inv_nil, by simp⟩
  | ready w ssl flags _ ih => exact ih
  | send_queue w data len s _ hlen ih => exact send_wf_net_send_queue P w data len s hP hlen ih
  | send_stream w data len s _ hlen ih => exact send_wf_net_send_stream P w data len s hlen ih
  | recv_queue w len flags cb _ ih => exact ih
  | recv_expand w nb len cb res _ hres ih =>
    rw [net_recv_expand_send_queue P w nb len cb res hres]
    exact ih
  | send_pass T w hT _ ih => exact (net_send_iter_wf P T hT w ih).1
  | recv_pass T w st _ hst ih => exact send_wf_net_recv_iter P T cbs hcbs w st hst ih
  | remove_send w nb _ ih => exact send_wf_net_remove_netbuf P _ nb _ ih
  | remove_recv w nb _ ih => exact ih
  | flush_close w _ ih =>
    unfold net_send_flush_close
    split
    · exact ih
    · exact ih

/-! ## Termination of `net_send` -/

/-- More fuel does not change what `net_send` returns. -/
theorem net_send_mono {σ : Type} (P : Params) (T : Transport σ) (fuel : Nat) :
    ∀ (w : World σ) (res : Int × World σ) (k : Nat), net_send P T fuel w = some res →
      net_send P T (fuel + k) w = some res := by
  induction fuel with
  | zero => intro w res k h; cases h
  | succ n ih =>
    intro w res k h
    have hk : n + 1 + k = (n + k) + 1 := by omega
    rw [hk, net_send_step]
    rw [net_send_step] at h
    cases hi : net_send_iter P T w with
    | ret r w1 =>
      rw [hi] at h
      exact h
    | next w1 =>
      rw [hi] at h
      exact ih w1 res k h

/-- On a well-formed send queue, over a transport whose writes report at most
the length requested, `net_send` returns within `send_measure + 1` passes. -/
theorem net_send_returns {σ : Type} (P : Params) (T : Transport σ) (hT : write_bounded T) :
    ∀ (n : Nat) (w : World σ), send_wf P w.c.send_queue → send_measure w.c.send_queue ≤ n →
      ∃ res, net_send P T (n + 1) w = some res := by
  intro n
  induction n with
  | zero =>
    intro w hwf hm
    rw [net_send_step]
    cases hi : net_send_iter P T w with
    | ret r w1 => exact ⟨_, rfl⟩
    | next w1 =>
      have := (net_send_iter_wf P T hT w hwf).2 w1 hi
      omega
  | succ m ih =>
    intro w hwf hm
    rw [net_send_step]
    cases hi : net_send_iter P T w with
    | ret r w1 => exact ⟨_, rfl⟩
    | next w1 =>
      have hlt := (net_send_iter_wf P T hT w hwf).2 w1 hi
      have hwf1 := (net_send_iter_wf P T hT w hwf).1
      rw [hi] at hwf1
      exact ih w1 hwf1 (by omega)

/-- When `net_send` returns `KORE_RESULT_OK`, the send queue is empty or one of
the writes it made did not make progress. -/
theorem net_send_ok_empty_or_stalled {σ : Type} (P : Params) (T : Transport σ) (fuel : Nat) :
    ∀ (w : World σ) (res : Int × World σ), net_send P T fuel w = some res →
      res.1 = KORE_RESULT_OK →
      ∃ evs, res.2.trace = w.trace ++ evs ∧
        (res.2.c.send_queue = [] ∨ ∃ e ∈ evs, is_stalled_write e = true) := by
  induction fuel with
  | zero => intro w res h; cases h
  | succ n ih =>
    intro w res h hok
    rw [net_send_step] at h
    cases hi : net_send_iter P T w with
    | next w1 =>
      rw [hi] at h
      obtain ⟨evs1, h1, _⟩ := chunk_bounded_net_send_iter P T w
      rw [hi] at h1
      obtain ⟨evs2, h2, h3⟩ := ih w1 res h hok
      refine ⟨evs1 ++ evs2, ?_, ?_⟩
      · rw [h2]
        simp only [Step.world] at h1
        rw [h1, List.append_assoc]
      · rcases h3 with h3 | ⟨e, he, hs⟩
        · exact Or.inl h3
        · exact Or.inr ⟨e, List.mem_append_right _ he, hs⟩
    | ret r w1 =>
      rw [hi] at h
      cases h
      cases hq : w.c.send_queue with
      | nil =>
        rw [net_send_iter_nil P T w hq] at hi
        cases hi
        exact ⟨[], by simp, Or.inl hq⟩
      | cons nb rest =>
        by_cases hb : nb.b_len = 0
        · rw [net_send_iter_zero P T w nb rest hq hb] at hi
          cases hi
        · by_cases hr : (T.SSL_write w.c.ssl (send_offered P nb) (send_len P nb)).1 ≤ 0
          · by_cases he :
                T.SSL_get_error (T.SSL_write w.c.ssl (send_offered P nb) (send_len P nb)).2
                  (T.SSL_write w.c.ssl (send_offered P nb) (send_len P nb)).1 =
                    SSL_ERROR_WANT_READ ∨
                T.SSL_get_error (T.SSL_write w.c.ssl (send_offered P nb) (send_len P nb)).2
                  (T.SSL_write w.c.ssl (send_offered P nb) (send_len P nb)).1 =
                    SSL_ERROR_WANT_WRITE
            · rw [net_send_iter_block P T w nb rest hq hb hr he] at hi
              cases hi
              refine ⟨[write_event P T w nb], rfl, Or.inr ⟨_, List.mem_singleton.2 rfl, ?_⟩⟩
              simp only [write_event, is_stalled_write, decide_eq_true_eq]
              exact hr
            · rw [net_send_iter_error P T w nb rest hq hb hr he] at hi
              cases hi
              have hne : KORE_RESULT_ERROR ≠ KORE_RESULT_OK := by decide
              exact absurd hok hne
          · rw [net_send_iter_progress P T w nb rest hq hb (by omega)] at hi
            cases hi

theorem frame_release_no_transport_call (nb : netbuf) :
    ∀ e ∈ frame_events nb ++ release_events nb, is_transport_call e = false := by
  intro e he
  rcases List.mem_append.1 he with h | h
  · unfold frame_events at h
    cases hs : nb.stream with
    | none => simp [hs] at h
    | some s =>
      cases hi : nb.flags.NETBUF_IS_STREAM
      · simp [hs, hi] at h
      · simp only [hs, hi, if_true, List.mem_singleton] at h
        subst h
        rfl
  · unfold release_events at h
    cases hi : nb.flags.NETBUF_IS_STREAM
    · simp only [hi, Bool.false_eq_true, if_false, List.mem_append, List.mem_singleton] at h
      rcases h with h | h <;> subst h <;> rfl
    · simp only [hi, if_true, List.nil_append, List.mem_singleton] at h
      subst h
      rfl

/-- C20: in every state reachable through the operations of `net.c`,
only the front record of the send queue can carry `NETBUF_MUST_RESEND` and no
record of length zero carries it.  So in a pass of `net_send` from such a
state a front record of length zero is removed without a transport call, and
a front record whose `s_off` reaches `b_len` after a write has the flag clear
and is removed: the retirement check never retains a record.  Over a transport
whose writes report at most the length requested, `net_send` returns, with the
same result for every larger bound on the passes; and when it returns
`KORE_RESULT_OK` the send queue is empty or one of its writes made no
progress. -/
theorem net_send_terminates {σ : Type} (P : Params)
    (cbs : Nat → Nat → World σ → Int × World σ)
    (hP : P.NETBUF_SEND_PAYLOAD_MAX < P.LEN_MOD)
    (hcbs : ∀ (f n : Nat) (w1 : World σ), send_wf P w1.c.send_queue →
      send_wf P (cbs f n w1).2.c.send_queue)
    (w : World σ) (hw : Reachable P cbs w) :
    ((∀ nb ∈ w.c.send_queue.tail, nb.flags.NETBUF_MUST_RESEND = false) ∧
      (∀ nb ∈ w.c.send_queue, nb.b_len = 0 → nb.flags.NETBUF_MUST_RESEND = false)) ∧
    (∀ (T : Transport σ) (nb : netbuf) (rest : List netbuf), w.c.send_queue = nb :: rest →
      (nb.b_len = 0 →
        nb.s_off = nb.b_len ∧ nb.flags.NETBUF_MUST_RESEND = false ∧
        (∃ w2, net_send_iter P T w = Step.next w2 ∧ w2.c.send_queue = rest ∧
          w2.trace = w.trace ++ (frame_events nb ++ release_events nb)) ∧
        ∀ e ∈ frame_events nb ++ release_events nb, is_transport_call e = false) ∧
      (nb.b_len ≠ 0 →
        0 < (T.SSL_write w.c.ssl (send_offered P nb) (send_len P nb)).1 →
        (net_send_advance P nb
          (T.SSL_write w.c.ssl (send_offered P nb) (send_len P nb)).1).s_off = nb.b_len →
        (net_send_advance P nb
          (T.SSL_write w.c.ssl (send_offered P nb) (send_len P nb)).1).flags.NETBUF_MUST_RESEND =
            false ∧
        ∃ w2, net_send_iter P T w = Step.next w2 ∧ w2.c.send_queue = rest)) ∧
    (∀ T : Transport σ, write_bounded T →
      ∃ (fuel : Nat) (res : Int × World σ),
        (∀ fuel1, fuel ≤ fuel1 → net_send P T fuel1 w = some res) ∧
        (res.1 = KORE_RESULT_OK →
          ∃ evs, res.2.trace = w.trace ++ evs ∧
            (res.2.c.send_queue = [] ∨ ∃ e ∈ evs, is_stalled_write e = true))) := by
  have hwf := send_wf_of_reachable P cbs hP hcbs w hw
  refine ⟨hwf.1, ?_, ?_⟩
  · intro T nb rest hq
    rw [hq] at hwf
    have hnb : rec_ok P nb := hwf.2 nb (List.mem_cons_self _ _)
    have hcons := (resend_inv_cons nb rest).1 hwf.1
    constructor
    · intro hb
      have hs : nb.s_off = nb.b_len := by
        have := hnb.1
        omega
      refine ⟨hs, hcons.1 hb, ⟨_, net_send_iter_zero P T w nb rest hq hb, ?_, ?_⟩,
        frame_release_no_transport_call nb⟩
      · rw [net_send_retire_removed w nb rest hs (hcons.1 hb)]
      · rw [net_send_retire_removed w nb rest hs (hcons.1 hb)]
        simp only [frame_events, release_events]
        cases nb.stream <;> cases nb.flags.NETBUF_IS_STREAM <;> simp
    · intro hb hr hs
      refine ⟨rfl, _, net_send_iter_progress P T w nb rest hq hb hr, ?_⟩
      rw [net_send_retire_removed _ _ rest hs rfl]
  · intro T hT
    obtain ⟨res, hres⟩ := net_send_returns P T hT (send_measure w.c.send_queue) w hwf (le_refl _)
    refine ⟨send_measure w.c.send_queue + 1, res, ?_, ?_⟩
    · intro fuel1 hf
      have hk : fuel1 = send_measure w.c.send_queue + 1 + (fuel1 - (send_measure w.c.send_queue + 1)) := by
        omega
      rw [hk]
      exact net_send_mono P T _ w res _ hres
    · intro hok
      exact net_send_ok_empty_or_stalled P T _ w res hres hok

/-- An instance of `net_send_terminates`: the state with the record "AB"
queued, reached from the empty connection by one `net_send_queue`, drained
over a transport that takes one byte per write. -/
theorem net_send_terminates_witness :
    params8.NETBUF_SEND_PAYLOAD_MAX < params8.LEN_MOD ∧
    Reachable params8 idle_callbacks world_ab ∧
    write_bounded (chunk_transport 1) ∧
    (∃ (fuel : Nat) (res : Int × World Unit),
      (∀ fuel1, fuel ≤ fuel1 → net_send params8 (chunk_transport 1) fuel1 world_ab = some res) ∧
      (res.1 = KORE_RESULT_OK →
        ∃ evs, res.2.trace = world_ab.trace ++ evs ∧
          (res.2.c.send_queue = [] ∨ ∃ e ∈ evs, is_stalled_write e = true))) ∧
    (∃ w1, net_send params8 (chunk_transport 1) 3 world_ab = some (KORE_RESULT_OK, w1) ∧
      w1.c.send_queue = []) :=
  ⟨by decide,
    Reachable.send_queue world0 [65, 66] 2 none (Reachable.init world0 rfl rfl) (by decide),
    write_bounded_chunk 1,
    (net_send_terminates params8 idle_callbacks (by decide) (fun _ _ _ h => h) world_ab
      (Reachable.send_queue world0 [65, 66] 2 none (Reachable.init world0 rfl rfl)
        (by decide))).2.2 (chunk_transport 1) (write_bounded_chunk 1),
    ⟨_, rfl, rfl⟩⟩

end Kore
